import Mathlib

/-!
# ReiTrei5 scene parser: embedding of `parser.cpp`

The recursive-descent parser of `src/parser.cpp` is embedded as pure functions
over an explicit token-stream state.  A C++ exception is the `Res.error`
outcome, and every recursive routine and every loop takes a fuel argument that
is decreased at each recursive call and each iteration, so that all definitions
are total and executable.

Scalars (`Real` in the source, the type that `sscanf("%lf")` fills, a `double`)
are embedded as IEEE 754 binary64 values: every `+ - * /` of the parser and the
decimal conversion of a literal round to the nearest double, ties to even, and
overflow, division by zero and invalid operations give the infinities and NaN.
Points of space, on which the geometry of a `Modifier` acts, are exact.
-/

set_option maxRecDepth 8000

namespace ReiTrei5

/-! ## Data model -/

/-- A token is its lexeme. -/
abbrev Token := String

/-- Scalar type of the parser (`Real` in the source, a `double`): an IEEE 754
binary64 value.  A finite value is `(-1)^neg * m * 2^e`, in the form that the
operations below produce: `m < 2^53`, `-1074 ≤ e ≤ 971`, and `2^52 ≤ m` unless
`e = -1074` (zero and the subnormal numbers); both zeros are values.  All NaNs
are one value. -/
inductive Real where
  | finite (neg : Bool) (m : Nat) (e : Int)
  | inf (neg : Bool)
  | nan
deriving DecidableEq

/-- Number of binary digits of `n`, with fuel. -/
def bitLengthAux : Nat → Nat → Nat
  | 0, _ => 0
  | fuel + 1, n => if n = 0 then 0 else bitLengthAux fuel (n / 2) + 1

/-- Number of binary digits of `n`: the least `k` with `n < 2 ^ k`. -/
def bitLength (n : Nat) : Nat := bitLengthAux n n

/-- `10 ^ n`. -/
def pow10 : Nat → Nat
  | 0 => 1
  | n + 1 => 10 * pow10 n

/-- The magnitude of the double nearest to `(p / d) * 2^k`, ties to even (`d`
positive): mantissa and exponent, or `none` when the rounded value is beyond the
largest finite double. -/
def roundMag (p d : Nat) (k : Int) : Option (Nat × Int) :=
  if p = 0 then some (0, -1074)
  else
    let s := (bitLength d + 54) - bitLength p
    let p1 := p <<< s
    let k1 := k - s
    let L := bitLength (p1 / d) - 1
    let e := max ((L : Int) + k1 - 52) (-1074)
    let den := d <<< (e - k1).toNat
    let n := p1 / den
    let r := p1 % den
    let m := if den < 2 * r ∨ (2 * r = den ∧ n % 2 = 1) then n + 1 else n
    let m1 := if m = 9007199254740992 then 4503599627370496 else m
    let e1 := if m = 9007199254740992 then e + 1 else e
    if 971 < e1 then none else some (m1, e1)

/-- The double nearest to `(-1)^neg * (p / d) * 2^k`, ties to even. -/
def roundRat (neg : Bool) (p d : Nat) (k : Int) : Real :=
  match roundMag p d k with
  | some (m, e) => .finite neg m e
  | none => .inf neg

/-- Unary minus of a double: the sign is flipped. -/
def Real.neg : Real → Real
  | .finite s m e => .finite (!s) m e
  | .inf s => .inf (!s)
  | .nan => .nan

/-- The integer `n` with the sign `neg`. -/
def signed (neg : Bool) (n : Nat) : Int := if neg then -(n : Int) else (n : Int)

/-- Sum of two doubles, rounded to nearest. The exact sum of two finite values is
formed over the smaller exponent (a zero takes the exponent of the other); an
exact zero sum is `+0` unless both operands are `-0`. -/
def Real.add : Real → Real → Real
  | .nan, _ => .nan
  | _, .nan => .nan
  | .inf s, .inf t => if s = t then .inf s else .nan
  | .inf s, .finite _ _ _ => .inf s
  | .finite _ _ _, .inf t => .inf t
  | .finite s m e, .finite t n f =>
    let e0 := if m = 0 then f else if n = 0 then e else min e f
    let z : Int := signed s (m <<< (e - e0).toNat) + signed t (n <<< (f - e0).toNat)
    if z = 0 then .finite (s && t) 0 (-1074)
    else roundRat (decide (z < 0)) z.natAbs 1 e0

/-- Difference of two doubles: `a + (-b)`. -/
def Real.sub (a b : Real) : Real := a.add b.neg

/-- Product of two doubles, rounded to nearest; the sign is the exclusive or of
the signs, `inf * 0` is NaN. -/
def Real.mul : Real → Real → Real
  | .nan, _ => .nan
  | _, .nan => .nan
  | .inf s, .inf t => .inf (xor s t)
  | .inf s, .finite t n _ => if n = 0 then .nan else .inf (xor s t)
  | .finite s m _, .inf t => if m = 0 then .nan else .inf (xor s t)
  | .finite s m e, .finite t n f => roundRat (xor s t) (m * n) 1 (e + f)

/-- Quotient of two doubles, rounded to nearest; `x / 0` is an infinity for
`x` not zero, `0 / 0` and `inf / inf` are NaN. -/
def Real.div : Real → Real → Real
  | .nan, _ => .nan
  | _, .nan => .nan
  | .inf _, .inf _ => .nan
  | .inf s, .finite t _ _ => .inf (xor s t)
  | .finite s _ _, .inf t => .finite (xor s t) 0 (-1074)
  | .finite s m e, .finite t n f =>
    if n = 0 then (if m = 0 then .nan else .inf (xor s t))
    else roundRat (xor s t) m n (e - f)

/-- The double nearest to a natural number. -/
def Real.ofNat (n : Nat) : Real := roundRat false n 1 0

/-- The double nearest to the decimal `digits / 10 ^ places`. -/
def Real.ofDecimal (digits : Nat) (places : Nat) : Real :=
  roundRat false digits (pow10 places) 0

instance (n : Nat) : OfNat Real n := ⟨Real.ofNat n⟩

instance : Add Real := ⟨Real.add⟩

instance : Sub Real := ⟨Real.sub⟩

instance : Mul Real := ⟨Real.mul⟩

instance : Div Real := ⟨Real.div⟩

instance : Neg Real := ⟨Real.neg⟩

/-- The exact value of a finite double; `none` for an infinity and for NaN. -/
def Real.toRat? : Real → Option ℚ
  | .finite s m e => some ((if s then -1 else 1) * (m : ℚ) * (2 : ℚ) ^ e)
  | _ => none

/-- The double `0.30000000000000004`, the sum of the doubles nearest to `0.1` and
`0.2`. -/
def threeTenthsUp : Real := .finite false 5404319552844596 (-54)

/-- The double `0.3`. -/
def threeTenths : Real := .finite false 5404319552844595 (-54)

/-- Ordered triple of scalars (`Vect3` in the source). -/
structure Vect3 where
  x : Real
  y : Real
  z : Real
deriving DecidableEq

namespace Vect3

/-- Componentwise sum, `operator+` of the source. -/
def add (a b : Vect3) : Vect3 := ⟨a.x + b.x, a.y + b.y, a.z + b.z⟩

/-- Componentwise difference, `operator-` of the source. -/
def sub (a b : Vect3) : Vect3 := ⟨a.x - b.x, a.y - b.y, a.z - b.z⟩

/-- Componentwise negation, unary `operator-` of the source. -/
def neg (a : Vect3) : Vect3 := ⟨-a.x, -a.y, -a.z⟩

/-- Scalar times vector, `coef * v` of the source. -/
def smul (c : Real) (a : Vect3) : Vect3 := ⟨c * a.x, c * a.y, c * a.z⟩

/-- Vector divided by a scalar, `v / s` of the source. -/
def sdiv (a : Vect3) (c : Real) : Vect3 := ⟨a.x / c, a.y / c, a.z / c⟩

end Vect3

/-- The structured parse failure thrown by the parser:
expected construct or token, actual token, line number. -/
structure ParseError where
  expected : String
  actual : String
  line : Nat
deriving DecidableEq

/-- A macro: a name and the ordered tokens recorded for it. -/
structure Macro where
  name : Token
  tokens : List Token
deriving DecidableEq

/-- Embedding of `Macro::addToken`: append one token to the recorded sequence. -/
def Macro.addToken (m : Macro) (t : Token) : Macro :=
  { m with tokens := m.tokens ++ [t] }

/-! ## Token stream

`TokenStream` (the member `ts` of `Parser`) is declared outside `src/`; only its
calls are visible in `parser.cpp`.  It is modelled from the specification. -/

/-- Modelled from the spec: the class `TokenStream` behind `Parser::ts`, which is
not part of `src/`.  The spec describes it as a token source with peek, next and
unget that tracks line numbers, expands registered macros transparently and
signals end-of-input.
* `macros`: registered macros, newest first;
* `pushback`: tokens that were peeked or pushed back, the next one to be read
  first (the parser relies on `*` and `<` both surviving a pushback in
  `parseTerm`, so the buffer is a stack);
* `expansion`: what is left of the body of a macro whose name was lexed;
* `input`: the lexemes of the source text that have not been lexed yet;
* `consumed`: how many lexemes of the source text have been lexed;
* `lineTable`: the line on which each lexeme of the source text stands. -/
structure TokenStream where
  macros : List Macro
  pushback : List Token
  expansion : List Token
  input : List Token
  consumed : Nat
  lineTable : List Nat
deriving DecidableEq

/-- Modelled from the spec: the end-of-input sentinel that `TokenStream::getToken`
(not in `src/`) hands out when nothing is left; it is distinct from every lexeme. -/
def eofToken : Token := ""

namespace TokenStream

/-- A stream over the given lexemes, with no macro registered. -/
def ofList (toks : List Token) : TokenStream :=
  ⟨[], [], [], toks, 0, []⟩

/-- Modelled from the spec: macro lookup of `TokenStream` (not in `src/`); the
newest registration of a name is the one in force. -/
def lookupMacro (ms : List Macro) (t : Token) : Option (List Token) :=
  match ms.find? (fun m => m.name == t) with
  | some m => some m.tokens
  | none => none

/-- Modelled from the spec: lexing of one token from the source text by
`TokenStream` (not in `src/`).  A lexeme that names a registered macro is
replaced in place by the recorded sequence (one pass, the sequence itself is not
expanded again); at end of input the sentinel is returned.
Returns the token, the pending rest of an expansion, the remaining input and
the number of lexemes lexed so far. -/
def lexToken (ms : List Macro) : List Token → Nat → Token × List Token × List Token × Nat
  | [], n => (eofToken, [], [], n)
  | t :: rest, n =>
    match lookupMacro ms t with
    | none => (t, [], rest, n + 1)
    | some [] => lexToken ms rest (n + 1)
    | some (b :: bs) => (b, bs, rest, n + 1)

/-- Modelled from the spec: `TokenStream::getToken` (not in `src/`): hand out the
next token, from the pushback buffer first, then from a pending macro
expansion, then from the source text. -/
def getToken (ts : TokenStream) : Token × TokenStream :=
  match ts.pushback with
  | t :: pb => (t, { ts with pushback := pb })
  | [] =>
    match ts.expansion with
    | t :: ex => (t, { ts with expansion := ex })
    | [] =>
      match lexToken ts.macros ts.input ts.consumed with
      | (t, ex, inp, n) => (t, { ts with expansion := ex, input := inp, consumed := n })

/-- Modelled from the spec: `TokenStream::ungetToken` (not in `src/`): push a
token back so that it is the next one read. -/
def ungetToken (t : Token) (ts : TokenStream) : TokenStream :=
  { ts with pushback := t :: ts.pushback }

/-- Modelled from the spec: `TokenStream::peekToken` (not in `src/`): the next
token, which stays un-consumed in the pushback buffer. -/
def peekToken (ts : TokenStream) : Token × TokenStream :=
  ((getToken ts).1, ungetToken (getToken ts).1 (getToken ts).2)

/-- Modelled from the spec: `TokenStream::lineNumber` (not in `src/`): the line of
the lexeme lexed last (line 1 before any). -/
def lineNumber (ts : TokenStream) : Nat :=
  match ts.consumed with
  | 0 => 1
  | n + 1 => ts.lineTable.getD n 1

/-- Modelled from the spec: `TokenStream::eof` (not in `src/`): no token is left,
neither pending nor in the source text. -/
def eof (ts : TokenStream) : Bool :=
  ts.pushback.isEmpty && ts.expansion.isEmpty && ts.input.isEmpty

/-- Modelled from the spec: `TokenStream::addMacro` (not in `src/`): register a
macro for the rest of the parse. -/
def addMacro (m : Macro) (ts : TokenStream) : TokenStream :=
  { ts with macros := m :: ts.macros }

/-- The stream after the tokens `toks` have been read from it, one `getToken` each. -/
def past : TokenStream → List Token → TokenStream
  | ts, [] => ts
  | ts, _ :: toks => past (getToken ts).2 toks

/-- The stream hands out exactly the tokens `toks` next, in this order. -/
def Delivers (ts : TokenStream) : List Token → Prop
  | [] => True
  | t :: toks => (getToken ts).1 = t ∧ Delivers (getToken ts).2 toks

end TokenStream

open TokenStream

/-- Outcome of a parser routine: a value together with the stream after the call,
a thrown `ParseError`, the return of a variable that was never assigned, or
exhausted fuel. -/
inductive Res (α : Type) where
  | ok (val : α) (ts : TokenStream)
  | error (e : ParseError)
  | uninit
  | outOfFuel
deriving DecidableEq

/-- Sequencing of parser routines; every outcome but `ok` propagates. -/
def Res.bind {α β : Type} (r : Res α) (k : α → TokenStream → Res β) : Res β :=
  match r with
  | .ok v ts => k v ts
  | .error e => .error e
  | .uninit => .uninit
  | .outOfFuel => .outOfFuel

/-- Modelled from the spec: `TokenStream::expectToken` (not in `src/`): read one
token and throw (expected, actual, line) unless it is the expected one. -/
def expectToken (s : Token) (ts : TokenStream) : Res Unit :=
  if (getToken ts).1 = s then .ok () (getToken ts).2
  else .error ⟨s, (getToken ts).1, lineNumber (getToken ts).2⟩

/-! ## Numeric literals -/

/-- Locale-independent `isdigit` of the C library. -/
def isdigit (c : Char) : Bool := decide ('0' ≤ c) && decide (c ≤ '9')

/-- The validation loop of `parseNumber` (`for (int i = 0; token[i]; i++)`):
`true` when the loop runs to the terminating NUL without throwing.  `haspt`
records whether a `.` has been seen. -/
def validateNumber : List Char → Bool → Bool
  | [], _ => true
  | c :: cs, haspt =>
    if c = Char.ofNat 0 then true
    else if c = '.' then
      if !haspt then validateNumber cs true else false
    else if !isdigit c then false
    else validateNumber cs haspt

/-- Value of a run of decimal digits. -/
def digitsValue (cs : List Char) : Nat :=
  cs.foldl (fun a c => 10 * a + (c.toNat - '0'.toNat)) 0

/-- The conversion `sscanf(token, "%lf", &r)` of the C library on the tokens that
pass `validateNumber`: digits, an optional `.`, digits; the result is the double
nearest to the decimal.  `none` when no digit is present: then nothing is
converted and `r` is left unassigned. -/
def sscanf_lf (cs : List Char) : Option Real :=
  let ip := cs.takeWhile isdigit
  match cs.dropWhile isdigit with
  | '.' :: fs =>
    let fp := fs.takeWhile isdigit
    if ip.isEmpty && fp.isEmpty then none
    else some (Real.ofDecimal (digitsValue (ip ++ fp)) fp.length)
  | _ => if ip.isEmpty then none else some (Real.ofDecimal (digitsValue ip) 0)

/-! ## Scalar expressions: `parseNumber`, `parseTerm`, `parseReal` -/

mutual

/-- Embedding of `Parser::parseNumber`. -/
def parseNumber : Nat → TokenStream → Res Real
  | 0, _ => .outOfFuel
  | fuel + 1, ts =>
    let token := (getToken ts).1
    let ts1 := (getToken ts).2
    if token = "-" then (parseNumber fuel ts1).bind fun r ts2 => .ok (-r) ts2
    else if token = "+" then parseNumber fuel ts1
    else if token = "(" then
      (parseReal fuel ts1).bind fun r ts2 =>
        (expectToken ")" ts2).bind fun _ ts3 => .ok r ts3
    else if validateNumber token.data false then
      match sscanf_lf token.data with
      | some r => .ok r ts1
      | none => .uninit
    else .error ⟨"_Real_", token, lineNumber ts1⟩

/-- Embedding of `Parser::parseTerm`. -/
def parseTerm : Nat → TokenStream → Res Real
  | 0, _ => .outOfFuel
  | fuel + 1, ts => (parseNumber fuel ts).bind fun r ts1 => parseTermLoop fuel r ts1

/-- The `for (;;)` loop of `Parser::parseTerm`, with the running value `r`. -/
def parseTermLoop : Nat → Real → TokenStream → Res Real
  | 0, _, _ => .outOfFuel
  | fuel + 1, r, ts =>
    let token := (getToken ts).1
    let ts1 := (getToken ts).2
    if token = "*" then
      if (peekToken ts1).1 ≠ "<" then
        (parseNumber fuel (peekToken ts1).2).bind fun x ts2 => parseTermLoop fuel (r * x) ts2
      else .ok r (ungetToken token (peekToken ts1).2)
    else if token = "/" then
      (parseNumber fuel ts1).bind fun x ts2 => parseTermLoop fuel (r / x) ts2
    else .ok r (ungetToken token ts1)

/-- Embedding of `Parser::parseReal`. -/
def parseReal : Nat → TokenStream → Res Real
  | 0, _ => .outOfFuel
  | fuel + 1, ts => (parseTerm fuel ts).bind fun r ts1 => parseRealLoop fuel r ts1

/-- The `for (;;)` loop of `Parser::parseReal`, with the running value `r`. -/
def parseRealLoop : Nat → Real → TokenStream → Res Real
  | 0, _, _ => .outOfFuel
  | fuel + 1, r, ts =>
    let token := (getToken ts).1
    let ts1 := (getToken ts).2
    if token = "+" then
      (parseTerm fuel ts1).bind fun x ts2 => parseRealLoop fuel (r + x) ts2
    else if token = "-" then
      (parseTerm fuel ts1).bind fun x ts2 => parseRealLoop fuel (r - x) ts2
    else .ok r (ungetToken token ts1)

end

/-! ## Scene objects

The classes `Modifier`, `Material`, `Object` and its subclasses are declared
outside `src/`.  A `Modifier` is embedded as the sequence of operations it has
received, in call order, which is all that `parser.cpp` determines. -/

/-- One call on a `Modifier`: `translate`, `scale`, `xrotate`, `yrotate`, `zrotate`
(angle in radians) or `pinch`. -/
inductive ModOp where
  | translate (v : Vect3)
  | scale (v : Vect3)
  | xrotate (a : Real)
  | yrotate (a : Real)
  | zrotate (a : Real)
  | pinch (m n : Real)
deriving DecidableEq

/-- A `Modifier`: the operations applied to it so far, oldest first. -/
structure Modifier where
  ops : List ModOp
deriving DecidableEq

/-- Record one more operation on a modifier. -/
def Modifier.apply (m : Modifier) (op : ModOp) : Modifier := ⟨m.ops ++ [op]⟩

/-- The fields of `Material` that `parser.cpp` assigns. -/
structure Material where
  invisible : Bool
  shadowless : Bool
  twosided : Bool
  ambient : Vect3
  diffuse : Vect3
  reflective : Vect3
  refractive : Vect3
  refractive_index : Real
  specular : Real
  shininess : Real
deriving DecidableEq

/-- The shape-specific part of an `Object`; `camera` is the scene camera, which
`parsedCamera` hands to `parseModifiers` as an object. -/
inductive Shape where
  | box
  | sphere
  | cone (has_caps : Bool)
  | plane (A N : Vect3)
  | triangle (a b c : Vect3)
  | interpTriangle (a b c n0 n1 n2 : Vect3)
  | camera
deriving DecidableEq

/-- An `Object`: a `Modifier` (its base class) with a material and a shape. -/
structure Object extends Modifier where
  material : Material
  shape : Shape
deriving DecidableEq

/-- A `Modifier` call made on an object. -/
def Object.applyOp (o : Object) (op : ModOp) : Object :=
  { o with toModifier := o.toModifier.apply op }

/-- A `Light`: the fields that `parseLight` assigns. -/
structure Light where
  position : Vect3
  color : Vect3
  intensity : Real
  radius : Real
  falloff : Bool
deriving DecidableEq

/-- A `Scene`: background colour, camera, lights and objects in the order added. -/
structure Scene where
  bgcolor : Vect3
  camera : Object
  lights : List Light
  objects : List Object
deriving DecidableEq

/-- Embedding of `Scene::addObject`: the object is appended. -/
def Scene.addObject (s : Scene) (o : Object) : Scene := { s with objects := s.objects ++ [o] }

/-- Embedding of `Scene::addLight`: the light is appended. -/
def Scene.addLight (s : Scene) (l : Light) : Scene := { s with lights := s.lights ++ [l] }

/-- What `parser.cpp` takes from declarations outside `src/`: the constant `PI`,
the default-constructed material (that of a freshly constructed object and of
the local `Material mat` of `parsedMesh`), the `has_caps` flag of a freshly
constructed cone, the fields of a freshly constructed light, the mesh reader
`readOBJ` (file name to object set) and `ObjectSet::getBounds` (object set to
lower and upper corner of the combined bounding box). -/
structure Externals where
  PI : Real
  defaultMaterial : Material
  coneCaps : Bool
  defaultLight : Light
  readOBJ : Token → List Object
  getBounds : List Object → Vect3 × Vect3

/-- Modelled from the spec: `Object::applyModifier` (not in `src/`), by which an
OBJ block applies a modifier to a member of the set: the operations that the
modifier has accumulated are applied to the object, in order. -/
def Object.applyModifier (o : Object) (m : Modifier) : Object :=
  { o with toModifier := ⟨o.ops ++ m.ops⟩ }

/-- A point of space, with exact coordinates. -/
structure Point where
  x : ℚ
  y : ℚ
  z : ℚ

/-- The exact vector that a triple of finite doubles stands for. -/
def Vect3.toPoint? (v : Vect3) : Option Point :=
  match v.x.toRat?, v.y.toRat?, v.z.toRat? with
  | some a, some b, some c => some ⟨a, b, c⟩
  | _, _, _ => none

/-- Modelled from the spec: the point map of a `Modifier` operation (class
`Modifier` is not in `src/`), for the two operations whose geometry the spec
fixes: `scale` multiplies componentwise, `translate` adds.  For rotations and
`pinch` the spec gives no formula, hence `none`, as for a vector that is not
finite. -/
def ModOp.transform : ModOp → Point → Option Point
  | .scale s, p => s.toPoint?.map fun v => ⟨v.x * p.x, v.y * p.y, v.z * p.z⟩
  | .translate t, p => t.toPoint?.map fun v => ⟨p.x + v.x, p.y + v.y, p.z + v.z⟩
  | _, _ => none

/-- Modelled from the spec: the accumulated transform of a `Modifier` (not in
`src/`): its operations applied to a point in encounter order. -/
def transformPoint : List ModOp → Point → Option Point
  | [], p => some p
  | op :: ops, p =>
    match op.transform p with
    | some q => transformPoint ops q
    | none => none

/-- The unit cube `[-1,1]^3`, the untransformed `Box`. -/
def inUnitCube (p : Point) : Prop :=
  -1 ≤ p.x ∧ p.x ≤ 1 ∧ -1 ≤ p.y ∧ p.y ≤ 1 ∧ -1 ≤ p.z ∧ p.z ≤ 1

/-- The point set of an object built on the unit cube: the image of the cube
under the accumulated transform. -/
def boxPoints (o : Object) (q : Point) : Prop :=
  ∃ p, inUnitCube p ∧ transformPoint o.ops p = some q

/-! ## Vectors: `parseAngle`, `parseTriplet`, `parseVectorTerm`, `parseVector` -/

/-- Embedding of `Parser::parseAngle`. -/
def parseAngle (K : Externals) (fuel : Nat) (ts : TokenStream) : Res Real :=
  (parseReal fuel ts).bind fun r ts1 => .ok (K.PI * r / 180) ts1

/-- Embedding of `Parser::parseTriplet`. -/
def parseTriplet (fuel : Nat) (ts : TokenStream) : Res Vect3 :=
  (expectToken "<" ts).bind fun _ ts1 =>
  (parseReal fuel ts1).bind fun v0 ts2 =>
  (expectToken "," ts2).bind fun _ ts3 =>
  (parseReal fuel ts3).bind fun v1 ts4 =>
  (expectToken "," ts4).bind fun _ ts5 =>
  (parseReal fuel ts5).bind fun v2 ts6 =>
  (expectToken ">" ts6).bind fun _ ts7 => .ok ⟨v0, v1, v2⟩ ts7

/-- The `for (;;)` loop of `Parser::parseVectorTerm`, with the running coefficient. -/
def parseVectorTermLoop : Nat → Real → TokenStream → Res Real
  | 0, _, _ => .outOfFuel
  | fuel + 1, coef, ts =>
    let token := (peekToken ts).1
    let ts1 := (peekToken ts).2
    if token = "*" then
      (parseNumber fuel (getToken ts1).2).bind fun x ts2 =>
        parseVectorTermLoop fuel (coef * x) ts2
    else if token = "/" then
      (parseNumber fuel (getToken ts1).2).bind fun x ts2 =>
        parseVectorTermLoop fuel (coef / x) ts2
    else .ok coef ts1

/-- Embedding of `Parser::parseVectorTerm`. -/
def parseVectorTerm (fuel : Nat) (ts : TokenStream) : Res Vect3 :=
  let readCoef : Res Real :=
    if (peekToken ts).1 ≠ "<" then
      (parseReal fuel (peekToken ts).2).bind fun c ts1 =>
        (expectToken "*" ts1).bind fun _ ts2 => .ok c ts2
    else .ok 1 (peekToken ts).2
  readCoef.bind fun coef ts2 =>
  (parseTriplet fuel ts2).bind fun v ts3 =>
  (parseVectorTermLoop fuel coef ts3).bind fun coef2 ts4 => .ok (Vect3.smul coef2 v) ts4

/-- The `for (;;)` loop of `Parser::parseVector`, with the running sum. -/
def parseVectorLoop : Nat → Vect3 → TokenStream → Res Vect3
  | 0, _, _ => .outOfFuel
  | fuel + 1, v, ts =>
    let token := (getToken ts).1
    let ts1 := (getToken ts).2
    if token = "+" then
      (parseVectorTerm fuel ts1).bind fun w ts2 => parseVectorLoop fuel (Vect3.add v w) ts2
    else if token = "-" then
      (parseVectorTerm fuel ts1).bind fun w ts2 => parseVectorLoop fuel (Vect3.sub v w) ts2
    else .ok v (ungetToken token ts1)

/-- Embedding of `Parser::parseVector`. -/
def parseVector (fuel : Nat) (ts : TokenStream) : Res Vect3 :=
  (parseVectorTerm fuel ts).bind fun v ts1 => parseVectorLoop fuel v ts1

/-! ## Modifiers and materials -/

/-- Embedding of `Parser::parsedModifier`: the flag returned and the modifier after the call. -/
def parsedModifier (K : Externals) (fuel : Nat) (mod : Modifier) (ts : TokenStream) :
    Res (Bool × Modifier) :=
  let token := (getToken ts).1
  let ts1 := (getToken ts).2
  if token = "translate" then
    (parseVector fuel ts1).bind fun v ts2 => .ok (true, mod.apply (.translate v)) ts2
  else if token = "scale" then
    (parseVector fuel ts1).bind fun v ts2 => .ok (true, mod.apply (.scale v)) ts2
  else if token = "rotate" then
    let axis := (getToken ts1).1
    let ts2 := (getToken ts1).2
    if axis = "x" then
      (parseAngle K fuel ts2).bind fun a ts3 => .ok (true, mod.apply (.xrotate (-a))) ts3
    else if axis = "y" then
      (parseAngle K fuel ts2).bind fun a ts3 => .ok (true, mod.apply (.yrotate (-a))) ts3
    else if axis = "z" then
      (parseAngle K fuel ts2).bind fun a ts3 => .ok (true, mod.apply (.zrotate (-a))) ts3
    else .error ⟨"_Axis_", axis, lineNumber ts2⟩
  else if token = "pinch" then
    (parseReal fuel ts1).bind fun m ts2 =>
    (parseReal fuel ts2).bind fun n ts3 => .ok (true, mod.apply (.pinch m n)) ts3
  else .ok (false, mod) (ungetToken token ts1)

/-- Embedding of `Parser::parsedMaterialProperty`: the flag returned and the material after the call. -/
def parsedMaterialProperty (fuel : Nat) (mat : Material) (ts : TokenStream) :
    Res (Bool × Material) :=
  let token := (getToken ts).1
  let ts1 := (getToken ts).2
  if token = "invisible" then .ok (true, { mat with invisible := true }) ts1
  else if token = "shadowless" then .ok (true, { mat with shadowless := true }) ts1
  else if token = "twosided" then .ok (true, { mat with twosided := true }) ts1
  else if token = "ambient" then
    (parseVector fuel ts1).bind fun v ts2 => .ok (true, { mat with ambient := v }) ts2
  else if token = "diffuse" then
    (parseVector fuel ts1).bind fun v ts2 => .ok (true, { mat with diffuse := v }) ts2
  else if token = "reflective" then
    (parseVector fuel ts1).bind fun v ts2 => .ok (true, { mat with reflective := v }) ts2
  else if token = "refractive" then
    (parseVector fuel ts1).bind fun v ts2 =>
    (parseReal fuel ts2).bind fun r ts3 =>
      .ok (true, { mat with refractive := v, refractive_index := r }) ts3
  else if token = "specular" then
    (parseReal fuel ts1).bind fun r ts2 => .ok (true, { mat with specular := r }) ts2
  else if token = "shininess" then
    (parseReal fuel ts1).bind fun r ts2 => .ok (true, { mat with shininess := r }) ts2
  else .ok (false, mat) (ungetToken token ts1)

/-- The loop `while (parsedMaterialProperty(mat));` of `Parser::parsedMaterial`. -/
def parsedMaterialLoop : Nat → Material → TokenStream → Res Material
  | 0, _, _ => .outOfFuel
  | fuel + 1, mat, ts =>
    (parsedMaterialProperty fuel mat ts).bind fun r ts1 =>
      if r.1 then parsedMaterialLoop fuel r.2 ts1 else .ok r.2 ts1

/-- Embedding of `Parser::parsedMaterial`: the flag returned and the material after the call. -/
def parsedMaterial (fuel : Nat) (mat : Material) (ts : TokenStream) : Res (Bool × Material) :=
  if (peekToken ts).1 ≠ "material" then .ok (false, mat) (peekToken ts).2
  else
    (expectToken "\x7b" (getToken (peekToken ts).2).2).bind fun _ ts1 =>
    (parsedMaterialLoop fuel mat ts1).bind fun mat1 ts2 =>
    (expectToken "\x7d" ts2).bind fun _ ts3 => .ok (true, mat1) ts3

/-- Embedding of `Parser::parseModifiers`: `while (parsedModifier(obj) || parsedMaterial(&obj->material));`. -/
def parseModifiers (K : Externals) : Nat → Object → TokenStream → Res Object
  | 0, _, _ => .outOfFuel
  | fuel + 1, obj, ts =>
    (parsedModifier K fuel obj.toModifier ts).bind fun r ts1 =>
      if r.1 then parseModifiers K fuel { obj with toModifier := r.2 } ts1
      else
        (parsedMaterial fuel obj.material ts1).bind fun m ts2 =>
          if m.1 then parseModifiers K fuel { obj with toModifier := r.2, material := m.2 } ts2
          else .ok { obj with toModifier := r.2, material := m.2 } ts2

/-! ## Shapes -/

/-- Embedding of `Parser::parseBox`; `none` is the `NULL` returned when the keyword does not match. -/
def parseBox (K : Externals) (fuel : Nat) (ts : TokenStream) : Res (Option Object) :=
  if (peekToken ts).1 ≠ "Box" then .ok none (peekToken ts).2
  else
    (expectToken "\x7b" (getToken (peekToken ts).2).2).bind fun _ ts1 =>
    (parseVector fuel ts1).bind fun upper ts2 =>
    (parseVector fuel ts2).bind fun lower ts3 =>
    let box : Object := ⟨⟨[]⟩, K.defaultMaterial, .box⟩
    let box1 := box.applyOp (.scale (Vect3.sdiv (Vect3.sub upper lower) 2))
    let box2 := box1.applyOp (.translate (Vect3.sdiv (Vect3.add upper lower) 2))
    (parseModifiers K fuel box2 ts3).bind fun box3 ts4 =>
    (expectToken "\x7d" ts4).bind fun _ ts5 => .ok (some box3) ts5

/-- Embedding of `Parser::parseSphere`. -/
def parseSphere (K : Externals) (fuel : Nat) (ts : TokenStream) : Res (Option Object) :=
  if (peekToken ts).1 ≠ "Sphere" then .ok none (peekToken ts).2
  else
    (expectToken "\x7b" (getToken (peekToken ts).2).2).bind fun _ ts1 =>
    (parseVector fuel ts1).bind fun center ts2 =>
    (parseReal fuel ts2).bind fun radius ts3 =>
    let sphere : Object := ⟨⟨[]⟩, K.defaultMaterial, .sphere⟩
    let sphere1 := sphere.applyOp (.scale ⟨radius, radius, radius⟩)
    let sphere2 := sphere1.applyOp (.translate center)
    (parseModifiers K fuel sphere2 ts3).bind fun sphere3 ts4 =>
    (expectToken "\x7d" ts4).bind fun _ ts5 => .ok (some sphere3) ts5

/-- The `do ... while (parsedModifier(cone) || parsedMaterial(&cone->material))` loop
of `Parser::parseCone`: the body tests for `nocaps`, then the condition is tried. -/
def parseConeLoop (K : Externals) : Nat → Object → TokenStream → Res Object
  | 0, _, _ => .outOfFuel
  | fuel + 1, cone, ts =>
    let cone1 : Object :=
      if (peekToken ts).1 = "nocaps" then { cone with shape := .cone false } else cone
    let ts1 : TokenStream :=
      if (peekToken ts).1 = "nocaps" then (getToken (peekToken ts).2).2 else (peekToken ts).2
    (parsedModifier K fuel cone1.toModifier ts1).bind fun r ts2 =>
      if r.1 then parseConeLoop K fuel { cone1 with toModifier := r.2 } ts2
      else
        (parsedMaterial fuel cone1.material ts2).bind fun m ts3 =>
          if m.1 then parseConeLoop K fuel { cone1 with toModifier := r.2, material := m.2 } ts3
          else .ok { cone1 with toModifier := r.2, material := m.2 } ts3

/-- Embedding of `Parser::parseCone`. -/
def parseCone (K : Externals) (fuel : Nat) (ts : TokenStream) : Res (Option Object) :=
  if (peekToken ts).1 ≠ "Cone" then .ok none (peekToken ts).2
  else
    (expectToken "\x7b" (getToken (peekToken ts).2).2).bind fun _ ts1 =>
    let cone : Object := ⟨⟨[]⟩, K.defaultMaterial, .cone K.coneCaps⟩
    (parseConeLoop K fuel cone ts1).bind fun cone1 ts2 =>
    (expectToken "\x7d" ts2).bind fun _ ts3 => .ok (some cone1) ts3

/-- Embedding of `Parser::parsePlane`. -/
def parsePlane (K : Externals) (fuel : Nat) (ts : TokenStream) : Res (Option Object) :=
  if (peekToken ts).1 ≠ "Plane" then .ok none (peekToken ts).2
  else
    (expectToken "\x7b" (getToken (peekToken ts).2).2).bind fun _ ts1 =>
    (parseVector fuel ts1).bind fun A ts2 =>
    (parseVector fuel ts2).bind fun N ts3 =>
    let plane : Object := ⟨⟨[]⟩, K.defaultMaterial, .plane A N⟩
    (parseModifiers K fuel plane ts3).bind fun plane1 ts4 =>
    (expectToken "\x7d" ts4).bind fun _ ts5 => .ok (some plane1) ts5

/-- Embedding of `Parser::parseTriangle`. -/
def parseTriangle (K : Externals) (fuel : Nat) (ts : TokenStream) : Res (Option Object) :=
  if (peekToken ts).1 ≠ "Triangle" then .ok none (peekToken ts).2
  else
    (expectToken "\x7b" (getToken (peekToken ts).2).2).bind fun _ ts1 =>
    (parseVector fuel ts1).bind fun a ts2 =>
    (parseVector fuel ts2).bind fun b ts3 =>
    (parseVector fuel ts3).bind fun c ts4 =>
    let built : Res Object :=
      if (peekToken ts4).1 = "<" then
        (parseVector fuel (peekToken ts4).2).bind fun n0 ts5 =>
        (parseVector fuel ts5).bind fun n1 ts6 =>
        (parseVector fuel ts6).bind fun n2 ts7 =>
          .ok ⟨⟨[]⟩, K.defaultMaterial, .interpTriangle a b c n0 n1 n2⟩ ts7
      else .ok ⟨⟨[]⟩, K.defaultMaterial, .triangle a b c⟩ (peekToken ts4).2
    built.bind fun tri ts8 =>
    (parseModifiers K fuel tri ts8).bind fun tri1 ts9 =>
    (expectToken "\x7d" ts9).bind fun _ ts10 => .ok (some tri1) ts10

/-- Embedding of `Parser::parseShape`: the five builders are tried in order. -/
def parseShape (K : Externals) (fuel : Nat) (ts : TokenStream) : Res (Option Object) :=
  (parseBox K fuel ts).bind fun o1 ts1 =>
    match o1 with
    | some obj => .ok (some obj) ts1
    | none =>
      (parseSphere K fuel ts1).bind fun o2 ts2 =>
        match o2 with
        | some obj => .ok (some obj) ts2
        | none =>
          (parseCone K fuel ts2).bind fun o3 ts3 =>
            match o3 with
            | some obj => .ok (some obj) ts3
            | none =>
              (parsePlane K fuel ts3).bind fun o4 ts4 =>
                match o4 with
                | some obj => .ok (some obj) ts4
                | none => parseTriangle K fuel ts4

/-! ## Lights -/

/-- The loop `while (ts.peekToken() != "\x7d")` of `Parser::parseLight`. -/
def parseLightLoop : Nat → Light → TokenStream → Res Light
  | 0, _, _ => .outOfFuel
  | fuel + 1, light, ts =>
    if (peekToken ts).1 ≠ "\x7d" then
      let token := (getToken (peekToken ts).2).1
      let ts1 := (getToken (peekToken ts).2).2
      if token = "intensity" then
        (parseReal fuel ts1).bind fun r ts2 => parseLightLoop fuel { light with intensity := r } ts2
      else if token = "radius" then
        (parseReal fuel ts1).bind fun r ts2 => parseLightLoop fuel { light with radius := r } ts2
      else if token = "falloff" then parseLightLoop fuel { light with falloff := true } ts1
      else .error ⟨"_LightProperty_", token, lineNumber ts1⟩
    else .ok light (peekToken ts).2

/-- Embedding of `Parser::parseLight`. -/
def parseLight (K : Externals) (fuel : Nat) (ts : TokenStream) : Res (Option Light) :=
  if (peekToken ts).1 ≠ "Light" then .ok none (peekToken ts).2
  else
    (expectToken "\x7b" (getToken (peekToken ts).2).2).bind fun _ ts1 =>
    (parseVector fuel ts1).bind fun position ts2 =>
    (parseVector fuel ts2).bind fun color ts3 =>
    let light : Light := { K.defaultLight with position := position, color := color }
    (parseLightLoop fuel light ts3).bind fun light1 ts4 =>
    (expectToken "\x7d" ts4).bind fun _ ts5 => .ok (some light1) ts5

/-! ## Mesh import -/

/-- Embedding of `Parser::parsedSetModifiers`: the flag returned and the object set
after the call. -/
def parsedSetModifiers (K : Externals) (set : List Object) (ts : TokenStream) :
    Res (Bool × List Object) :=
  let token := (getToken ts).1
  let ts1 := (getToken ts).2
  if token = "unit" then
    let lower := (K.getBounds set).1
    let upper := (K.getBounds set).2
    let axis := (getToken ts1).1
    let ts2 := (getToken ts1).2
    let scaled (scale : Real) : Res (Bool × List Object) :=
      .ok (true, set.map fun o => o.applyOp (.scale (Vect3.sdiv ⟨1, 1, 1⟩ scale))) ts2
    if axis = "x" then scaled ((upper.x - lower.x) / 2)
    else if axis = "y" then scaled ((upper.y - lower.y) / 2)
    else if axis = "z" then scaled ((upper.z - lower.z) / 2)
    else .error ⟨"_Axis_", axis, lineNumber ts2⟩
  else if token = "center" then
    let lower := (K.getBounds set).1
    let upper := (K.getBounds set).2
    let center := Vect3.sdiv (Vect3.add lower upper) 2
    .ok (true, set.map fun o => o.applyOp (.translate (Vect3.neg center))) ts1
  else .ok (false, set) (ungetToken token ts1)

/-- The `do ... while (parsedSetModifiers(&set) || parsedMaterial(&mat))` loop of
`Parser::parsedMesh`.  The body tries a modifier on the one `Modifier mod` of the
block and, on success, applies `mod` to every member; its `continue` goes on to
the loop condition, as falling out of the body does. -/
def parsedMeshLoop (K : Externals) :
    Nat → Modifier → Material → List Object → TokenStream → Res (Material × List Object)
  | 0, _, _, _, _ => .outOfFuel
  | fuel + 1, mod, mat, set, ts =>
    (parsedModifier K fuel mod ts).bind fun r ts1 =>
      let set1 : List Object := if r.1 then set.map (fun o => o.applyModifier r.2) else set
      (parsedSetModifiers K set1 ts1).bind fun s ts2 =>
        if s.1 then parsedMeshLoop K fuel r.2 mat s.2 ts2
        else
          (parsedMaterial fuel mat ts2).bind fun m ts3 =>
            if m.1 then parsedMeshLoop K fuel r.2 m.2 s.2 ts3
            else .ok (m.2, s.2) ts3

/-- Embedding of `Parser::parsedMesh`: the flag returned and the scene after the call.
The locals `Modifier mod; Material mat;` start as the modifier without operations
and the default-constructed material. -/
def parsedMesh (K : Externals) (fuel : Nat) (scene : Scene) (ts : TokenStream) :
    Res (Bool × Scene) :=
  if (peekToken ts).1 ≠ "OBJ" then .ok (false, scene) (peekToken ts).2
  else
    (expectToken "\x7b" (getToken (peekToken ts).2).2).bind fun _ ts1 =>
    let set := K.readOBJ (getToken ts1).1
    (parsedMeshLoop K fuel ⟨[]⟩ K.defaultMaterial set (getToken ts1).2).bind fun r ts2 =>
    let scene1 : Scene :=
      { scene with objects := scene.objects ++ r.2.map fun o => { o with material := r.1 } }
    (expectToken "\x7d" ts2).bind fun _ ts3 => .ok (true, scene1) ts3

/-! ## Macros -/

/-- The capture loop of `Parser::parsedMacro`:
`for (Token value = ts.getToken(); value != "\x7d"; value = ts.getToken())`,
entered with the token `value` already read. -/
def parsedMacroLoop : Nat → Int → Macro → Token → TokenStream → Res Macro
  | 0, _, _, _, _ => .outOfFuel
  | fuel + 1, braces_count, mac, value, ts =>
    if value ≠ "\x7d" then
      if value = "\x7b" then
        parsedMacroLoop fuel (braces_count + 1) (mac.addToken value) (getToken ts).1 (getToken ts).2
      else if value = "\x7d" then
        if braces_count - 1 = 0 then .ok mac ts
        else parsedMacroLoop fuel (braces_count - 1) (mac.addToken value)
          (getToken ts).1 (getToken ts).2
      else if eof ts then .error ⟨"\x7d", "_EOF_", lineNumber ts⟩
      else parsedMacroLoop fuel braces_count (mac.addToken value) (getToken ts).1 (getToken ts).2
    else .ok mac ts

/-- Embedding of `Parser::parsedMacro`. -/
def parsedMacro (fuel : Nat) (ts : TokenStream) : Res Bool :=
  if (peekToken ts).1 ≠ "Define" then .ok false (peekToken ts).2
  else
    let ts1 := (getToken (peekToken ts).2).2
    let mac : Macro := ⟨(getToken ts1).1, []⟩
    (expectToken "\x7b" (getToken ts1).2).bind fun _ ts2 =>
    (parsedMacroLoop fuel 1 mac (getToken ts2).1 (getToken ts2).2).bind fun mac1 ts3 =>
      .ok true (addMacro mac1 ts3)

/-! ## Scene assembly -/

/-- Embedding of `Parser::parsedShape`. -/
def parsedShape (K : Externals) (fuel : Nat) (scene : Scene) (ts : TokenStream) :
    Res (Bool × Scene) :=
  (parseShape K fuel ts).bind fun o ts1 =>
    match o with
    | some obj => .ok (true, scene.addObject obj) ts1
    | none => .ok (false, scene) ts1

/-- Embedding of `Parser::parsedLight`. -/
def parsedLight (K : Externals) (fuel : Nat) (scene : Scene) (ts : TokenStream) :
    Res (Bool × Scene) :=
  (parseLight K fuel ts).bind fun l ts1 =>
    match l with
    | some light => .ok (true, scene.addLight light) ts1
    | none => .ok (false, scene) ts1

/-- Embedding of `Parser::parsedBG`. -/
def parsedBG (fuel : Nat) (scene : Scene) (ts : TokenStream) : Res (Bool × Scene) :=
  if (peekToken ts).1 ≠ "BGColor" then .ok (false, scene) (peekToken ts).2
  else
    (parseVector fuel (getToken (peekToken ts).2).2).bind fun v ts1 =>
      .ok (true, { scene with bgcolor := v }) ts1

/-- Embedding of `Parser::parsedCamera`. -/
def parsedCamera (K : Externals) (fuel : Nat) (scene : Scene) (ts : TokenStream) :
    Res (Bool × Scene) :=
  if (peekToken ts).1 ≠ "Camera" then .ok (false, scene) (peekToken ts).2
  else
    (expectToken "\x7b" (getToken (peekToken ts).2).2).bind fun _ ts1 =>
    (parseModifiers K fuel scene.camera ts1).bind fun cam ts2 =>
    (expectToken "\x7d" ts2).bind fun _ ts3 => .ok (true, { scene with camera := cam }) ts3

/-- Embedding of `Parser::parsedSceneItem`: the six alternatives in order, the first
that matches wins. -/
def parsedSceneItem (K : Externals) (fuel : Nat) (scene : Scene) (ts : TokenStream) :
    Res (Bool × Scene) :=
  (parsedMacro fuel ts).bind fun b ts1 =>
    if b then .ok (true, scene) ts1
    else
      (parsedShape K fuel scene ts1).bind fun r2 ts2 =>
        if r2.1 then .ok r2 ts2
        else
          (parsedMesh K fuel r2.2 ts2).bind fun r3 ts3 =>
            if r3.1 then .ok r3 ts3
            else
              (parsedLight K fuel r3.2 ts3).bind fun r4 ts4 =>
                if r4.1 then .ok r4 ts4
                else
                  (parsedBG fuel r4.2 ts4).bind fun r5 ts5 =>
                    if r5.1 then .ok r5 ts5
                    else parsedCamera K fuel r5.2 ts5

/-- Embedding of `Parser::setConstant`: a one-token macro is registered. -/
def setConstant (name value : String) (ts : TokenStream) : TokenStream :=
  addMacro ((Macro.mk name []).addToken value) ts

/-- The loop `while (!ts.eof() && (ts.peekToken() != "EOF"))` of `Parser::parseInto`. -/
def parseIntoLoop (K : Externals) : Nat → Scene → TokenStream → Res Scene
  | 0, _, _ => .outOfFuel
  | fuel + 1, scene, ts =>
    if !eof ts && decide ((peekToken ts).1 ≠ "EOF") then
      (parsedSceneItem K fuel scene (peekToken ts).2).bind fun r ts1 =>
        if r.1 then parseIntoLoop K fuel r.2 ts1
        else .error ⟨"_SceneItem_", (getToken ts1).1, lineNumber (getToken ts1).2⟩
    else .ok scene (if eof ts then ts else (peekToken ts).2)

/-- Embedding of `Parser::parseInto`.  `TokenStream::open` is not in `src/`: its outcome
is the argument `opened`, the stream positioned at the start of the file, or `none`
when the file cannot be opened (the error then carries the message alone). -/
def parseInto (K : Externals) (fuel : Nat) (opened : Option TokenStream) (scene : Scene) :
    Res Scene :=
  match opened with
  | none => .error ⟨"Couldn't open scene file.", "", 0⟩
  | some ts => parseIntoLoop K fuel scene ts

/-! ## Concrete syntax of scalar expressions

The grammar that `parseNumber`, `parseTerm` and `parseReal` accept, as syntax
trees with their token sequence and their value in the double arithmetic of
the program. -/

mutual

/-- An operand: a numeric literal, a signed operand, or a parenthesised expression. -/
inductive NumExpr where
  | lit (tok : Token)
  | neg (n : NumExpr)
  | pos (n : NumExpr)
  | paren (e : RealExpr)

/-- What follows the first operand of a term: a chain of `* operand` and `/ operand`. -/
inductive TermTail where
  | done
  | mul (n : NumExpr) (rest : TermTail)
  | div (n : NumExpr) (rest : TermTail)

/-- What follows the first term of an expression: a chain of `+ term` and `- term`. -/
inductive RealTail where
  | done
  | add (n : NumExpr) (t : TermTail) (rest : RealTail)
  | sub (n : NumExpr) (t : TermTail) (rest : RealTail)

/-- A scalar expression: a first term (operand and chain) and a chain of further terms. -/
inductive RealExpr where
  | mk (n : NumExpr) (t : TermTail) (rest : RealTail)

end

mutual

/-- Token sequence of an operand. -/
def NumExpr.tokens : NumExpr → List Token
  | .lit tok => [tok]
  | .neg n => "-" :: n.tokens
  | .pos n => "+" :: n.tokens
  | .paren e => "(" :: (e.tokens ++ [")"])

/-- Token sequence of a multiplicative chain. -/
def TermTail.tokens : TermTail → List Token
  | .done => []
  | .mul n rest => "*" :: (n.tokens ++ rest.tokens)
  | .div n rest => "/" :: (n.tokens ++ rest.tokens)

/-- Token sequence of an additive chain. -/
def RealTail.tokens : RealTail → List Token
  | .done => []
  | .add n t rest => "+" :: (n.tokens ++ (t.tokens ++ rest.tokens))
  | .sub n t rest => "-" :: (n.tokens ++ (t.tokens ++ rest.tokens))

/-- Token sequence of an expression. -/
def RealExpr.tokens : RealExpr → List Token
  | .mk n t rest => n.tokens ++ (t.tokens ++ rest.tokens)

end

mutual

/-- Value of an operand: the double nearest to the decimal of a literal, negation
for each `-`,
the value of the enclosed expression for parentheses. -/
def NumExpr.value : NumExpr → Real
  | .lit tok => (sscanf_lf tok.data).getD 0
  | .neg n => - n.value
  | .pos n => n.value
  | .paren e => e.value

/-- Value of a multiplicative chain applied to the value `acc` on its left:
operators are folded left to right. -/
def TermTail.value : TermTail → Real → Real
  | .done, acc => acc
  | .mul n rest, acc => rest.value (acc * n.value)
  | .div n rest, acc => rest.value (acc / n.value)

/-- Value of an additive chain applied to the value `acc` on its left: each term
is evaluated first, then the terms are folded left to right. -/
def RealTail.value : RealTail → Real → Real
  | .done, acc => acc
  | .add n t rest, acc => rest.value (acc + t.value n.value)
  | .sub n t rest, acc => rest.value (acc - t.value n.value)

/-- Value of an expression: standard precedence and grouping, every operation the
double operation of the program. -/
def RealExpr.value : RealExpr → Real
  | .mk n t rest => rest.value (t.value n.value)

end

/-- A numeric literal token: digits with at most one `.`, at least one digit. -/
def validLiteral (tok : Token) : Bool :=
  validateNumber tok.data false && (sscanf_lf tok.data).isSome

mutual

/-- Well-formed operand: every literal is a numeric literal and no divisor is zero. -/
def NumExpr.wellFormed : NumExpr → Bool
  | .lit tok => validLiteral tok
  | .neg n => n.wellFormed
  | .pos n => n.wellFormed
  | .paren e => e.wellFormed

/-- Well-formed multiplicative chain. -/
def TermTail.wellFormed : TermTail → Bool
  | .done => true
  | .mul n rest => n.wellFormed && rest.wellFormed
  | .div n rest => n.wellFormed && (decide (n.value ≠ 0) && rest.wellFormed)

/-- Well-formed additive chain. -/
def RealTail.wellFormed : RealTail → Bool
  | .done => true
  | .add n t rest => n.wellFormed && (t.wellFormed && rest.wellFormed)
  | .sub n t rest => n.wellFormed && (t.wellFormed && rest.wellFormed)

/-- Well-formed expression. -/
def RealExpr.wellFormed : RealExpr → Bool
  | .mk n t rest => n.wellFormed && (t.wellFormed && rest.wellFormed)

end

mutual

/-- Fuel that suffices for `parseNumber` on an operand. -/
def NumExpr.cost : NumExpr → Nat
  | .lit _ => 1
  | .neg n => n.cost + 1
  | .pos n => n.cost + 1
  | .paren e => e.cost + 1

/-- Fuel that suffices for `parseTermLoop` on a multiplicative chain. -/
def TermTail.cost : TermTail → Nat
  | .done => 1
  | .mul n rest => n.cost + rest.cost + 1
  | .div n rest => n.cost + rest.cost + 1

/-- Fuel that suffices for `parseRealLoop` on an additive chain. -/
def RealTail.cost : RealTail → Nat
  | .done => 1
  | .add n t rest => n.cost + t.cost + rest.cost + 2
  | .sub n t rest => n.cost + t.cost + rest.cost + 2

/-- Fuel that suffices for `parseReal` on an expression. -/
def RealExpr.cost : RealExpr → Nat
  | .mk n t rest => n.cost + t.cost + rest.cost + 2

end

/-- The loop of `parseTerm` stops at this stream: the next token is not `/`, and
if it is `*` then the token after it is `<`. -/
def termStops (ts : TokenStream) : Prop :=
  (getToken ts).1 ≠ "/" ∧ ((getToken ts).1 = "*" → (peekToken (getToken ts).2).1 = "<")

/-- The loop of `parseReal` stops at this stream: the next token is neither `+` nor `-`. -/
def realStops (ts : TokenStream) : Prop :=
  (getToken ts).1 ≠ "+" ∧ (getToken ts).1 ≠ "-"

/-- The stream in which the loop of `parseTerm` leaves its look-ahead when it stops:
the token read is pushed back, on top of the peeked token when a `*` was read. -/
def afterTerm (ts : TokenStream) : TokenStream :=
  if (getToken ts).1 = "*" then ungetToken "*" (peekToken (getToken ts).2).2
  else ungetToken (getToken ts).1 (getToken ts).2

/-! ## Concrete syntax of vector expressions -/

/-- A vector term: an optional scalar coefficient followed by `*`, the triplet
`< x , y , z >`, and a chain of `* operand` and `/ operand` suffixes. -/
structure VecTermExpr where
  coef : Option RealExpr
  x : RealExpr
  y : RealExpr
  z : RealExpr
  suffix : TermTail

/-- What follows the first vector term: a chain of `+ term` and `- term`. -/
inductive VecTail where
  | done
  | add (t : VecTermExpr) (rest : VecTail)
  | sub (t : VecTermExpr) (rest : VecTail)

/-- A vector expression: a first vector term and a chain of further ones. -/
structure VecExpr where
  head : VecTermExpr
  tail : VecTail

/-- Token sequence of the coefficient part `c *` of a vector term. -/
def coefTokens : Option RealExpr → List Token
  | some c => c.tokens ++ ["*"]
  | none => []

/-- Token sequence of a vector term. -/
def VecTermExpr.tokens (t : VecTermExpr) : List Token :=
  coefTokens t.coef ++
    ("<" :: (t.x.tokens ++ ("," :: (t.y.tokens ++ ("," :: (t.z.tokens ++ (">" :: t.suffix.tokens)))))))

/-- The coefficient in front of the triplet, `1` when absent. -/
def coefValue : Option RealExpr → Real
  | some c => c.value
  | none => 1

/-- Value of a vector term: the triplet with every component multiplied by the one
coefficient got from the leading coefficient by folding the suffixes left to right. -/
def VecTermExpr.value (t : VecTermExpr) : Vect3 :=
  Vect3.smul (t.suffix.value (coefValue t.coef)) ⟨t.x.value, t.y.value, t.z.value⟩

/-- Well-formed coefficient. -/
def coefWellFormed : Option RealExpr → Bool
  | some c => c.wellFormed
  | none => true

/-- Well-formed vector term. -/
def VecTermExpr.wellFormed (t : VecTermExpr) : Bool :=
  coefWellFormed t.coef && (t.x.wellFormed && (t.y.wellFormed && (t.z.wellFormed && t.suffix.wellFormed)))

/-- Fuel that suffices for a coefficient. -/
def coefCost : Option RealExpr → Nat
  | some c => c.cost
  | none => 0

/-- Fuel that suffices for `parseVectorTerm` on a vector term. -/
def VecTermExpr.cost (t : VecTermExpr) : Nat :=
  coefCost t.coef + t.x.cost + t.y.cost + t.z.cost + t.suffix.cost

/-- Token sequence of a chain of vector terms. -/
def VecTail.tokens : VecTail → List Token
  | .done => []
  | .add t rest => "+" :: (t.tokens ++ rest.tokens)
  | .sub t rest => "-" :: (t.tokens ++ rest.tokens)

/-- Value of a chain of vector terms applied to the vector `acc` on its left:
componentwise sums and differences, folded left to right. -/
def VecTail.value : VecTail → Vect3 → Vect3
  | .done, acc => acc
  | .add t rest, acc => rest.value (Vect3.add acc t.value)
  | .sub t rest, acc => rest.value (Vect3.sub acc t.value)

/-- Well-formed chain of vector terms. -/
def VecTail.wellFormed : VecTail → Bool
  | .done => true
  | .add t rest => t.wellFormed && rest.wellFormed
  | .sub t rest => t.wellFormed && rest.wellFormed

/-- Fuel that suffices for `parseVectorLoop` on a chain of vector terms. -/
def VecTail.cost : VecTail → Nat
  | .done => 1
  | .add t rest => t.cost + rest.cost + 1
  | .sub t rest => t.cost + rest.cost + 1

/-- Token sequence of a vector expression. -/
def VecExpr.tokens (e : VecExpr) : List Token := e.head.tokens ++ e.tail.tokens

/-- Value of a vector expression. -/
def VecExpr.value (e : VecExpr) : Vect3 := e.tail.value e.head.value

/-- Well-formed vector expression. -/
def VecExpr.wellFormed (e : VecExpr) : Bool := e.head.wellFormed && e.tail.wellFormed

/-- Fuel that suffices for `parseVector` on a vector expression. -/
def VecExpr.cost (e : VecExpr) : Nat := e.head.cost + e.tail.cost

/-- The suffix loop of `parseVectorTerm` stops at this stream: the next token is
neither `*` nor `/`. -/
def vecTermStops (ts : TokenStream) : Prop :=
  (getToken ts).1 ≠ "*" ∧ (getToken ts).1 ≠ "/"

/-- The token is none of the binary operators `+ - * /`. -/
def notOperator (t : Token) : Prop :=
  t ≠ "+" ∧ t ≠ "-" ∧ t ≠ "*" ∧ t ≠ "/"

/-- A scalar or vector expression ends at this stream: the next token is no
binary operator. -/
def expressionEnds (ts : TokenStream) : Prop := notOperator (getToken ts).1

/-- The first token of the sequence, if there is one, is no binary operator. -/
def startsWithoutOperator (l : List Token) : Prop :=
  ∀ t ∈ l.head?, notOperator t

instance (ts : TokenStream) : Decidable (termStops ts) := by
  unfold termStops; infer_instance

instance (ts : TokenStream) : Decidable (realStops ts) := by
  unfold realStops; infer_instance

instance (ts : TokenStream) : Decidable (vecTermStops ts) := by
  unfold vecTermStops; infer_instance

instance (t : Token) : Decidable (notOperator t) := by
  unfold notOperator; infer_instance

instance (ts : TokenStream) : Decidable (expressionEnds ts) := by
  unfold expressionEnds; infer_instance

instance (l : List Token) : Decidable (startsWithoutOperator l) := by
  unfold startsWithoutOperator; infer_instance

/-- Whether a stream delivers given tokens can be computed. -/
def TokenStream.decDelivers : (ts : TokenStream) → (l : List Token) → Decidable (Delivers ts l)
  | _, [] => isTrue trivial
  | ts, t :: l =>
    match decEq (getToken ts).1 t, decDelivers (getToken ts).2 l with
    | isTrue h1, isTrue h2 => isTrue ⟨h1, h2⟩
    | isFalse h1, _ => isFalse fun h => h1 h.1
    | _, isFalse h2 => isFalse fun h => h2 h.2

instance (ts : TokenStream) (l : List Token) : Decidable (Delivers ts l) :=
  TokenStream.decDelivers ts l

/-! ## Sample inputs -/

/-- The expression `2 + 3 * 4`. -/
def exprSumProduct : RealExpr :=
  .mk (.lit "2") .done (.add (.lit "3") (.mul (.lit "4") .done) .done)

/-- The expression `( 2 + 3 ) * 4`. -/
def exprParenProduct : RealExpr :=
  .mk (.paren (.mk (.lit "2") .done (.add (.lit "3") .done .done))) (.mul (.lit "4") .done) .done

/-- A triplet of literals without coefficient or suffix, `< a , b , c >`. -/
def literalTriplet (a b c : Token) : VecTermExpr :=
  ⟨none, .mk (.lit a) .done .done, .mk (.lit b) .done .done, .mk (.lit c) .done .done, .done⟩

/-- The vector term `3 * < 1 , 2 , 3 >`. -/
def vecTermScaled : VecTermExpr :=
  { literalTriplet "1" "2" "3" with coef := some (.mk (.lit "3") .done .done) }

/-- The vector term `< 1 , 0 , 0 > * 2 / 4`. -/
def vecTermSuffixed : VecTermExpr :=
  { literalTriplet "1" "0" "0" with suffix := .mul (.lit "2") (.div (.lit "4") .done) }

/-- The vector expression `< 1 , 2 , 3 > + < 4 , 5 , 6 >`. -/
def vecSum : VecExpr :=
  ⟨literalTriplet "1" "2" "3", .add (literalTriplet "4" "5" "6") .done⟩

/-- The box the specification describes for two corners: the unit cube scaled by
half the corner difference, then translated to the corner midpoint, with no
other operation and the material of a fresh object. -/
def boxOfCorners (K : Externals) (upper lower : Vect3) : Object :=
  ⟨⟨[.scale ⟨(upper.x - lower.x) / 2, (upper.y - lower.y) / 2, (upper.z - lower.z) / 2⟩,
     .translate ⟨(upper.x + lower.x) / 2, (upper.y + lower.y) / 2, (upper.z + lower.z) / 2⟩]⟩,
   K.defaultMaterial, .box⟩

/-- An all-zero material. -/
def blankMaterial : Material :=
  ⟨false, false, false, ⟨0, 0, 0⟩, ⟨0, 0, 0⟩, ⟨0, 0, 0⟩, ⟨0, 0, 0⟩, 0, 0, 0⟩

/-- Sample externals: `PI` approximated by 355/113, an all-zero material, capped
cones, an all-zero light, a mesh reader that yields one untransformed triangle for
every file, and bounds that span `[-2,6]` on the x axis. -/
def sampleExternals : Externals :=
  ⟨355 / 113, blankMaterial, true, ⟨⟨0, 0, 0⟩, ⟨0, 0, 0⟩, 0, 0, false⟩,
    fun _ => [⟨⟨[]⟩, blankMaterial, .triangle ⟨0, 0, 0⟩ ⟨1, 0, 0⟩ ⟨0, 1, 0⟩⟩],
    fun _ => (⟨-2, 0, 0⟩, ⟨6, 1, 1⟩)⟩

/-- The corner `< 2 , 2 , 2 >`. -/
def cornerUpper : VecExpr := ⟨literalTriplet "2" "2" "2", .done⟩

/-- The corner `< 0 , 0 , 0 >`. -/
def cornerLower : VecExpr := ⟨literalTriplet "0" "0" "0", .done⟩

/-- The scene text `Box { < 2 , 2 , 2 > < 0 , 0 , 0 > }`. -/
def boxTokens : List Token :=
  ["Box", "\x7b", "<", "2", ",", "2", ",", "2", ">", "<", "0", ",", "0", ",", "0", ">", "\x7d"]

/-- The scene text `Box { < 0 , 0 , 0 > < 2 , 2 , 2 > }`, corners exchanged. -/
def boxTokensSwapped : List Token :=
  ["Box", "\x7b", "<", "0", ",", "0", ",", "0", ">", "<", "2", ",", "2", ",", "2", ">", "\x7d"]

/-- The token is none of the keywords with which `parsedModifier` or
`parsedMaterial` starts. -/
def notModifierKeyword (t : Token) : Prop :=
  t ≠ "translate" ∧ t ≠ "scale" ∧ t ≠ "rotate" ∧ t ≠ "pinch" ∧ t ≠ "material"

instance (t : Token) : Decidable (notModifierKeyword t) := by
  unfold notModifierKeyword; infer_instance

/-! ## Concrete syntax of modifier clauses, material blocks and block bodies -/

/-- A rotation axis letter. -/
inductive Axis where
  | x
  | y
  | z
deriving DecidableEq

/-- The token of an axis letter. -/
def Axis.token : Axis → Token
  | .x => "x"
  | .y => "y"
  | .z => "z"

/-- A modifier clause: `translate v`, `scale v`, `rotate axis angle` or `pinch m n`. -/
inductive ModClause where
  | translate (v : VecExpr)
  | scale (v : VecExpr)
  | rotate (axis : Axis) (angle : RealExpr)
  | pinch (m n : RealExpr)

/-- Token sequence of a modifier clause. -/
def ModClause.tokens : ModClause → List Token
  | .translate v => "translate" :: v.tokens
  | .scale v => "scale" :: v.tokens
  | .rotate axis angle => "rotate" :: axis.token :: angle.tokens
  | .pinch m n => "pinch" :: (m.tokens ++ n.tokens)

/-- The operation that a modifier clause stands for; a rotation angle is given in
degrees and is negated after conversion to radians. -/
def ModClause.op (K : Externals) : ModClause → ModOp
  | .translate v => .translate v.value
  | .scale v => .scale v.value
  | .rotate .x angle => .xrotate (-(K.PI * angle.value / 180))
  | .rotate .y angle => .yrotate (-(K.PI * angle.value / 180))
  | .rotate .z angle => .zrotate (-(K.PI * angle.value / 180))
  | .pinch m n => .pinch m.value n.value

/-- Well-formed modifier clause; the second scalar of `pinch` must not start with
an operator token, which the first scalar would take in. -/
def ModClause.wellFormed : ModClause → Bool
  | .translate v => v.wellFormed
  | .scale v => v.wellFormed
  | .rotate _ angle => angle.wellFormed
  | .pinch m n => m.wellFormed && (n.wellFormed && decide (startsWithoutOperator n.tokens))

/-- Fuel that suffices for `parsedModifier` on a modifier clause. -/
def ModClause.cost : ModClause → Nat
  | .translate v => v.cost
  | .scale v => v.cost
  | .rotate _ angle => angle.cost
  | .pinch m n => m.cost + n.cost

/-- A property clause of a material block. -/
inductive MatProp where
  | invisible
  | shadowless
  | twosided
  | ambient (v : VecExpr)
  | diffuse (v : VecExpr)
  | reflective (v : VecExpr)
  | refractive (v : VecExpr) (index : RealExpr)
  | specular (r : RealExpr)
  | shininess (r : RealExpr)

/-- Token sequence of a property clause. -/
def MatProp.tokens : MatProp → List Token
  | .invisible => ["invisible"]
  | .shadowless => ["shadowless"]
  | .twosided => ["twosided"]
  | .ambient v => "ambient" :: v.tokens
  | .diffuse v => "diffuse" :: v.tokens
  | .reflective v => "reflective" :: v.tokens
  | .refractive v index => "refractive" :: (v.tokens ++ index.tokens)
  | .specular r => "specular" :: r.tokens
  | .shininess r => "shininess" :: r.tokens

/-- What a property clause does to a material: the field is overwritten. -/
def MatProp.apply : MatProp → Material → Material
  | .invisible, m => { m with invisible := true }
  | .shadowless, m => { m with shadowless := true }
  | .twosided, m => { m with twosided := true }
  | .ambient v, m => { m with ambient := v.value }
  | .diffuse v, m => { m with diffuse := v.value }
  | .reflective v, m => { m with reflective := v.value }
  | .refractive v index, m => { m with refractive := v.value, refractive_index := index.value }
  | .specular r, m => { m with specular := r.value }
  | .shininess r, m => { m with shininess := r.value }

/-- Well-formed property clause; the index of `refractive` must not start with an
operator token, which the vector before it would take in. -/
def MatProp.wellFormed : MatProp → Bool
  | .invisible => true
  | .shadowless => true
  | .twosided => true
  | .ambient v => v.wellFormed
  | .diffuse v => v.wellFormed
  | .reflective v => v.wellFormed
  | .refractive v index =>
    v.wellFormed && (index.wellFormed && decide (startsWithoutOperator index.tokens))
  | .specular r => r.wellFormed
  | .shininess r => r.wellFormed

/-- Fuel that suffices for `parsedMaterialProperty` on a property clause. -/
def MatProp.cost : MatProp → Nat
  | .invisible => 0
  | .shadowless => 0
  | .twosided => 0
  | .ambient v => v.cost
  | .diffuse v => v.cost
  | .reflective v => v.cost
  | .refractive v index => v.cost + index.cost
  | .specular r => r.cost
  | .shininess r => r.cost

/-- Token sequence of a list of property clauses. -/
def propsTokens : List MatProp → List Token
  | [] => []
  | p :: ps => p.tokens ++ propsTokens ps

/-- The property clauses of a block applied to a material, first clause first. -/
def applyProps : List MatProp → Material → Material
  | [], m => m
  | p :: ps, m => applyProps ps (p.apply m)

/-- Every property clause of the list is well formed. -/
def propsWellFormed : List MatProp → Bool
  | [] => true
  | p :: ps => p.wellFormed && propsWellFormed ps

/-- Fuel that suffices for `parsedMaterialLoop` on a list of property clauses. -/
def propsCost : List MatProp → Nat
  | [] => 1
  | p :: ps => p.cost + propsCost ps + 1

/-- Token sequence of the block `material { props }`. -/
def materialTokens (ps : List MatProp) : List Token :=
  "material" :: "\x7b" :: (propsTokens ps ++ ["\x7d"])

/-- An item of a block body: a modifier clause or a material block. -/
inductive BodyItem where
  | modifier (c : ModClause)
  | material (ps : List MatProp)

/-- Token sequence of a body item. -/
def BodyItem.tokens : BodyItem → List Token
  | .modifier c => c.tokens
  | .material ps => materialTokens ps

/-- What a body item does to an object: a modifier clause adds its operation to
those the object has received, a material block overwrites material fields. -/
def BodyItem.apply (K : Externals) : BodyItem → Object → Object
  | .modifier c, o => o.applyOp (c.op K)
  | .material ps, o => { o with material := applyProps ps o.material }

/-- Well-formed body item. -/
def BodyItem.wellFormed : BodyItem → Bool
  | .modifier c => c.wellFormed
  | .material ps => propsWellFormed ps

/-- Fuel that suffices for one body item. -/
def BodyItem.cost : BodyItem → Nat
  | .modifier c => c.cost
  | .material ps => propsCost ps

/-- Token sequence of a block body. -/
def bodyTokens : List BodyItem → List Token
  | [] => []
  | b :: bs => b.tokens ++ bodyTokens bs

/-- A block body applied to an object, first item first. -/
def applyBody (K : Externals) : List BodyItem → Object → Object
  | [], o => o
  | b :: bs, o => applyBody K bs (b.apply K o)

/-- Every item of the body is well formed. -/
def bodyWellFormed : List BodyItem → Bool
  | [] => true
  | b :: bs => b.wellFormed && bodyWellFormed bs

/-- Fuel that suffices for `parseModifiers` on a block body. -/
def bodyCost : List BodyItem → Nat
  | [] => 1
  | b :: bs => b.cost + bodyCost bs + 1

/-- The operations of the modifier clauses of a body, in the order written. -/
def bodyOps (K : Externals) : List BodyItem → List ModOp
  | [] => []
  | .modifier c :: bs => c.op K :: bodyOps K bs
  | .material _ :: bs => bodyOps K bs

/-- The token is none of the keywords with which a property clause starts. -/
def notPropertyKeyword (t : Token) : Prop :=
  t ≠ "invisible" ∧ t ≠ "shadowless" ∧ t ≠ "twosided" ∧ t ≠ "ambient" ∧ t ≠ "diffuse" ∧
    t ≠ "reflective" ∧ t ≠ "refractive" ∧ t ≠ "specular" ∧ t ≠ "shininess"

instance (t : Token) : Decidable (notPropertyKeyword t) := by
  unfold notPropertyKeyword; infer_instance

/-- A block body ends at this stream: the next token starts neither a modifier
clause nor a material block and is no binary operator. -/
def bodyEnds (ts : TokenStream) : Prop :=
  notModifierKeyword (getToken ts).1 ∧ notOperator (getToken ts).1

instance (ts : TokenStream) : Decidable (bodyEnds ts) := by
  unfold bodyEnds; infer_instance

/-- The colour and scalar fields of a material that a property clause can assign. -/
inductive MatField where
  | ambient
  | diffuse
  | reflective
  | refractive
  | refractive_index
  | specular
  | shininess
deriving DecidableEq

/-- The value of a colour field (a vector) or of a scalar field. -/
inductive FieldValue where
  | vec (v : Vect3)
  | real (r : Real)
deriving DecidableEq

/-- The value that a material holds in a field. -/
def Material.get (m : Material) : MatField → FieldValue
  | .ambient => .vec m.ambient
  | .diffuse => .vec m.diffuse
  | .reflective => .vec m.reflective
  | .refractive => .vec m.refractive
  | .refractive_index => .real m.refractive_index
  | .specular => .real m.specular
  | .shininess => .real m.shininess

/-- The value that a property clause gives for a field, `none` when the clause
does not mention the field. -/
def MatProp.valueFor : MatProp → MatField → Option FieldValue
  | .ambient v, .ambient => some (.vec v.value)
  | .diffuse v, .diffuse => some (.vec v.value)
  | .reflective v, .reflective => some (.vec v.value)
  | .refractive v _, .refractive => some (.vec v.value)
  | .refractive _ index, .refractive_index => some (.real index.value)
  | .specular r, .specular => some (.real r.value)
  | .shininess r, .shininess => some (.real r.value)
  | _, _ => none

/-- The clause `scale < 2 , 2 , 2 >`. -/
def clauseScale : ModClause := .scale ⟨literalTriplet "2" "2" "2", .done⟩

/-- The clause `translate < 1 , 0 , 0 >`. -/
def clauseTranslate : ModClause := .translate ⟨literalTriplet "1" "0" "0", .done⟩

/-- An untransformed box with the all-zero material. -/
def plainBox : Object := ⟨⟨[]⟩, blankMaterial, .box⟩

/-- The property clauses `diffuse < 1 , 0 , 0 > specular 2 diffuse < 2 , 2 , 2 >`. -/
def sampleProps : List MatProp :=
  [.diffuse ⟨literalTriplet "1" "0" "0", .done⟩, .specular (.mk (.lit "2") .done .done),
    .diffuse ⟨literalTriplet "2" "2" "2", .done⟩]

/-- The object with its `has_caps` flag cleared, what `nocaps` does to a cone. -/
def Object.noCaps (o : Object) : Object := { o with shape := .cone false }

/-- A freshly constructed cone: no operation, the material of a fresh object, the
`has_caps` flag of a fresh cone. -/
def freshCone (K : Externals) : Object := ⟨⟨[]⟩, K.defaultMaterial, .cone K.coneCaps⟩

/-- The token after a cone body: it ends the body and is not `nocaps`. -/
def coneEnds (ts : TokenStream) : Prop :=
  bodyEnds ts ∧ (getToken ts).1 ≠ "nocaps"

instance (ts : TokenStream) : Decidable (coneEnds ts) := by
  unfold coneEnds; infer_instance

/-- The scene text `Cone { scale < 2 , 2 , 2 > nocaps material { } }`. -/
def coneTokens : List Token :=
  ["Cone", "\x7b", "scale", "<", "2", ",", "2", ",", "2", ">", "nocaps",
    "material", "\x7b", "\x7d", "\x7d"]

/-- The scene text `Cone { scale < 2 , 2 , 2 > material { } }`, without `nocaps`. -/
def coneTokensCapped : List Token :=
  ["Cone", "\x7b", "scale", "<", "2", ",", "2", ",", "2", ">", "material", "\x7b", "\x7d", "\x7d"]

/-- The vector term `a + b * < x , y , z >` for two literals `a` and `b`: the
coefficient in front of the triplet is the whole sum. -/
def sumCoefTerm (a b : Token) (x y z : RealExpr) : VecTermExpr :=
  ⟨some (.mk (.lit a) .done (.add (.lit b) .done .done)), x, y, z, .done⟩

/-- A numeric literal as an expression. -/
def litExpr (t : Token) : RealExpr := .mk (.lit t) .done .done

/-- The number of tokens that the stream holds un-consumed, peeked or pushed back. -/
def pendingTokens (ts : TokenStream) : Nat := ts.pushback.length

/-! ## Concrete syntax of OBJ blocks -/

/-- The component of a vector that an axis token selects, `none` for any other token. -/
def Vect3.component (v : Vect3) (axis : Token) : Option Real :=
  if axis = "x" then some v.x
  else if axis = "y" then some v.y
  else if axis = "z" then some v.z
  else none

/-- The component of a vector along an axis. -/
def Axis.component : Axis → Vect3 → Real
  | .x, v => v.x
  | .y, v => v.y
  | .z, v => v.z

/-- What the loop condition of an OBJ block accepts: a set-level command `unit axis`
or `center`, or a material block. -/
inductive SetCommand where
  | unit (axis : Axis)
  | center
  | material (ps : List MatProp)

/-- Token sequence of a set-level command or material block. -/
def SetCommand.tokens : SetCommand → List Token
  | .unit axis => ["unit", axis.token]
  | .center => ["center"]
  | .material ps => materialTokens ps

/-- The state of an OBJ block while it is read: the one `Modifier mod` of the block,
the one `Material mat`, and the members of the set. -/
structure MeshState where
  mod : Modifier
  mat : Material
  set : List Object

/-- What the loop body of an OBJ block does with a modifier clause: the operation
is added to the block's modifier `mod`, and the whole of `mod` is applied to every
member. -/
def applyMeshModifier (K : Externals) : Option ModClause → MeshState → MeshState
  | none, st => st
  | some c, st =>
    ⟨st.mod.apply (c.op K), st.mat,
      st.set.map fun o => o.applyModifier (st.mod.apply (c.op K))⟩

/-- What a set-level command or material block does: `unit` scales every member by
the inverse of the bounding half-extent on the axis, `center` translates every
member by minus the centre of the bounds, a material block updates `mat`. -/
def SetCommand.apply (K : Externals) : SetCommand → MeshState → MeshState
  | .unit axis, st =>
    ⟨st.mod, st.mat, st.set.map fun o => o.applyOp (.scale (Vect3.sdiv ⟨1, 1, 1⟩
      ((axis.component (K.getBounds st.set).2 - axis.component (K.getBounds st.set).1) / 2)))⟩
  | .center, st =>
    ⟨st.mod, st.mat, st.set.map fun o => o.applyOp (.translate (Vect3.neg
      (Vect3.sdiv (Vect3.add (K.getBounds st.set).1 (K.getBounds st.set).2) 2)))⟩
  | .material ps, st => ⟨st.mod, applyProps ps st.mat, st.set⟩

/-- One round of the loop of an OBJ block: an optional modifier clause, then a
set-level command or material block. -/
structure MeshStep where
  modifier : Option ModClause
  command : SetCommand

/-- Token sequence of an optional modifier clause. -/
def optClauseTokens : Option ModClause → List Token
  | none => []
  | some c => c.tokens

/-- Whether an optional modifier clause is well formed. -/
def optClauseWellFormed : Option ModClause → Bool
  | none => true
  | some c => c.wellFormed

/-- Fuel that suffices for an optional modifier clause. -/
def optClauseCost : Option ModClause → Nat
  | none => 0
  | some c => c.cost

/-- Token sequence of one round. -/
def MeshStep.tokens (s : MeshStep) : List Token :=
  optClauseTokens s.modifier ++ s.command.tokens

/-- What one round does to the state of the block. -/
def MeshStep.apply (K : Externals) (s : MeshStep) (st : MeshState) : MeshState :=
  s.command.apply K (applyMeshModifier K s.modifier st)

/-- Well-formed round. -/
def MeshStep.wellFormed (s : MeshStep) : Bool :=
  optClauseWellFormed s.modifier &&
    (match s.command with
     | .material ps => propsWellFormed ps
     | _ => true)

/-- Fuel that suffices for one round. -/
def MeshStep.cost (s : MeshStep) : Nat :=
  optClauseCost s.modifier +
    (match s.command with
     | .material ps => propsCost ps
     | _ => 0)

/-- Token sequence of a list of rounds. -/
def stepsTokens : List MeshStep → List Token
  | [] => []
  | s :: ss => s.tokens ++ stepsTokens ss

/-- A list of rounds applied to the state of the block, first round first. -/
def applySteps (K : Externals) : List MeshStep → MeshState → MeshState
  | [], st => st
  | s :: ss, st => applySteps K ss (s.apply K st)

/-- Every round of the list is well formed. -/
def stepsWellFormed : List MeshStep → Bool
  | [] => true
  | s :: ss => s.wellFormed && stepsWellFormed ss

/-- Fuel that suffices for a list of rounds and the round that ends the loop. -/
def stepsCost : List MeshStep → Nat
  | [] => 1
  | s :: ss => s.cost + stepsCost ss + 1

/-- The members of the set as the block adds them to the scene: each with the
block's material. -/
def MeshState.objects (st : MeshState) : List Object :=
  st.set.map fun o => { o with material := st.mat }

/-- The state of an OBJ block on file `file` after a list of rounds and an optional
last modifier clause, starting from an empty modifier, the default material and
the set that the mesh reader returns. -/
def blockState (K : Externals) (file : Token) (ss : List MeshStep) (m : Option ModClause) :
    MeshState :=
  applyMeshModifier K m (applySteps K ss ⟨⟨[]⟩, K.defaultMaterial, K.readOBJ file⟩)

/-- The token starts neither a set-level command nor a material block. -/
def notSetKeyword (t : Token) : Prop :=
  t ≠ "unit" ∧ t ≠ "center" ∧ t ≠ "material"

instance (t : Token) : Decidable (notSetKeyword t) := by
  unfold notSetKeyword; infer_instance

/-- The scene text `OBJ { f translate < 1 , 0 , 0 > scale < 2 , 2 , 2 > }`: two
modifier clauses directly after one another. -/
def meshTokensTwoModifiers : List Token :=
  ["OBJ", "\x7b", "f", "translate", "<", "1", ",", "0", ",", "0", ">",
    "scale", "<", "2", ",", "2", ",", "2", ">", "\x7d"]

/-- The clause `translate < 0 , 1 , 0 >`. -/
def clauseTranslateY : ModClause := .translate ⟨literalTriplet "0" "1" "0", .done⟩

/-- The scene text `OBJ { f translate < 1 , 0 , 0 > center translate < 0 , 1 , 0 > }`. -/
def meshTokensCenter : List Token :=
  ["OBJ", "\x7b", "f", "translate", "<", "1", ",", "0", ",", "0", ">", "center",
    "translate", "<", "0", ",", "1", ",", "0", ">", "\x7d"]

/-- An empty scene: black background, an untransformed camera, no light, no object. -/
def emptyScene : Scene := ⟨⟨0, 0, 0⟩, ⟨⟨[]⟩, blankMaterial, .camera⟩, [], []⟩

/-! ## Scene items -/

/-- The token is none of the keywords with which a scene item starts. -/
def notSceneKeyword (t : Token) : Prop :=
  t ≠ "Define" ∧ t ≠ "Box" ∧ t ≠ "Sphere" ∧ t ≠ "Cone" ∧ t ≠ "Plane" ∧ t ≠ "Triangle" ∧
    t ≠ "OBJ" ∧ t ≠ "Light" ∧ t ≠ "BGColor" ∧ t ≠ "Camera"

instance (t : Token) : Decidable (notSceneKeyword t) := by
  unfold notSceneKeyword; infer_instance

/-- A stream over the lexemes `Foo Box` standing on lines 3 and 4. -/
def strayStream : TokenStream := ⟨[], [], [], ["Foo", "Box"], 0, [3, 4]⟩

/-- The token is none of the five shape keywords. -/
def notShapeKeyword (t : Token) : Prop :=
  t ≠ "Box" ∧ t ≠ "Sphere" ∧ t ≠ "Cone" ∧ t ≠ "Plane" ∧ t ≠ "Triangle"

instance (t : Token) : Decidable (notShapeKeyword t) := by
  unfold notShapeKeyword; infer_instance

/-- A property clause of a light block. -/
inductive LightProp where
  | intensity (e : RealExpr)
  | radius (e : RealExpr)
  | falloff

/-- Token sequence of a light property clause. -/
def LightProp.tokens : LightProp → List Token
  | .intensity e => "intensity" :: e.tokens
  | .radius e => "radius" :: e.tokens
  | .falloff => ["falloff"]

/-- What a light property clause assigns. -/
def LightProp.apply : LightProp → Light → Light
  | .intensity e, l => { l with intensity := e.value }
  | .radius e, l => { l with radius := e.value }
  | .falloff, l => { l with falloff := true }

/-- Well-formed light property clause. -/
def LightProp.wellFormed : LightProp → Bool
  | .intensity e => e.wellFormed
  | .radius e => e.wellFormed
  | .falloff => true

/-- Fuel that suffices for a light property clause. -/
def LightProp.cost : LightProp → Nat
  | .intensity e => e.cost
  | .radius e => e.cost
  | .falloff => 0

/-- Token sequence of the property clauses of a light block. -/
def lightTokens : List LightProp → List Token
  | [] => []
  | p :: ps => p.tokens ++ lightTokens ps

/-- The property clauses of a light block applied in order. -/
def applyLightProps : List LightProp → Light → Light
  | [], l => l
  | p :: ps, l => applyLightProps ps (p.apply l)

/-- Every property clause of the list is well formed. -/
def lightWellFormed : List LightProp → Bool
  | [] => true
  | p :: ps => p.wellFormed && lightWellFormed ps

/-- Fuel that suffices for `parseLightLoop` on the property clauses. -/
def lightCost : List LightProp → Nat
  | [] => 1
  | p :: ps => p.cost + lightCost ps + 1

/-- The part of a Box, Sphere, Plane or Triangle block in front of its modifiers:
the keyword, the opening brace and the defining expressions. -/
inductive ShapeHead where
  | box (U L : VecExpr)
  | sphere (c : VecExpr) (r : RealExpr)
  | plane (A N : VecExpr)
  | triangle (a b c : VecExpr)
  | interpTriangle (a b c n0 n1 n2 : VecExpr)

/-- Token sequence of the head of a shape block. -/
def ShapeHead.tokens : ShapeHead → List Token
  | .box U L => "Box" :: "\x7b" :: (U.tokens ++ L.tokens)
  | .sphere c r => "Sphere" :: "\x7b" :: (c.tokens ++ r.tokens)
  | .plane A N => "Plane" :: "\x7b" :: (A.tokens ++ N.tokens)
  | .triangle a b c => "Triangle" :: "\x7b" :: (a.tokens ++ (b.tokens ++ c.tokens))
  | .interpTriangle a b c n0 n1 n2 =>
    "Triangle" :: "\x7b" ::
      (a.tokens ++ (b.tokens ++ (c.tokens ++ (n0.tokens ++ (n1.tokens ++ n2.tokens)))))

/-- The object that the builder constructs from the head of the block, before the
modifiers of the block are read. -/
def ShapeHead.object (K : Externals) : ShapeHead → Object
  | .box U L => boxOfCorners K U.value L.value
  | .sphere c r =>
    ⟨⟨[.scale ⟨r.value, r.value, r.value⟩, .translate c.value]⟩, K.defaultMaterial, .sphere⟩
  | .plane A N => ⟨⟨[]⟩, K.defaultMaterial, .plane A.value N.value⟩
  | .triangle a b c => ⟨⟨[]⟩, K.defaultMaterial, .triangle a.value b.value c.value⟩
  | .interpTriangle a b c n0 n1 n2 =>
    ⟨⟨[]⟩, K.defaultMaterial,
      .interpTriangle a.value b.value c.value n0.value n1.value n2.value⟩

/-- Well-formed head: every expression is well formed, no expression after the
first starts with a binary operator (it would continue the one before), and the
first normal of an interpolated triangle starts with `<`. -/
def ShapeHead.wellFormed : ShapeHead → Bool
  | .box U L => U.wellFormed && L.wellFormed && decide (startsWithoutOperator L.tokens)
  | .sphere c r => c.wellFormed && r.wellFormed && decide (startsWithoutOperator r.tokens)
  | .plane A N => A.wellFormed && N.wellFormed && decide (startsWithoutOperator N.tokens)
  | .triangle a b c =>
    a.wellFormed && b.wellFormed && c.wellFormed &&
      decide (startsWithoutOperator b.tokens) && decide (startsWithoutOperator c.tokens)
  | .interpTriangle a b c n0 n1 n2 =>
    a.wellFormed && b.wellFormed && c.wellFormed && n0.wellFormed && n1.wellFormed &&
      n2.wellFormed && decide (startsWithoutOperator b.tokens) &&
      decide (startsWithoutOperator c.tokens) && decide (n0.tokens.head? = some "<") &&
      decide (startsWithoutOperator n1.tokens) && decide (startsWithoutOperator n2.tokens)

/-- Fuel that suffices for the expressions of the head. -/
def ShapeHead.cost : ShapeHead → Nat
  | .box U L => U.cost + L.cost
  | .sphere c r => c.cost + r.cost
  | .plane A N => A.cost + N.cost
  | .triangle a b c => a.cost + b.cost + c.cost
  | .interpTriangle a b c n0 n1 n2 => a.cost + b.cost + c.cost + n0.cost + n1.cost + n2.cost

/-- A scene item as the token stream delivers it: a macro definition with a
brace-free body, a Box, Sphere, Plane or Triangle block, a Cone block (a body
with at most one `nocaps`), an OBJ block (rounds of the loop and an optional last
modifier clause), a Light block, a background colour, or a Camera block. -/
inductive SceneItem where
  | define (name : Token) (body : List Token)
  | shape (h : ShapeHead) (body : List BodyItem)
  | cone (pre : List BodyItem) (post : Option (List BodyItem))
  | mesh (file : Token) (steps : List MeshStep) (last : Option ModClause)
  | light (position color : VecExpr) (props : List LightProp)
  | bgcolor (v : VecExpr)
  | camera (body : List BodyItem)

/-- Token sequence of a scene item. -/
def SceneItem.tokens : SceneItem → List Token
  | .define name body => "Define" :: name :: "\x7b" :: (body ++ ["\x7d"])
  | .shape h body => h.tokens ++ (bodyTokens body ++ ["\x7d"])
  | .cone pre none => "Cone" :: "\x7b" :: (bodyTokens pre ++ ["\x7d"])
  | .cone pre (some post) =>
    "Cone" :: "\x7b" :: (bodyTokens pre ++ "nocaps" :: (bodyTokens post ++ ["\x7d"]))
  | .mesh file ss m => "OBJ" :: "\x7b" :: file :: (stepsTokens ss ++ optClauseTokens m ++ ["\x7d"])
  | .light p c props =>
    "Light" :: "\x7b" :: (p.tokens ++ (c.tokens ++ (lightTokens props ++ ["\x7d"])))
  | .bgcolor v => "BGColor" :: v.tokens
  | .camera body => "Camera" :: "\x7b" :: (bodyTokens body ++ ["\x7d"])

/-- What a scene item does to the scene. -/
def SceneItem.apply (K : Externals) : SceneItem → Scene → Scene
  | .define _ _, s => s
  | .shape h body, s => s.addObject (applyBody K body (h.object K))
  | .cone pre none, s => s.addObject (applyBody K pre (freshCone K))
  | .cone pre (some post), s => s.addObject (applyBody K (pre ++ post) (freshCone K)).noCaps
  | .mesh file ss m, s => { s with objects := s.objects ++ (blockState K file ss m).objects }
  | .light p c props, s =>
    s.addLight (applyLightProps props
      { K.defaultLight with position := p.value, color := c.value })
  | .bgcolor v, s => { s with bgcolor := v.value }
  | .camera body, s => { s with camera := applyBody K body s.camera }

/-- Well-formed scene item; the body of a macro definition holds no brace and no
end-of-input sentinel. -/
def SceneItem.wellFormed : SceneItem → Bool
  | .define _ body =>
    body.all fun t => decide (t ≠ "\x7b") && decide (t ≠ "\x7d") && decide (t ≠ eofToken)
  | .shape h body => h.wellFormed && bodyWellFormed body
  | .cone pre none => bodyWellFormed pre
  | .cone pre (some post) => bodyWellFormed pre && bodyWellFormed post
  | .mesh _ ss m => stepsWellFormed ss && optClauseWellFormed m
  | .light p c props =>
    p.wellFormed && c.wellFormed && decide (startsWithoutOperator c.tokens) &&
      lightWellFormed props
  | .bgcolor v => v.wellFormed
  | .camera body => bodyWellFormed body

/-- Fuel that suffices for `parsedSceneItem` on a scene item. -/
def SceneItem.cost : SceneItem → Nat
  | .define _ body => body.length + 1
  | .shape h body => h.cost + bodyCost body
  | .cone pre none => bodyCost pre
  | .cone pre (some post) => bodyCost pre + bodyCost post
  | .mesh _ ss m => stepsCost ss + optClauseCost m
  | .light p c props => p.cost + c.cost + lightCost props
  | .bgcolor v => v.cost
  | .camera body => bodyCost body

/-- What reading a scene item leaves of the stream once its tokens are read: a
macro definition registers its macro, a background colour has looked at the
token after its vector and pushed it back. -/
def SceneItem.settle : SceneItem → TokenStream → TokenStream
  | .define name body, ts => addMacro ⟨name, body⟩ ts
  | .bgcolor _, ts => (peekToken ts).2
  | _, ts => ts

/-- The stream after a scene item has been read from it. -/
def SceneItem.after (i : SceneItem) (ts : TokenStream) : TokenStream :=
  i.settle (past ts i.tokens)

/-- What the item needs of the stream behind it: the vector of a background colour
ends there (no binary operator follows). -/
def SceneItem.endsAt : SceneItem → TokenStream → Prop
  | .bgcolor _, ts => expressionEnds ts
  | _, _ => True

instance (i : SceneItem) (ts : TokenStream) : Decidable (i.endsAt ts) := by
  cases i <;> unfold SceneItem.endsAt <;> infer_instance

/-- The stream delivers the items one after the other, each on the stream as the
items before it have left it (macros registered by a definition are in force for
the items after it). -/
def itemsDelivered : List SceneItem → TokenStream → Prop
  | [], _ => True
  | i :: is, ts =>
    (Delivers ts i.tokens ∧ i.endsAt (past ts i.tokens)) ∧ itemsDelivered is (i.after ts)

/-- Whether a stream delivers given items can be computed. -/
def decItemsDelivered :
    (is : List SceneItem) → (ts : TokenStream) → Decidable (itemsDelivered is ts)
  | [], _ => isTrue trivial
  | i :: is, ts =>
    match (inferInstance : Decidable (Delivers ts i.tokens ∧ i.endsAt (past ts i.tokens))),
      decItemsDelivered is (i.after ts) with
    | isTrue h1, isTrue h2 => isTrue ⟨h1, h2⟩
    | isFalse h1, _ => isFalse fun h => h1 h.1
    | _, isFalse h2 => isFalse fun h => h2 h.2

instance (is : List SceneItem) (ts : TokenStream) : Decidable (itemsDelivered is ts) :=
  decItemsDelivered is ts

/-- The stream after the items have been read from it. -/
def itemsAfter : List SceneItem → TokenStream → TokenStream
  | [], ts => ts
  | i :: is, ts => itemsAfter is (i.after ts)

/-- The items applied to the scene, first item first. -/
def applyItems (K : Externals) : List SceneItem → Scene → Scene
  | [], s => s
  | i :: is, s => applyItems K is (i.apply K s)

/-- Every item of the list is well formed. -/
def itemsWellFormed : List SceneItem → Bool
  | [] => true
  | i :: is => i.wellFormed && itemsWellFormed is

/-- Fuel that suffices for `parseInto` on the items. -/
def itemsCost : List SceneItem → Nat
  | [] => 1
  | i :: is => i.cost + itemsCost is + 1

/-- The items of the scene text
`Define R { 2 } BGColor < 1 , 0 , 0 > Box { < R , R , R > < 0 , 0 , 0 > }`
as the stream delivers them, the macro `R` replaced by its body. -/
def sampleItems : List SceneItem :=
  [.define "R" ["2"], .bgcolor ⟨literalTriplet "1" "0" "0", .done⟩,
    .shape (.box cornerUpper cornerLower) []]

/-- The lexemes of that scene text. -/
def sampleLexemes : List Token :=
  ["Define", "R", "\x7b", "2", "\x7d", "BGColor", "<", "1", ",", "0", ",", "0", ">",
    "Box", "\x7b", "<", "R", ",", "R", ",", "R", ">", "<", "0", ",", "0", ",", "0", ">", "\x7d"]

/-- The single item `BGColor < 1 , 0 , 0 >`. -/
def bgItems : List SceneItem := [.bgcolor ⟨literalTriplet "1" "0" "0", .done⟩]

/-- The lexemes of the scene text `BGColor < 1 , 0 , 0 >`. -/
def bgLexemes : List Token := ["BGColor", "<", "1", ",", "0", ",", "0", ">"]

/-- The scene that the sample text describes: background (1,0,0) and one box. -/
def sampleScene : Scene :=
  ⟨⟨1, 0, 0⟩, ⟨⟨[]⟩, blankMaterial, .camera⟩, [],
    [⟨⟨[.scale ⟨1, 1, 1⟩, .translate ⟨1, 1, 1⟩]⟩, blankMaterial, .box⟩]⟩

/-! ## Samples of rounding -/

/-- A value negated `k` times with the unary minus of the source. -/
def negated : Nat → Real → Real
  | 0, v => v
  | k + 1, v => -(negated k v)

/-- The expression `0.1 + 0.2`. -/
def exprTenths : RealExpr :=
  .mk (.lit "0.1") .done (.add (.lit "0.2") .done .done)

/-- Externals as `sampleExternals`, with a set whose bounds are [-49, 49] on the x
axis. -/
def wideExternals : Externals :=
  { sampleExternals with getBounds := fun _ => (⟨-49, 0, 0⟩, ⟨49, 1, 1⟩) }

/-- The double nearest to 1/49, `0.02040816326530612`. -/
def fortyNinth : Real := .finite false 5882252574524729 (-58)

/-- The vector term `3 * < 0.1 , 0.2 , 0.3 >`. -/
def vecTermTenths : VecTermExpr :=
  { literalTriplet "0.1" "0.2" "0.3" with coef := some (.mk (.lit "3") .done .done) }

/-- The corner `< 0.3 , 0.3 , 0.3 >`. -/
def cornerThreeTenths : VecExpr := ⟨literalTriplet "0.3" "0.3" "0.3", .done⟩

/-- The corner `< 0.1 , 0.1 , 0.1 >`. -/
def cornerTenth : VecExpr := ⟨literalTriplet "0.1" "0.1" "0.1", .done⟩

/-- The scene text `Box { < 0.3 , 0.3 , 0.3 > < 0.1 , 0.1 , 0.1 > }`. -/
def boxTokensTenths : List Token :=
  ["Box", "\x7b", "<", "0.3", ",", "0.3", ",", "0.3", ">",
    "<", "0.1", ",", "0.1", ",", "0.1", ">", "\x7d"]

/-- The double `0.09999999999999999`, half the difference of the doubles nearest to
`0.3` and `0.1`. -/
def tenthDown : Real := .finite false 7205759403792793 (-56)

/-- The double `0.2`. -/
def twoTenths : Real := .finite false 7205759403792794 (-55)

/-- The vector expression `< 0.1 , 0 , 0 > + < 0.2 , 0 , 0 >`. -/
def vecSumTenths : VecExpr :=
  ⟨literalTriplet "0.1" "0" "0", .add (literalTriplet "0.2" "0" "0") .done⟩

/-! ## Double arithmetic -/

theorem roundRat_not (s : Bool) (p d : Nat) (k : Int) :
    roundRat (!s) p d k = (roundRat s p d k).neg := by
  unfold roundRat
  cases roundMag p d k <;> rfl

theorem real_add_comm (a b : Real) : a + b = b + a := by
  show Real.add a b = Real.add b a
  cases a with
  | nan => cases b <;> rfl
  | inf s =>
    cases b with
    | nan => rfl
    | inf t =>
      simp only [Real.add]
      by_cases h : s = t
      · subst h; rfl
      · simp [h, Ne.symm h]
    | finite t n f => rfl
  | finite s m e =>
    cases b with
    | nan => rfl
    | inf t => rfl
    | finite t n f =>
      simp only [Real.add]
      rw [Bool.and_comm t s, Int.add_comm (signed t _)]
      by_cases hm : m = 0
      · by_cases hn : n = 0
        · subst hm; subst hn
          simp [signed]
        · subst hm
          simp [hn]
      · by_cases hn : n = 0
        · subst hn
          simp [hm]
        · simp only [hm, hn, if_false, min_comm f e]

theorem toRat_neg (a : Real) : (-a).toRat? = a.toRat?.map fun v => -v := by
  show (Real.neg a).toRat? = _
  cases a with
  | nan => rfl
  | inf s => rfl
  | finite s m e =>
    cases s <;> simp [Real.neg, Real.toRat?]

theorem real_neg_div (a b : Real) : (-a) / b = -(a / b) := by
  show Real.div (Real.neg a) b = Real.neg (Real.div a b)
  cases a with
  | nan => cases b <;> rfl
  | inf s =>
    cases b with
    | nan => rfl
    | inf t => rfl
    | finite t n f => cases s <;> cases t <;> rfl
  | finite s m e =>
    cases b with
    | nan => rfl
    | inf t => cases s <;> cases t <;> rfl
    | finite t n f =>
      simp only [Real.neg, Real.div]
      have hx : xor (!s) t = !(xor s t) := by cases s <;> cases t <;> rfl
      by_cases hn : n = 0
      · by_cases hm : m = 0
        · simp [hn, hm]
        · simp [hn, hm, hx]
      · simp only [hn, if_false, hx, roundRat_not]
        rfl

theorem signed_not (s : Bool) (n : Nat) : signed (!s) n = -signed s n := by
  cases s <;> simp [signed]

theorem add_core_neg (u v : Bool) (z e0 : Int) (hz : z ≠ 0) :
    (if -z = 0 then Real.finite u 0 (-1074)
      else roundRat (decide (-z < 0)) (-z).natAbs 1 e0)
      = Real.neg (if z = 0 then Real.finite v 0 (-1074)
          else roundRat (decide (z < 0)) z.natAbs 1 e0) := by
  have h1 : ¬ -z = 0 := by omega
  have h2 : decide (-z < 0) = !decide (z < 0) := by
    by_cases h : z < 0
    · have : ¬ -z < 0 := by omega
      simp [h, this]
    · have : -z < 0 := by omega
      simp [h, this]
  rw [if_neg h1, if_neg hz, h2, roundRat_not, Int.natAbs_neg]

theorem signed_sub_eq_zero (s t : Bool) (a b : Nat) (h : signed s a + -signed t b = 0) :
    (a = 0 ∧ b = 0) ∨ s = t := by
  cases s <;> cases t <;> simp only [signed, if_true, if_false, Bool.false_eq_true] at h <;>
    first
    | (right; rfl)
    | (left; omega)

theorem real_sub_antisymm (a b : Real) :
    b - a = -(a - b) ∨
      (b - a = .finite false 0 (-1074) ∧ a - b = .finite false 0 (-1074)) := by
  show Real.add b (Real.neg a) = Real.neg (Real.add a (Real.neg b)) ∨
    (Real.add b (Real.neg a) = _ ∧ Real.add a (Real.neg b) = _)
  cases a with
  | nan => left; cases b <;> rfl
  | inf s =>
    cases b with
    | nan => left; rfl
    | inf t => left; cases s <;> cases t <;> rfl
    | finite t n f => left; cases s <;> rfl
  | finite s m e =>
    cases b with
    | nan => left; rfl
    | inf t => left; cases t <;> rfl
    | finite t n f =>
      simp only [Real.neg, Real.add, signed_not]
      by_cases hmn : m = 0 ∧ n = 0
      · obtain ⟨hm, hn⟩ := hmn
        subst hm; subst hn
        cases s <;> cases t <;> simp [signed, Real.neg]
      · have he : (if n = 0 then e else if m = 0 then f else min f e)
            = (if m = 0 then f else if n = 0 then e else min e f) := by
          by_cases hm : m = 0
          · by_cases hn : n = 0
            · exact absurd ⟨hm, hn⟩ hmn
            · simp [hm, hn]
          · by_cases hn : n = 0
            · simp [hm, hn]
            · simp [hm, hn, min_comm]
        rw [he]
        generalize (if m = 0 then f else if n = 0 then e else min e f) = e0
        have hz : signed t (n <<< (f - e0).toNat) + -signed s (m <<< (e - e0).toNat)
            = -(signed s (m <<< (e - e0).toNat) + -signed t (n <<< (f - e0).toNat)) := by omega
        rw [hz]
        by_cases h0 : signed s (m <<< (e - e0).toNat) + -signed t (n <<< (f - e0).toNat) = 0
        · right
          rcases signed_sub_eq_zero s t _ _ h0 with ⟨ha, hb⟩ | hst
          · exfalso
            apply hmn
            simp only [Nat.shiftLeft_eq, Nat.mul_eq_zero, Nat.pow_eq_zero, OfNat.ofNat_ne_zero,
              false_and, or_false] at ha hb
            exact ⟨ha, hb⟩
          · subst hst
            simp [h0]
        · left
          exact add_core_neg _ _ _ e0 h0

theorem zero_div_two : (Real.finite false 0 (-1074) : Real) / 2 = .finite false 0 (-1074) := by
  decide

theorem toRat_zero : (Real.finite false 0 (-1074)).toRat? = some 0 := by
  simp [Real.toRat?]

theorem toRat_two : (2 : Real).toRat? = some 2 := by
  have h : (2 : Real) = .finite false 4503599627370496 (-51) := by decide
  rw [h]
  simp only [Real.toRat?, Bool.false_eq_true, if_false, Option.some.injEq]
  norm_num

theorem toRat_one : (1 : Real).toRat? = some 1 := by
  have h : (1 : Real) = .finite false 4503599627370496 (-52) := by decide
  rw [h]
  simp only [Real.toRat?, Bool.false_eq_true, if_false, Option.some.injEq]
  norm_num

theorem toRat_zero_lit : (0 : Real).toRat? = some 0 := by
  have h : (0 : Real) = .finite false 0 (-1074) := by decide
  rw [h, toRat_zero]

theorem toRat_neg_two : (-2 : Real).toRat? = some (-2) := by
  rw [toRat_neg, toRat_two]
  rfl

theorem toRat_neg_half : (-1 / 2 : Real).toRat? = some (-1 / 2) := by
  have h : (-1 / 2 : Real) = .finite true 4503599627370496 (-53) := by decide
  rw [h]
  simp only [Real.toRat?, if_true, Option.some.injEq]
  norm_num

theorem toPoint_222 : Vect3.toPoint? ⟨2, 2, 2⟩ = some ⟨2, 2, 2⟩ := by
  simp only [Vect3.toPoint?, toRat_two]

theorem toPoint_100 : Vect3.toPoint? ⟨1, 0, 0⟩ = some ⟨1, 0, 0⟩ := by
  simp only [Vect3.toPoint?, toRat_one, toRat_zero_lit]

theorem toPoint_010 : Vect3.toPoint? ⟨0, 1, 0⟩ = some ⟨0, 1, 0⟩ := by
  simp only [Vect3.toPoint?, toRat_one, toRat_zero_lit]

theorem toPoint_centering : Vect3.toPoint? ⟨-2, -1 / 2, -1 / 2⟩ = some ⟨-2, -1 / 2, -1 / 2⟩ := by
  simp only [Vect3.toPoint?, toRat_neg_two, toRat_neg_half]

theorem half_sub_antisymm (a b : Real) :
    ((b - a) / 2).toRat? = ((a - b) / 2).toRat?.map fun v => -v := by
  rcases real_sub_antisymm a b with h | ⟨h1, h2⟩
  · rw [h, real_neg_div, toRat_neg]
  · rw [h1, h2, zero_div_two, toRat_zero]
    simp

theorem neg_neg_real (v : Real) : -(-v) = v := by
  show Real.neg (Real.neg v) = v
  cases v <;> simp [Real.neg]

theorem negated_parity (k : Nat) (v : Real) :
    negated k v = if k % 2 = 0 then v else -v := by
  induction k with
  | zero => rfl
  | succ k ih =>
    rw [negated, ih]
    by_cases h : k % 2 = 0
    · have h1 : ¬ (k + 1) % 2 = 0 := by omega
      simp [h, h1]
    · have h1 : (k + 1) % 2 = 0 := by omega
      simp [h, h1, neg_neg_real]

/-! ## Stream lemmas -/

@[simp]
theorem getToken_ungetToken (t : Token) (ts : TokenStream) :
    getToken (ungetToken t ts) = (t, ts) := by
  simp [getToken, ungetToken]

@[simp]
theorem getToken_peekToken (ts : TokenStream) :
    getToken (peekToken ts).2 = getToken ts := by
  simp [peekToken]

@[simp]
theorem peekToken_fst (ts : TokenStream) : (peekToken ts).1 = (getToken ts).1 := rfl

theorem peekToken_snd (ts : TokenStream) :
    (peekToken ts).2 = ungetToken (getToken ts).1 (getToken ts).2 := rfl

@[simp]
theorem past_nil (ts : TokenStream) : past ts [] = ts := rfl

@[simp]
theorem past_cons (ts : TokenStream) (t : Token) (l : List Token) :
    past ts (t :: l) = past (getToken ts).2 l := rfl

@[simp]
theorem past_append (ts : TokenStream) (a b : List Token) :
    past ts (a ++ b) = past (past ts a) b := by
  induction a generalizing ts with
  | nil => rfl
  | cons t a ih => simp [ih]

theorem past_peekToken (ts : TokenStream) (t : Token) (l : List Token) :
    past (peekToken ts).2 (t :: l) = past ts (t :: l) := by
  simp

@[simp]
theorem delivers_nil (ts : TokenStream) : Delivers ts [] := trivial

theorem delivers_cons (ts : TokenStream) (t : Token) (l : List Token) :
    Delivers ts (t :: l) ↔ (getToken ts).1 = t ∧ Delivers (getToken ts).2 l := Iff.rfl

theorem delivers_append (ts : TokenStream) (a b : List Token) :
    Delivers ts (a ++ b) ↔ Delivers ts a ∧ Delivers (past ts a) b := by
  induction a generalizing ts with
  | nil => simp
  | cons t a ih =>
    simp only [List.cons_append, delivers_cons, past_cons, ih, and_assoc]

theorem delivers_peekToken (ts : TokenStream) (t : Token) (l : List Token) :
    Delivers (peekToken ts).2 (t :: l) ↔ Delivers ts (t :: l) := by
  simp only [delivers_cons, getToken_peekToken]

theorem delivers_ofList_aux (ms : List Macro) (l rest : List Token) (c : Nat) (lt : List Nat)
    (h : ∀ t ∈ l, lookupMacro ms t = none) :
    Delivers ⟨ms, [], [], l ++ rest, c, lt⟩ l ∧
      past ⟨ms, [], [], l ++ rest, c, lt⟩ l = ⟨ms, [], [], rest, c + l.length, lt⟩ := by
  induction l generalizing c with
  | nil => simp
  | cons t l ih =>
    have ht : lookupMacro ms t = none := h t (List.mem_cons_self _ _)
    have hl : ∀ u ∈ l, lookupMacro ms u = none := fun u hu => h u (List.mem_cons_of_mem _ hu)
    have hg : getToken ⟨ms, [], [], t :: l ++ rest, c, lt⟩ = (t, ⟨ms, [], [], l ++ rest, c + 1, lt⟩) := by
      simp [getToken, lexToken, ht]
    obtain ⟨h1, h2⟩ := ih (c + 1) hl
    refine ⟨?_, ?_⟩
    · rw [delivers_cons, hg]; exact ⟨rfl, h1⟩
    · rw [past_cons, hg]
      simp only [h2, List.length_cons]
      congr 1
      omega

/-! ## Token facts -/

theorem validLiteral_ne {tok : Token} (h : validLiteral tok = true) :
    tok ≠ "-" ∧ tok ≠ "+" ∧ tok ≠ "(" ∧ tok ≠ "<" := by
  refine ⟨?_, ?_, ?_, ?_⟩ <;> intro e <;> subst e <;> revert h <;> decide

theorem numExpr_tokens_head (n : NumExpr) (h : n.wellFormed = true) :
    ∃ t l, n.tokens = t :: l ∧ t ≠ "<" := by
  cases n with
  | lit tok =>
    refine ⟨tok, [], by simp [NumExpr.tokens], ?_⟩
    simp only [NumExpr.wellFormed] at h
    exact (validLiteral_ne h).2.2.2
  | neg n => exact ⟨"-", n.tokens, by simp [NumExpr.tokens], by decide⟩
  | pos n => exact ⟨"+", n.tokens, by simp [NumExpr.tokens], by decide⟩
  | paren e => exact ⟨"(", e.tokens ++ [")"], by simp [NumExpr.tokens], by decide⟩

/-! ## The scalar parser computes the value of the expression -/

theorem afterTerm_of_ne (ts : TokenStream) (h : (getToken ts).1 ≠ "*") :
    afterTerm ts = (peekToken ts).2 := by
  simp [afterTerm, h, peekToken_snd]

theorem getToken_afterTerm_fst (ts : TokenStream) :
    (getToken (afterTerm ts)).1 = (getToken ts).1 := by
  unfold afterTerm
  split <;> simp_all

theorem unget_afterTerm (ts : TokenStream) :
    ungetToken (getToken (afterTerm ts)).1 (getToken (afterTerm ts)).2 = afterTerm ts := by
  unfold afterTerm
  split <;> simp_all

theorem parseTermLoop_stop (fuel : Nat) (r : Real) (ts : TokenStream) (h : termStops ts) :
    parseTermLoop (fuel + 1) r ts = .ok r (afterTerm ts) := by
  obtain ⟨h1, h2⟩ := h
  unfold parseTermLoop afterTerm
  by_cases hs : (getToken ts).1 = "*"
  · have := h2 hs
    simp_all
  · simp [hs, h1]

theorem parseRealLoop_stop (fuel : Nat) (r : Real) (ts : TokenStream) (h : realStops ts) :
    parseRealLoop (fuel + 1) r (afterTerm ts) = .ok r (afterTerm ts) := by
  obtain ⟨h1, h2⟩ := h
  have hu := unget_afterTerm ts
  rw [getToken_afterTerm_fst] at hu
  unfold parseRealLoop
  simp only [getToken_afterTerm_fst, h1, h2, if_false, hu]

theorem termStops_of_cons {ts : TokenStream} {t : Token} {l : List Token}
    (h : Delivers ts (t :: l)) (h1 : t ≠ "*") (h2 : t ≠ "/") : termStops ts := by
  rw [delivers_cons] at h
  constructor
  · rw [h.1]; exact h2
  · intro e; rw [h.1] at e; exact absurd e h1

theorem realTail_termStops (rt : RealTail) (ts : TokenStream) (hd : Delivers ts rt.tokens)
    (hs : termStops (past ts rt.tokens)) : termStops ts := by
  cases rt with
  | done => simpa [RealTail.tokens] using hs
  | add n t rest =>
    simp only [RealTail.tokens] at hd
    exact termStops_of_cons hd (by decide) (by decide)
  | sub n t rest =>
    simp only [RealTail.tokens] at hd
    exact termStops_of_cons hd (by decide) (by decide)

mutual

theorem parseNumber_value (n : NumExpr) (fuel : Nat) (ts : TokenStream)
    (hw : n.wellFormed = true) (hd : Delivers ts n.tokens) (hf : n.cost ≤ fuel) :
    parseNumber fuel ts = .ok n.value (past ts n.tokens) := by
  match n with
  | .lit tok =>
    obtain ⟨f, rfl⟩ : ∃ f, fuel = f + 1 := ⟨fuel - 1, by simp [NumExpr.cost] at hf; omega⟩
    simp only [NumExpr.tokens, delivers_cons, delivers_nil, and_true] at hd
    simp only [NumExpr.wellFormed] at hw
    obtain ⟨h1, h2, h3, _⟩ := validLiteral_ne hw
    simp only [validLiteral, Bool.and_eq_true] at hw
    obtain ⟨hv, hsome⟩ := hw
    obtain ⟨r, hr⟩ := Option.isSome_iff_exists.mp hsome
    unfold parseNumber
    simp [hd, h1, h2, h3, hv, hr, NumExpr.value, NumExpr.tokens, past_cons]
  | .neg m =>
    obtain ⟨f, rfl⟩ : ∃ f, fuel = f + 1 := ⟨fuel - 1, by simp [NumExpr.cost] at hf; omega⟩
    simp only [NumExpr.tokens, delivers_cons] at hd
    simp only [NumExpr.wellFormed] at hw
    have ih := parseNumber_value m f (getToken ts).2 hw hd.2 (by simp [NumExpr.cost] at hf; omega)
    unfold parseNumber
    simp [hd.1, ih, Res.bind, NumExpr.value, NumExpr.tokens, past_cons]
  | .pos m =>
    obtain ⟨f, rfl⟩ : ∃ f, fuel = f + 1 := ⟨fuel - 1, by simp [NumExpr.cost] at hf; omega⟩
    simp only [NumExpr.tokens, delivers_cons] at hd
    simp only [NumExpr.wellFormed] at hw
    have ih := parseNumber_value m f (getToken ts).2 hw hd.2 (by simp [NumExpr.cost] at hf; omega)
    unfold parseNumber
    simp [hd.1, ih, NumExpr.value, NumExpr.tokens, past_cons]
  | .paren e =>
    obtain ⟨f, rfl⟩ : ∃ f, fuel = f + 1 := ⟨fuel - 1, by simp [NumExpr.cost] at hf; omega⟩
    simp only [NumExpr.tokens, delivers_cons, delivers_append] at hd
    simp only [NumExpr.wellFormed] at hw
    obtain ⟨h0, he, hc, _⟩ := hd
    have hstop : termStops (past (getToken ts).2 e.tokens) :=
      @termStops_of_cons _ _ [] (by rw [delivers_cons]; exact ⟨hc, trivial⟩) (by decide) (by decide)
    have hrs : realStops (past (getToken ts).2 e.tokens) := by
      constructor <;> rw [hc] <;> decide
    have ih := parseReal_value e f (getToken ts).2 hw he hstop hrs (by simp [NumExpr.cost] at hf; omega)
    have hne : (getToken (past (getToken ts).2 e.tokens)).1 ≠ "*" := by rw [hc]; decide
    unfold parseNumber
    simp [h0, ih, Res.bind, expectToken, afterTerm_of_ne _ hne, hc, NumExpr.value, NumExpr.tokens,
      past_cons, past_append]

theorem parseTermLoop_value (tt : TermTail) (fuel : Nat) (acc : Real) (ts : TokenStream)
    (hw : tt.wellFormed = true) (hd : Delivers ts tt.tokens)
    (hs : termStops (past ts tt.tokens)) (hf : tt.cost ≤ fuel) :
    parseTermLoop fuel acc ts = .ok (tt.value acc) (afterTerm (past ts tt.tokens)) := by
  match tt with
  | .done =>
    obtain ⟨f, rfl⟩ : ∃ f, fuel = f + 1 := ⟨fuel - 1, by simp [TermTail.cost] at hf; omega⟩
    simp only [TermTail.tokens, past_nil] at hs ⊢
    simpa [TermTail.value] using parseTermLoop_stop f acc ts hs
  | .mul n rest =>
    obtain ⟨f, rfl⟩ : ∃ f, fuel = f + 1 := ⟨fuel - 1, by simp [TermTail.cost] at hf; omega⟩
    simp only [TermTail.tokens, delivers_cons, delivers_append] at hd
    simp only [TermTail.wellFormed, Bool.and_eq_true] at hw
    obtain ⟨h0, hn, hr⟩ := hd
    obtain ⟨t, l, htl, hlt⟩ := numExpr_tokens_head n hw.1
    have hp : (getToken (getToken ts).2).1 ≠ "<" := by
      rw [htl, delivers_cons] at hn; rw [hn.1]; exact hlt
    have hn2 : Delivers (peekToken (getToken ts).2).2 n.tokens := by
      rw [htl, delivers_peekToken, ← htl]; exact hn
    have ihn := parseNumber_value n f (peekToken (getToken ts).2).2 hw.1 hn2
      (by simp [TermTail.cost] at hf; omega)
    have hsk : past (peekToken (getToken ts).2).2 n.tokens
        = past (getToken ts).2 n.tokens := by
      rw [htl, past_peekToken]
    have hs2 : termStops (past (past (getToken ts).2 n.tokens) rest.tokens) := by
      simpa [TermTail.tokens, past_cons, past_append] using hs
    have ihr := parseTermLoop_value rest f (acc * n.value) _ hw.2 hr hs2
      (by simp [TermTail.cost] at hf; omega)
    unfold parseTermLoop
    simp [h0, hp, ihn, Res.bind, hsk, ihr, TermTail.value, TermTail.tokens, past_cons, past_append]
  | .div n rest =>
    obtain ⟨f, rfl⟩ : ∃ f, fuel = f + 1 := ⟨fuel - 1, by simp [TermTail.cost] at hf; omega⟩
    simp only [TermTail.tokens, delivers_cons, delivers_append] at hd
    simp only [TermTail.wellFormed, Bool.and_eq_true] at hw
    obtain ⟨h0, hn, hr⟩ := hd
    have ihn := parseNumber_value n f (getToken ts).2 hw.1 hn
      (by simp [TermTail.cost] at hf; omega)
    have hs2 : termStops (past (past (getToken ts).2 n.tokens) rest.tokens) := by
      simpa [TermTail.tokens, past_cons, past_append] using hs
    have ihr := parseTermLoop_value rest f (acc / n.value) _ hw.2.2 hr hs2
      (by simp [TermTail.cost] at hf; omega)
    unfold parseTermLoop
    simp [h0, ihn, Res.bind, ihr, TermTail.value, TermTail.tokens, past_cons, past_append]

theorem parseRealLoop_value (rt : RealTail) (fuel : Nat) (acc : Real) (ts : TokenStream)
    (hw : rt.wellFormed = true) (hd : Delivers ts rt.tokens)
    (hs : termStops (past ts rt.tokens)) (hr : realStops (past ts rt.tokens))
    (hf : rt.cost ≤ fuel) :
    parseRealLoop fuel acc (afterTerm ts)
      = .ok (rt.value acc) (afterTerm (past ts rt.tokens)) := by
  match rt with
  | .done =>
    obtain ⟨f, rfl⟩ : ∃ f, fuel = f + 1 := ⟨fuel - 1, by simp [RealTail.cost] at hf; omega⟩
    simp only [RealTail.tokens, past_nil] at hr ⊢
    simpa [RealTail.value] using parseRealLoop_stop f acc ts hr
  | .add n t rest =>
    obtain ⟨f, rfl⟩ : ∃ f, fuel = f + 1 := ⟨fuel - 1, by simp [RealTail.cost] at hf; omega⟩
    obtain ⟨g, rfl⟩ : ∃ g, f = g + 1 := ⟨f - 1, by simp [RealTail.cost] at hf; omega⟩
    simp only [RealTail.tokens, delivers_cons, delivers_append] at hd
    simp only [RealTail.wellFormed, Bool.and_eq_true] at hw
    obtain ⟨h0, hn, ht, hrest⟩ := hd
    have hne : (getToken ts).1 ≠ "*" := by rw [h0]; decide
    have ihn := parseNumber_value n g (getToken ts).2 hw.1 hn
      (by simp [RealTail.cost] at hf; omega)
    have hs2 : termStops (past (past (past (getToken ts).2 n.tokens) t.tokens) rest.tokens) := by
      simpa [RealTail.tokens, past_cons, past_append] using hs
    have hr2 : realStops (past (past (past (getToken ts).2 n.tokens) t.tokens) rest.tokens) := by
      simpa [RealTail.tokens, past_cons, past_append] using hr
    have hst := realTail_termStops rest _ hrest hs2
    have iht := parseTermLoop_value t g n.value _ hw.2.1 ht hst
      (by simp [RealTail.cost] at hf; omega)
    have ihr := parseRealLoop_value rest (g + 1) (acc + t.value n.value) _ hw.2.2 hrest hs2 hr2
      (by simp [RealTail.cost] at hf; omega)
    rw [afterTerm_of_ne _ hne]
    unfold parseRealLoop
    simp only [getToken_peekToken, h0]
    unfold parseTerm
    simp [ihn, Res.bind, iht, ihr, RealTail.value, RealTail.tokens, past_cons, past_append]
  | .sub n t rest =>
    obtain ⟨f, rfl⟩ : ∃ f, fuel = f + 1 := ⟨fuel - 1, by simp [RealTail.cost] at hf; omega⟩
    obtain ⟨g, rfl⟩ : ∃ g, f = g + 1 := ⟨f - 1, by simp [RealTail.cost] at hf; omega⟩
    simp only [RealTail.tokens, delivers_cons, delivers_append] at hd
    simp only [RealTail.wellFormed, Bool.and_eq_true] at hw
    obtain ⟨h0, hn, ht, hrest⟩ := hd
    have hne : (getToken ts).1 ≠ "*" := by rw [h0]; decide
    have ihn := parseNumber_value n g (getToken ts).2 hw.1 hn
      (by simp [RealTail.cost] at hf; omega)
    have hs2 : termStops (past (past (past (getToken ts).2 n.tokens) t.tokens) rest.tokens) := by
      simpa [RealTail.tokens, past_cons, past_append] using hs
    have hr2 : realStops (past (past (past (getToken ts).2 n.tokens) t.tokens) rest.tokens) := by
      simpa [RealTail.tokens, past_cons, past_append] using hr
    have hst := realTail_termStops rest _ hrest hs2
    have iht := parseTermLoop_value t g n.value _ hw.2.1 ht hst
      (by simp [RealTail.cost] at hf; omega)
    have ihr := parseRealLoop_value rest (g + 1) (acc - t.value n.value) _ hw.2.2 hrest hs2 hr2
      (by simp [RealTail.cost] at hf; omega)
    rw [afterTerm_of_ne _ hne]
    unfold parseRealLoop
    simp only [getToken_peekToken, h0]
    unfold parseTerm
    simp [ihn, Res.bind, iht, ihr, RealTail.value, RealTail.tokens, past_cons, past_append]

theorem parseReal_value (e : RealExpr) (fuel : Nat) (ts : TokenStream)
    (hw : e.wellFormed = true) (hd : Delivers ts e.tokens)
    (hs : termStops (past ts e.tokens)) (hr : realStops (past ts e.tokens))
    (hf : e.cost ≤ fuel) :
    parseReal fuel ts = .ok e.value (afterTerm (past ts e.tokens)) := by
  match e with
  | .mk n t rest =>
    obtain ⟨f, rfl⟩ : ∃ f, fuel = f + 1 := ⟨fuel - 1, by simp [RealExpr.cost] at hf; omega⟩
    obtain ⟨g, rfl⟩ : ∃ g, f = g + 1 := ⟨f - 1, by simp [RealExpr.cost] at hf; omega⟩
    simp only [RealExpr.tokens, delivers_append] at hd
    simp only [RealExpr.wellFormed, Bool.and_eq_true] at hw
    obtain ⟨hn, ht, hrest⟩ := hd
    have ihn := parseNumber_value n g ts hw.1 hn (by simp [RealExpr.cost] at hf; omega)
    have hs2 : termStops (past (past (past ts n.tokens) t.tokens) rest.tokens) := by
      simpa [RealExpr.tokens, past_append] using hs
    have hr2 : realStops (past (past (past ts n.tokens) t.tokens) rest.tokens) := by
      simpa [RealExpr.tokens, past_append] using hr
    have hst := realTail_termStops rest _ hrest hs2
    have iht := parseTermLoop_value t g n.value _ hw.2.1 ht hst
      (by simp [RealExpr.cost] at hf; omega)
    have ihr := parseRealLoop_value rest (g + 1) (t.value n.value) _ hw.2.2 hrest hs2 hr2
      (by simp [RealExpr.cost] at hf; omega)
    unfold parseReal parseTerm
    simp [ihn, Res.bind, iht, ihr, RealExpr.value, RealExpr.tokens, past_append]

end

/-! ## The vector parser computes the value of the expression -/

theorem realExpr_tokens_head (e : RealExpr) (h : e.wellFormed = true) :
    ∃ t l, e.tokens = t :: l ∧ t ≠ "<" := by
  cases e with
  | mk n t rest =>
    simp only [RealExpr.wellFormed, Bool.and_eq_true] at h
    obtain ⟨u, l, hul, hu⟩ := numExpr_tokens_head n h.1
    exact ⟨u, l ++ (t.tokens ++ rest.tokens), by simp [RealExpr.tokens, hul], hu⟩

theorem expectToken_ok (ts : TokenStream) (d : Token) (h : (getToken ts).1 = d) :
    expectToken d ts = .ok () (getToken ts).2 := by
  simp [expectToken, h]

theorem expectToken_peek (ts : TokenStream) (d : Token) (h : (getToken ts).1 = d) :
    expectToken d (peekToken ts).2 = .ok () (getToken ts).2 := by
  simp [expectToken, h]

theorem parseReal_delim (e : RealExpr) (fuel : Nat) (ts : TokenStream) (d : Token)
    (hw : e.wellFormed = true) (hd : Delivers ts e.tokens)
    (hdt : (getToken (past ts e.tokens)).1 = d)
    (h1 : d ≠ "*") (h2 : d ≠ "/") (h3 : d ≠ "+") (h4 : d ≠ "-") (hf : e.cost ≤ fuel) :
    parseReal fuel ts = .ok e.value (peekToken (past ts e.tokens)).2 := by
  have hs : termStops (past ts e.tokens) :=
    @termStops_of_cons _ _ [] (by rw [delivers_cons]; exact ⟨hdt, trivial⟩) h1 h2
  have hr : realStops (past ts e.tokens) := by
    constructor <;> rw [hdt] <;> assumption
  have hne : (getToken (past ts e.tokens)).1 ≠ "*" := by rw [hdt]; exact h1
  rw [parseReal_value e fuel ts hw hd hs hr hf, afterTerm_of_ne _ hne]

theorem parseTriplet_value (x y z : RealExpr) (fuel : Nat) (ts : TokenStream)
    (hx : x.wellFormed = true) (hy : y.wellFormed = true) (hz : z.wellFormed = true)
    (hd : Delivers ts ("<" :: (x.tokens ++ ("," :: (y.tokens ++ ("," :: (z.tokens ++ [">"])))))))
    (hf : x.cost + y.cost + z.cost ≤ fuel) :
    parseTriplet fuel ts = .ok ⟨x.value, y.value, z.value⟩
      (past ts ("<" :: (x.tokens ++ ("," :: (y.tokens ++ ("," :: (z.tokens ++ [">"]))))))) := by
  simp only [delivers_cons, delivers_append, past_cons, delivers_nil, and_true] at hd
  obtain ⟨h0, hdx, hcx, hdy, hcy, hdz, hcz⟩ := hd
  have px := parseReal_delim x fuel _ "," hx hdx hcx (by decide) (by decide) (by decide)
    (by decide) (by omega)
  have py := parseReal_delim y fuel _ "," hy hdy hcy (by decide) (by decide) (by decide)
    (by decide) (by omega)
  have pz := parseReal_delim z fuel _ ">" hz hdz hcz (by decide) (by decide) (by decide)
    (by decide) (by omega)
  unfold parseTriplet
  rw [expectToken_ok _ _ h0]
  simp only [Res.bind]
  rw [px]
  simp only [Res.bind]
  rw [expectToken_peek _ _ hcx]
  simp only [Res.bind]
  rw [py]
  simp only [Res.bind]
  rw [expectToken_peek _ _ hcy]
  simp only [Res.bind]
  rw [pz]
  simp only [Res.bind]
  rw [expectToken_peek _ _ hcz]
  simp only [Res.bind, past_cons, past_append, past_nil]

theorem parseVectorTermLoop_value (tt : TermTail) (fuel : Nat) (acc : Real) (ts : TokenStream)
    (hw : tt.wellFormed = true) (hd : Delivers ts tt.tokens)
    (hs : vecTermStops (past ts tt.tokens)) (hf : tt.cost ≤ fuel) :
    parseVectorTermLoop fuel acc ts = .ok (tt.value acc) (peekToken (past ts tt.tokens)).2 := by
  match tt with
  | .done =>
    obtain ⟨f, rfl⟩ : ∃ f, fuel = f + 1 := ⟨fuel - 1, by simp [TermTail.cost] at hf; omega⟩
    simp only [TermTail.tokens, past_nil] at hs ⊢
    unfold parseVectorTermLoop
    simp [hs.1, hs.2, TermTail.value]
  | .mul n rest =>
    obtain ⟨f, rfl⟩ : ∃ f, fuel = f + 1 := ⟨fuel - 1, by simp [TermTail.cost] at hf; omega⟩
    simp only [TermTail.tokens, delivers_cons, delivers_append] at hd
    simp only [TermTail.wellFormed, Bool.and_eq_true] at hw
    obtain ⟨h0, hn, hr⟩ := hd
    have ihn := parseNumber_value n f (getToken ts).2 hw.1 hn
      (by simp [TermTail.cost] at hf; omega)
    have hs2 : vecTermStops (past (past (getToken ts).2 n.tokens) rest.tokens) := by
      simpa [TermTail.tokens, past_cons, past_append] using hs
    have ihr := parseVectorTermLoop_value rest f (acc * n.value) _ hw.2 hr hs2
      (by simp [TermTail.cost] at hf; omega)
    unfold parseVectorTermLoop
    simp [h0, ihn, Res.bind, ihr, TermTail.value, TermTail.tokens, past_cons, past_append]
  | .div n rest =>
    obtain ⟨f, rfl⟩ : ∃ f, fuel = f + 1 := ⟨fuel - 1, by simp [TermTail.cost] at hf; omega⟩
    simp only [TermTail.tokens, delivers_cons, delivers_append] at hd
    simp only [TermTail.wellFormed, Bool.and_eq_true] at hw
    obtain ⟨h0, hn, hr⟩ := hd
    have ihn := parseNumber_value n f (getToken ts).2 hw.1 hn
      (by simp [TermTail.cost] at hf; omega)
    have hs2 : vecTermStops (past (past (getToken ts).2 n.tokens) rest.tokens) := by
      simpa [TermTail.tokens, past_cons, past_append] using hs
    have ihr := parseVectorTermLoop_value rest f (acc / n.value) _ hw.2.2 hr hs2
      (by simp [TermTail.cost] at hf; omega)
    unfold parseVectorTermLoop
    simp [h0, ihn, Res.bind, ihr, TermTail.value, TermTail.tokens, past_cons, past_append]

/-- The part of `parseVectorTerm` after the coefficient: triplet, then suffixes. -/
theorem parseVectorTerm_body (x y z : RealExpr) (sfx : TermTail) (fuel : Nat) (coef : Real)
    (ts : TokenStream)
    (hx : x.wellFormed = true) (hy : y.wellFormed = true) (hz : z.wellFormed = true)
    (hsw : sfx.wellFormed = true)
    (hd : Delivers ts
      ("<" :: (x.tokens ++ ("," :: (y.tokens ++ ("," :: (z.tokens ++ (">" :: sfx.tokens))))))))
    (hs : vecTermStops (past ts
      ("<" :: (x.tokens ++ ("," :: (y.tokens ++ ("," :: (z.tokens ++ (">" :: sfx.tokens)))))))))
    (hf : x.cost + y.cost + z.cost + sfx.cost ≤ fuel) :
    ((parseTriplet fuel (peekToken ts).2).bind fun v ts3 =>
      (parseVectorTermLoop fuel coef ts3).bind fun coef2 ts4 =>
        Res.ok (Vect3.smul coef2 v) ts4)
      = .ok (Vect3.smul (sfx.value coef) ⟨x.value, y.value, z.value⟩)
          (peekToken (past ts
            ("<" :: (x.tokens ++ ("," :: (y.tokens ++ ("," :: (z.tokens ++ (">" :: sfx.tokens))))))))).2
    := by
  have e1 : ("<" :: (x.tokens ++ ("," :: (y.tokens ++ ("," :: (z.tokens ++ (">" :: sfx.tokens)))))))
      = ("<" :: (x.tokens ++ ("," :: (y.tokens ++ ("," :: (z.tokens ++ [">"])))))) ++ sfx.tokens := by
    simp
  rw [e1] at hd hs ⊢
  rw [delivers_append] at hd
  rw [past_append] at hs
  obtain ⟨hdt, hds⟩ := hd
  have hdt2 : Delivers (peekToken ts).2
      ("<" :: (x.tokens ++ ("," :: (y.tokens ++ ("," :: (z.tokens ++ [">"])))))) := by
    rw [delivers_peekToken]; exact hdt
  rw [parseTriplet_value x y z fuel _ hx hy hz hdt2 (by omega), past_peekToken]
  simp only [Res.bind]
  rw [parseVectorTermLoop_value sfx fuel coef _ hsw hds hs (by omega)]
  simp only [Res.bind, past_append]

theorem parseVectorTerm_value (t : VecTermExpr) (fuel : Nat) (ts : TokenStream)
    (hw : t.wellFormed = true) (hd : Delivers ts t.tokens)
    (hs : vecTermStops (past ts t.tokens)) (hf : t.cost ≤ fuel) :
    parseVectorTerm fuel ts = .ok t.value (peekToken (past ts t.tokens)).2 := by
  obtain ⟨coef, x, y, z, sfx⟩ := t
  simp only [VecTermExpr.wellFormed, Bool.and_eq_true] at hw
  obtain ⟨hcw, hx, hy, hz, hsw⟩ := hw
  simp only [VecTermExpr.cost] at hf
  cases coef with
  | none =>
    simp only [VecTermExpr.tokens, coefTokens, List.nil_append] at hd hs ⊢
    have h0 : (getToken ts).1 = "<" := hd.1
    have hb := parseVectorTerm_body x y z sfx fuel 1 ts hx hy hz hsw hd hs
      (by simp only [coefCost] at hf; omega)
    unfold parseVectorTerm
    simp only [peekToken_fst, h0, ne_eq, not_true_eq_false, if_false, Res.bind]
    simpa [Res.bind, VecTermExpr.value, coefValue] using hb
  | some c =>
    simp only [coefWellFormed] at hcw
    simp only [coefCost] at hf
    simp only [VecTermExpr.tokens, coefTokens, List.append_assoc, List.singleton_append] at hd hs ⊢
    rw [delivers_append, delivers_cons] at hd
    rw [past_append, past_cons] at hs ⊢
    obtain ⟨hdc, hstar, hdt⟩ := hd
    obtain ⟨u, l, hul, hu⟩ := realExpr_tokens_head c hcw
    have h0 : (getToken ts).1 ≠ "<" := by
      rw [hul, delivers_cons] at hdc; rw [hdc.1]; exact hu
    have hdc2 : Delivers (peekToken ts).2 c.tokens := by
      rw [hul, delivers_peekToken, ← hul]; exact hdc
    have hpc : past (peekToken ts).2 c.tokens = past ts c.tokens := by
      rw [hul, past_peekToken]
    have hlt : (getToken (getToken (past ts c.tokens)).2).1 = "<" := hdt.1
    have hts : termStops (past (peekToken ts).2 c.tokens) := by
      rw [hpc]
      exact ⟨by rw [hstar]; decide, fun _ => by simpa using hlt⟩
    have hrs : realStops (past (peekToken ts).2 c.tokens) := by
      rw [hpc]
      constructor <;> rw [hstar] <;> decide
    have hc := parseReal_value c fuel (peekToken ts).2 hcw hdc2 hts hrs (by omega)
    have hb := parseVectorTerm_body x y z sfx fuel c.value _ hx hy hz hsw hdt hs (by omega)
    unfold parseVectorTerm
    simp only [peekToken_fst, h0, ne_eq, not_false_eq_true, if_true, hc, Res.bind, hpc]
    have haft : afterTerm (past ts c.tokens)
        = ungetToken "*" (peekToken (getToken (past ts c.tokens)).2).2 := by
      simp [afterTerm, hstar]
    rw [haft]
    simp only [expectToken, getToken_ungetToken, if_true]
    simpa [Res.bind, VecTermExpr.value, coefValue] using hb

theorem vecTail_vecTermStops (vt : VecTail) (ts : TokenStream) (hd : Delivers ts vt.tokens)
    (hs : vecTermStops (past ts vt.tokens)) : vecTermStops ts := by
  cases vt with
  | done => simpa [VecTail.tokens] using hs
  | add t rest =>
    simp only [VecTail.tokens, delivers_cons] at hd
    constructor <;> rw [hd.1] <;> decide
  | sub t rest =>
    simp only [VecTail.tokens, delivers_cons] at hd
    constructor <;> rw [hd.1] <;> decide

theorem parseVectorLoop_value (vt : VecTail) (fuel : Nat) (acc : Vect3) (ts : TokenStream)
    (hw : vt.wellFormed = true) (hd : Delivers ts vt.tokens)
    (hs : vecTermStops (past ts vt.tokens)) (hr : realStops (past ts vt.tokens))
    (hf : vt.cost ≤ fuel) :
    parseVectorLoop fuel acc (peekToken ts).2
      = .ok (vt.value acc) (peekToken (past ts vt.tokens)).2 := by
  induction vt generalizing fuel acc ts with
  | done =>
    obtain ⟨f, rfl⟩ : ∃ f, fuel = f + 1 := ⟨fuel - 1, by simp [VecTail.cost] at hf; omega⟩
    simp only [VecTail.tokens, past_nil] at hr ⊢
    unfold parseVectorLoop
    simp [hr.1, hr.2, VecTail.value, peekToken_snd]
  | add t rest ih =>
    obtain ⟨f, rfl⟩ : ∃ f, fuel = f + 1 := ⟨fuel - 1, by simp [VecTail.cost] at hf; omega⟩
    simp only [VecTail.tokens, delivers_cons, delivers_append] at hd
    simp only [VecTail.wellFormed, Bool.and_eq_true] at hw
    simp only [VecTail.cost] at hf
    obtain ⟨h0, hdt, hdr⟩ := hd
    have hs2 : vecTermStops (past (past (getToken ts).2 t.tokens) rest.tokens) := by
      simpa [VecTail.tokens, past_cons, past_append] using hs
    have hr2 : realStops (past (past (getToken ts).2 t.tokens) rest.tokens) := by
      simpa [VecTail.tokens, past_cons, past_append] using hr
    have hst := vecTail_vecTermStops rest _ hdr hs2
    have pt := parseVectorTerm_value t f (getToken ts).2 hw.1 hdt hst (by omega)
    have pr := ih f (Vect3.add acc t.value) _ hw.2 hdr hs2 hr2 (by omega)
    unfold parseVectorLoop
    simp [h0, pt, Res.bind, pr, VecTail.value, VecTail.tokens, past_cons, past_append]
  | sub t rest ih =>
    obtain ⟨f, rfl⟩ : ∃ f, fuel = f + 1 := ⟨fuel - 1, by simp [VecTail.cost] at hf; omega⟩
    simp only [VecTail.tokens, delivers_cons, delivers_append] at hd
    simp only [VecTail.wellFormed, Bool.and_eq_true] at hw
    simp only [VecTail.cost] at hf
    obtain ⟨h0, hdt, hdr⟩ := hd
    have hs2 : vecTermStops (past (past (getToken ts).2 t.tokens) rest.tokens) := by
      simpa [VecTail.tokens, past_cons, past_append] using hs
    have hr2 : realStops (past (past (getToken ts).2 t.tokens) rest.tokens) := by
      simpa [VecTail.tokens, past_cons, past_append] using hr
    have hst := vecTail_vecTermStops rest _ hdr hs2
    have pt := parseVectorTerm_value t f (getToken ts).2 hw.1 hdt hst (by omega)
    have pr := ih f (Vect3.sub acc t.value) _ hw.2 hdr hs2 hr2 (by omega)
    unfold parseVectorLoop
    simp [h0, pt, Res.bind, pr, VecTail.value, VecTail.tokens, past_cons, past_append]

theorem parseVector_value (e : VecExpr) (fuel : Nat) (ts : TokenStream)
    (hw : e.wellFormed = true) (hd : Delivers ts e.tokens)
    (hs : vecTermStops (past ts e.tokens)) (hr : realStops (past ts e.tokens))
    (hf : e.cost ≤ fuel) :
    parseVector fuel ts = .ok e.value (peekToken (past ts e.tokens)).2 := by
  obtain ⟨hd0, tl⟩ := e
  simp only [VecExpr.wellFormed, Bool.and_eq_true] at hw
  simp only [VecExpr.tokens, delivers_append] at hd
  simp only [VecExpr.tokens, past_append] at hs hr ⊢
  simp only [VecExpr.cost] at hf
  have hst := vecTail_vecTermStops tl _ hd.2 hs
  have pt := parseVectorTerm_value hd0 fuel ts hw.1 hd.1 hst (by omega)
  have pl := parseVectorLoop_value tl fuel hd0.value _ hw.2 hd.2 hs hr (by omega)
  unfold parseVector
  simp [pt, Res.bind, pl, VecExpr.value]

/-! ## Claims -/

theorem expressionEnds_stops {ts : TokenStream} (h : expressionEnds ts) :
    termStops ts ∧ realStops ts ∧ vecTermStops ts ∧ (getToken ts).1 ≠ "*" := by
  obtain ⟨h1, h2, h3, h4⟩ := h
  exact ⟨⟨h4, fun e => absurd e h3⟩, ⟨h1, h2⟩, ⟨h3, h4⟩, h3⟩

theorem parseReal_ends (e : RealExpr) (fuel : Nat) (ts : TokenStream)
    (hw : e.wellFormed = true) (hd : Delivers ts e.tokens)
    (hend : expressionEnds (past ts e.tokens)) (hf : e.cost ≤ fuel) :
    parseReal fuel ts = .ok e.value (peekToken (past ts e.tokens)).2 := by
  obtain ⟨h1, h2, _, h4⟩ := expressionEnds_stops hend
  rw [parseReal_value e fuel ts hw hd h1 h2 hf, afterTerm_of_ne _ h4]

/-- C1: for every well-formed scalar expression `e` (numeric literals, signs,
`+ - * /`, parentheses, no division by zero) that the stream delivers next and
that ends there (the token after it is no binary operator), `parseReal` with
enough fuel returns the value of `e` under the arithmetic of the program (every
literal and every operation rounded to a double), where `*` and `/` bind tighter
than `+` and `-`, equal precedence folds left to right and a parenthesised
expression is one operand; the token after `e` is left pushed
back.  A parenthesised expression needs its `)`: if another token `d` stands
there, `parseNumber` throws the error (`)`, `d`, line). -/
theorem parseReal_evaluates (e : RealExpr) (fuel : Nat) (ts : TokenStream)
    (hw : e.wellFormed = true) (hd : Delivers ts e.tokens)
    (hend : expressionEnds (past ts e.tokens)) (hf : e.cost ≤ fuel) :
    parseReal fuel ts = .ok e.value (peekToken (past ts e.tokens)).2 ∧
    ∀ (ts0 : TokenStream) (d : Token), Delivers ts0 ("(" :: (e.tokens ++ [d])) →
      notOperator d → d ≠ ")" →
      parseNumber (fuel + 1) ts0
        = .error ⟨")", d, lineNumber (past ts0 ("(" :: (e.tokens ++ [d])))⟩ := by
  refine ⟨parseReal_ends e fuel ts hw hd hend hf, ?_⟩
  intro ts0 d hd0 hop hne
  simp only [delivers_cons, delivers_append, delivers_nil, and_true] at hd0
  obtain ⟨h0, he, hdd⟩ := hd0
  have hend0 : expressionEnds (past (getToken ts0).2 e.tokens) := by
    unfold expressionEnds; rw [hdd]; exact hop
  have hp := parseReal_ends e fuel (getToken ts0).2 hw he hend0 hf
  unfold parseNumber
  simp [h0, hp, Res.bind, expectToken, hdd, hne]

/-- Witness for C1: the tokens `2 + 3 * 4` give 14 and `( 2 + 3 ) * 4` give 20, and
`0.1 + 0.2` gives the double 0.30000000000000004, which is not the double 0.3. -/
theorem parseReal_evaluates_witness :
    (exprSumProduct.tokens = ["2", "+", "3", "*", "4"] ∧
      exprSumProduct.wellFormed = true ∧
      parseReal 20 (ofList ["2", "+", "3", "*", "4"]) = .ok 14 ⟨[], [""], [], [], 5, []⟩) ∧
    (exprParenProduct.tokens = ["(", "2", "+", "3", ")", "*", "4"] ∧
      exprParenProduct.wellFormed = true ∧
      parseReal 20 (ofList ["(", "2", "+", "3", ")", "*", "4"])
        = .ok 20 ⟨[], [""], [], [], 7, []⟩) ∧
    (exprTenths.tokens = ["0.1", "+", "0.2"] ∧
      parseReal 20 (ofList ["0.1", "+", "0.2"]) = .ok threeTenthsUp ⟨[], [""], [], [], 3, []⟩ ∧
      sscanf_lf "0.3".data = some threeTenths ∧ threeTenthsUp ≠ threeTenths) := by
  refine ⟨⟨by decide, by decide, ?_⟩, ⟨by decide, by decide, ?_⟩,
    ⟨by decide, ?_, by decide, by decide⟩⟩
  · have h := (parseReal_evaluates exprSumProduct 20 (ofList ["2", "+", "3", "*", "4"])
      (by decide) (by decide) (by decide) (by decide)).1
    rw [h]
    have hv : exprSumProduct.value = 14 := by decide
    rw [hv]
    rfl
  · have h := (parseReal_evaluates exprParenProduct 20
      (ofList ["(", "2", "+", "3", ")", "*", "4"])
      (by decide) (by decide) (by decide) (by decide)).1
    rw [h]
    have hv : exprParenProduct.value = 20 := by decide
    rw [hv]
    rfl
  · have h := (parseReal_evaluates exprTenths 20 (ofList ["0.1", "+", "0.2"])
      (by decide) (by decide) (by decide) (by decide)).1
    rw [h]
    have hv : exprTenths.value = threeTenthsUp := by decide
    rw [hv]
    rfl

/-- C2: for a numeric literal token, whose value `v` is the double nearest to the
decimal, preceded by `n` sign tokens (`-` or `+`), `parseNumber` with enough fuel
reads all `n + 1` tokens and returns `v` negated once for each `-` in the prefix:
`v` itself for an even number of `-`, the double `-v` for an odd number. -/
theorem parseNumber_signs (signs : List Token) (lit : Token) (v : Real) (fuel : Nat)
    (ts : TokenStream) (hsg : ∀ s ∈ signs, s = "-" ∨ s = "+")
    (hv : validateNumber lit.data false = true) (hval : sscanf_lf lit.data = some v)
    (hd : Delivers ts (signs ++ [lit])) (hf : signs.length + 1 ≤ fuel) :
    parseNumber fuel ts = .ok (negated (signs.count "-") v) (past ts (signs ++ [lit])) ∧
    negated (signs.count "-") v = (if signs.count "-" % 2 = 0 then v else -v) := by
  refine ⟨?_, negated_parity _ v⟩
  induction signs generalizing fuel ts with
  | nil =>
    obtain ⟨f, rfl⟩ : ∃ f, fuel = f + 1 := ⟨fuel - 1, by simp at hf; omega⟩
    simp only [List.nil_append, delivers_cons, delivers_nil, and_true] at hd
    have hl : validLiteral lit = true := by simp [validLiteral, hv, hval]
    obtain ⟨h1, h2, h3, _⟩ := validLiteral_ne hl
    unfold parseNumber
    simp [hd, h1, h2, h3, hv, hval, negated]
  | cons s signs ih =>
    obtain ⟨f, rfl⟩ : ∃ f, fuel = f + 1 := ⟨fuel - 1, by simp at hf; omega⟩
    simp only [List.cons_append, delivers_cons] at hd
    have hrec := ih f (getToken ts).2 (fun u hu => hsg u (List.mem_cons_of_mem _ hu)) hd.2
      (by simp at hf; omega)
    rcases hsg s (List.mem_cons_self _ _) with rfl | rfl
    · unfold parseNumber
      simp [hd.1, hrec, Res.bind, negated]
    · unfold parseNumber
      simp [hd.1, hrec, Res.bind]

/-- Witness for C2: the tokens `- - 5` give 5, and all three tokens are consumed;
the literal `9007199254740993` has the value 9007199254740992, the nearest
double. -/
theorem parseNumber_signs_witness :
    (∀ s ∈ ["-", "-"], s = "-" ∨ s = "+") ∧
    validateNumber "5".data false = true ∧ sscanf_lf "5".data = some 5 ∧
    parseNumber 3 (ofList ["-", "-", "5"]) = .ok 5 ⟨[], [], [], [], 3, []⟩ ∧
    sscanf_lf "9007199254740993".data = some 9007199254740992 ∧
    parseNumber 3 (ofList ["-", "9007199254740993"])
      = .ok (-9007199254740992) ⟨[], [], [], [], 2, []⟩ := by
  have h := (parseNumber_signs ["-", "-"] "5" 5 3 (ofList ["-", "-", "5"])
    (by decide) (by decide) (by decide) (by decide) (by decide)).1
  refine ⟨by decide, by decide, by decide, ?_, by decide, by decide⟩
  rw [h]
  decide

/-- C3 (failing input `.`): the validation loop of `parseNumber` accepts the
token `.`, the conversion finds no digit and assigns nothing, and `parseNumber`
returns its unassigned local: neither the malformed-number error nor a decimal
value.  On `2.5` the value is 5/2 and on `1.2.3` the error
(`_Real_`, `1.2.3`, line) is thrown. -/
theorem parseNumber_dot_unassigned :
    validateNumber ".".data false = true ∧ sscanf_lf ".".data = none ∧
    (∀ fuel, parseNumber (fuel + 1) (ofList ["."]) = .uninit) ∧
    (∀ fuel, parseNumber (fuel + 1) (ofList ["2.5"]) = .ok (5 / 2) ⟨[], [], [], [], 1, []⟩) ∧
    (∀ fuel, parseNumber (fuel + 1) (ofList ["1.2.3"]) = .error ⟨"_Real_", "1.2.3", 1⟩) := by
  refine ⟨by decide, by decide, fun fuel => ?_, fun fuel => ?_, fun fuel => ?_⟩
  · rfl
  · have hs : sscanf_lf "2.5".data = some (5 / 2) := by decide
    have hv : validateNumber "2.5".data false = true := by decide
    have hg : getToken (ofList ["2.5"]) = ("2.5", ⟨[], [], [], [], 1, []⟩) := by decide
    unfold parseNumber
    simp only [hg, hs, hv]
    simp
  · rfl

theorem parseTerm_value (n : NumExpr) (tt : TermTail) (fuel : Nat) (ts : TokenStream)
    (hn : n.wellFormed = true) (ht : tt.wellFormed = true)
    (hd : Delivers ts (n.tokens ++ tt.tokens))
    (hs : termStops (past ts (n.tokens ++ tt.tokens))) (hf : n.cost + tt.cost + 1 ≤ fuel) :
    parseTerm fuel ts = .ok (tt.value n.value) (afterTerm (past ts (n.tokens ++ tt.tokens))) := by
  obtain ⟨f, rfl⟩ : ∃ f, fuel = f + 1 := ⟨fuel - 1, by omega⟩
  rw [delivers_append] at hd
  rw [past_append] at hs ⊢
  have pn := parseNumber_value n f ts hn hd.1 (by omega)
  have pt := parseTermLoop_value tt f n.value _ ht hd.2 hs (by omega)
  unfold parseTerm
  simp [pn, Res.bind, pt]

/-- C4: when the stream delivers a well-formed scalar term (an operand and a chain
of `* operand`, `/ operand`) followed by `*` and then `<`, `parseTerm` with enough
fuel returns the value of the term read so far, without multiplying, and leaves the
stream so that the next token read is that `*`, the one after it is that `<`, and
the stream after these two reads is the stream past all the tokens: neither token
is consumed or lost. -/
theorem parseTerm_leaves_vector_product (n : NumExpr) (tt : TermTail) (fuel : Nat)
    (ts : TokenStream) (hn : n.wellFormed = true) (ht : tt.wellFormed = true)
    (hd : Delivers ts (n.tokens ++ (tt.tokens ++ ["*", "<"])))
    (hf : n.cost + tt.cost + 1 ≤ fuel) :
    ∃ ts1, parseTerm fuel ts = .ok (tt.value n.value) ts1 ∧
      (getToken ts1).1 = "*" ∧ (getToken (getToken ts1).2).1 = "<" ∧
      (getToken (getToken ts1).2).2 = past ts (n.tokens ++ (tt.tokens ++ ["*", "<"])) := by
  rw [← List.append_assoc, delivers_append] at hd
  obtain ⟨hd1, hd2⟩ := hd
  simp only [delivers_cons, delivers_nil, and_true] at hd2
  obtain ⟨hstar, hlt⟩ := hd2
  have hs : termStops (past ts (n.tokens ++ tt.tokens)) :=
    ⟨by rw [hstar]; decide, fun _ => by simpa using hlt⟩
  refine ⟨afterTerm (past ts (n.tokens ++ tt.tokens)),
    parseTerm_value n tt fuel ts hn ht hd1 hs hf, ?_⟩
  have haft : afterTerm (past ts (n.tokens ++ tt.tokens))
      = ungetToken "*" (peekToken (getToken (past ts (n.tokens ++ tt.tokens))).2).2 := by
    unfold afterTerm
    rw [if_pos hstar]
  rw [haft]
  refine ⟨by simp only [getToken_ungetToken], ?_, ?_⟩
  · simp only [getToken_ungetToken, getToken_peekToken]
    exact hlt
  · simp only [getToken_ungetToken, getToken_peekToken, past_append, past_cons, past_nil]

/-- Witness for C4: on the tokens `3 * < 1` the call returns 3 and the tokens
`*` and `<` are read next. -/
theorem parseTerm_leaves_vector_product_witness :
    (NumExpr.lit "3").wellFormed = true ∧ TermTail.done.wellFormed = true ∧
    Delivers (ofList ["3", "*", "<", "1"])
      ((NumExpr.lit "3").tokens ++ (TermTail.done.tokens ++ ["*", "<"])) ∧
    ∃ ts1, parseTerm 3 (ofList ["3", "*", "<", "1"]) = .ok (TermTail.done.value (NumExpr.lit "3").value) ts1 ∧
      (getToken ts1).1 = "*" ∧ (getToken (getToken ts1).2).1 = "<" ∧
      (getToken (getToken ts1).2).2
        = past (ofList ["3", "*", "<", "1"])
            ((NumExpr.lit "3").tokens ++ (TermTail.done.tokens ++ ["*", "<"])) :=
  ⟨by decide, by decide, by decide,
    parseTerm_leaves_vector_product (.lit "3") .done 3 (ofList ["3", "*", "<", "1"])
      (by decide) (by decide) (by decide) (by decide)⟩

/-- C5: for every well-formed vector term `[c *] < x , y , z >` followed by suffixes
`* s` and `/ s` (no division by zero) that the stream delivers next, the token after
it being neither `*` nor `/`, `parseVectorTerm` with enough fuel returns the triplet
with every component multiplied by the single coefficient obtained by starting from
`c` (1 if absent) and folding the suffixes left to right, every product and
quotient being the double operation of the program. -/
theorem parseVectorTerm_scales (t : VecTermExpr) (fuel : Nat) (ts : TokenStream)
    (hw : t.wellFormed = true) (hd : Delivers ts t.tokens)
    (hs : vecTermStops (past ts t.tokens)) (hf : t.cost ≤ fuel) :
    parseVectorTerm fuel ts
      = .ok ⟨t.suffix.value (coefValue t.coef) * t.x.value,
             t.suffix.value (coefValue t.coef) * t.y.value,
             t.suffix.value (coefValue t.coef) * t.z.value⟩ (peekToken (past ts t.tokens)).2 :=
  parseVectorTerm_value t fuel ts hw hd hs hf

/-- Witness for C5: `3 * < 1 , 2 , 3 >` gives (3,6,9), `< 1 , 0 , 0 > * 2 / 4`
gives (1/2,0,0), and `3 * < 0.1 , 0.2 , 0.3 >` gives the doubles
(0.30000000000000004, 0.6000000000000001, 0.8999999999999999). -/
theorem parseVectorTerm_scales_witness :
    (vecTermScaled.tokens = ["3", "*", "<", "1", ",", "2", ",", "3", ">"] ∧
      vecTermScaled.wellFormed = true ∧
      parseVectorTerm 50 (ofList ["3", "*", "<", "1", ",", "2", ",", "3", ">"])
        = .ok ⟨3, 6, 9⟩ ⟨[], [""], [], [], 9, []⟩) ∧
    (vecTermSuffixed.tokens = ["<", "1", ",", "0", ",", "0", ">", "*", "2", "/", "4"] ∧
      vecTermSuffixed.wellFormed = true ∧
      parseVectorTerm 50 (ofList ["<", "1", ",", "0", ",", "0", ">", "*", "2", "/", "4"])
        = .ok ⟨1 / 2, 0, 0⟩ ⟨[], [""], [], [], 11, []⟩) ∧
    (vecTermTenths.tokens = ["3", "*", "<", "0.1", ",", "0.2", ",", "0.3", ">"] ∧
      parseVectorTerm 50 (ofList ["3", "*", "<", "0.1", ",", "0.2", ",", "0.3", ">"])
        = .ok ⟨threeTenthsUp, .finite false 5404319552844596 (-53),
            .finite false 8106479329266892 (-53)⟩ ⟨[], [""], [], [], 9, []⟩) := by
  have w2 : vecTermSuffixed.wellFormed = true := by decide
  refine ⟨⟨by decide, by decide, ?_⟩, ⟨by decide, w2, ?_⟩, ⟨by decide, ?_⟩⟩
  · rw [parseVectorTerm_scales vecTermScaled 50 _ (by decide) (by decide) (by decide) (by decide)]
    decide
  · rw [parseVectorTerm_scales vecTermSuffixed 50 _ w2 (by decide) (by decide) (by decide)]
    decide
  · rw [parseVectorTerm_scales vecTermTenths 50 _ (by decide) (by decide) (by decide) (by decide)]
    decide

/-- C6: for every well-formed sequence of vector terms joined by `+` or `-` that the
stream delivers next and that ends there (the token after it is no binary
operator), `parseVector` with enough fuel returns the componentwise left-to-right
sum and difference of the values of the terms, every sum and difference being the
double operation of the program, and leaves the token after the chain as the next
token to be read, the stream behind it untouched. -/
theorem parseVector_folds (e : VecExpr) (fuel : Nat) (ts : TokenStream)
    (hw : e.wellFormed = true) (hd : Delivers ts e.tokens)
    (hend : expressionEnds (past ts e.tokens)) (hf : e.cost ≤ fuel) :
    ∃ ts1, parseVector fuel ts = .ok (e.tail.value e.head.value) ts1 ∧
      getToken ts1 = getToken (past ts e.tokens) := by
  obtain ⟨_, h2, h3, _⟩ := expressionEnds_stops hend
  exact ⟨_, parseVector_value e fuel ts hw hd h3 h2 hf, by simp⟩

/-- Witness for C6: `< 1 , 2 , 3 > + < 4 , 5 , 6 >` gives (5,7,9), and
`< 0.1 , 0 , 0 > + < 0.2 , 0 , 0 >` gives the double 0.30000000000000004 as first
component. -/
theorem parseVector_folds_witness :
    vecSum.tokens = ["<", "1", ",", "2", ",", "3", ">", "+", "<", "4", ",", "5", ",", "6", ">"] ∧
    vecSum.wellFormed = true ∧
    vecSum.tail.value vecSum.head.value = ⟨5, 7, 9⟩ ∧
    vecSumTenths.tail.value vecSumTenths.head.value = ⟨threeTenthsUp, 0, 0⟩ ∧
    ∃ ts1, parseVector 50
        (ofList ["<", "1", ",", "2", ",", "3", ">", "+", "<", "4", ",", "5", ",", "6", ">", "\x7d"])
          = .ok (vecSum.tail.value vecSum.head.value) ts1 ∧
      getToken ts1 = ("\x7d", ⟨[], [], [], [], 16, []⟩) := by
  refine ⟨by decide, by decide, by decide, by decide, ?_⟩
  · exact parseVector_folds vecSum 50
      (ofList ["<", "1", ",", "2", ",", "3", ">", "+", "<", "4", ",", "5", ",", "6", ">", "\x7d"])
      (by decide) (by decide) (by decide) (by decide)

/-- C7 (failing input `Define FOO { a { b } c }`): the capture loop of `parsedMacro` stops
at the first `}` whatever the brace depth, so the macro registered under
`FOO` is `a { b` and the tokens `c }` stay in the stream; the sequence between the
opening brace and the brace that closes it, `a { b } c`, is not what is
registered.  For the brace-free body of `Define FOO { 1 2 3 }` the registered
sequence is `1 2 3`. -/
theorem parsedMacro_nested_braces :
    (∀ fuel, parsedMacro (fuel + 4) (ofList ["Define", "FOO", "\x7b", "a", "\x7b", "b", "\x7d", "c", "\x7d"])
      = .ok true ⟨[⟨"FOO", ["a", "\x7b", "b"]⟩], [], [], ["c", "\x7d"], 7, []⟩) ∧
    (∀ fuel, parsedMacro (fuel + 4) (ofList ["Define", "FOO", "\x7b", "1", "2", "3", "\x7d"])
      = .ok true ⟨[⟨"FOO", ["1", "2", "3"]⟩], [], [], [], 7, []⟩) := by
  constructor <;> intro fuel <;> rfl

/-- C8 (failing input `Define FOO { a { b }` and then end of input): the brace that
closes the macro body never comes, yet `parsedMacro` throws nothing: it stops at
the `}` of the inner pair, returns true and registers `FOO` as `a { b`.  When the
input ends in a brace-free body (`Define FOO { a b`) the error (`}`, `_EOF_`, line)
is thrown. -/
theorem parsedMacro_unclosed_nested :
    (∀ fuel, parsedMacro (fuel + 4) (ofList ["Define", "FOO", "\x7b", "a", "\x7b", "b", "\x7d"])
      = .ok true ⟨[⟨"FOO", ["a", "\x7b", "b"]⟩], [], [], [], 7, []⟩) ∧
    (∀ fuel, parsedMacro (fuel + 4) (ofList ["Define", "FOO", "\x7b", "a", "b"])
      = .error ⟨"\x7d", "_EOF_", 1⟩) := by
  constructor <;> intro fuel <;> rfl

/-! ## Boxes -/

theorem res_bind_eq_ok {α β : Type} (r : Res α) (k : α → TokenStream → Res β) (v : β)
    (ts : TokenStream) :
    r.bind k = .ok v ts ↔ ∃ a s, r = .ok a s ∧ k a s = .ok v ts := by
  cases r with
  | ok a s =>
    constructor
    · intro h; exact ⟨a, s, rfl, h⟩
    · rintro ⟨a1, s1, h1, h⟩
      cases h1
      exact h
  | error e => simp [Res.bind]
  | uninit => simp [Res.bind]
  | outOfFuel => simp [Res.bind]

theorem peekToken_peekToken (ts : TokenStream) :
    (peekToken (peekToken ts).2).2 = (peekToken ts).2 := by
  simp [peekToken_snd]

theorem vecExpr_tokens_cons (e : VecExpr) : ∃ t l, e.tokens = t :: l := by
  apply List.exists_cons_of_ne_nil
  obtain ⟨⟨coef, x, y, z, sfx⟩, tl⟩ := e
  cases coef <;> simp [VecExpr.tokens, VecTermExpr.tokens, coefTokens]

theorem parsedModifier_none (K : Externals) (fuel : Nat) (mod : Modifier) (ts : TokenStream)
    (h : notModifierKeyword (getToken ts).1) :
    parsedModifier K fuel mod ts = .ok (false, mod) (peekToken ts).2 := by
  obtain ⟨h1, h2, h3, h4, _⟩ := h
  simp [parsedModifier, h1, h2, h3, h4, peekToken_snd]

theorem parsedMaterial_none (fuel : Nat) (mat : Material) (ts : TokenStream)
    (h : (getToken ts).1 ≠ "material") :
    parsedMaterial fuel mat ts = .ok (false, mat) (peekToken ts).2 := by
  simp [parsedMaterial, h]

theorem parseModifiers_none (K : Externals) (fuel : Nat) (obj : Object) (ts : TokenStream)
    (h : notModifierKeyword (getToken ts).1) :
    parseModifiers K (fuel + 1) obj (peekToken ts).2 = .ok obj (peekToken ts).2 := by
  have h1 : notModifierKeyword (getToken (peekToken ts).2).1 := by
    rw [getToken_peekToken]; exact h
  have h2 : (getToken (peekToken ts).2).1 ≠ "material" := h1.2.2.2.2
  have h3 : (getToken (peekToken (peekToken ts).2).2).1 ≠ "material" := by
    rw [getToken_peekToken]; exact h2
  unfold parseModifiers
  rw [parsedModifier_none K fuel _ _ h1]
  simp only [Res.bind, Bool.false_eq_true, if_false]
  rw [parsedMaterial_none fuel _ _ h3]
  simp only [Res.bind, Bool.false_eq_true, if_false, peekToken_peekToken]

theorem parsedModifier_ops (K : Externals) (fuel : Nat) (mod : Modifier) (ts : TokenStream)
    (r : Bool × Modifier) (ts1 : TokenStream)
    (h : parsedModifier K fuel mod ts = .ok r ts1) : ∃ l, r.2.ops = mod.ops ++ l := by
  simp only [parsedModifier] at h
  split_ifs at h <;> simp only [res_bind_eq_ok, Res.ok.injEq, parseAngle] at h
  · obtain ⟨a, s, _, rfl, _⟩ := h; exact ⟨[_], rfl⟩
  · obtain ⟨a, s, _, rfl, _⟩ := h; exact ⟨[_], rfl⟩
  · obtain ⟨a, s, _, rfl, _⟩ := h; exact ⟨[_], rfl⟩
  · obtain ⟨a, s, _, rfl, _⟩ := h; exact ⟨[_], rfl⟩
  · obtain ⟨a, s, _, rfl, _⟩ := h; exact ⟨[_], rfl⟩
  · obtain ⟨a, s, _, a1, s1, _, rfl, _⟩ := h; exact ⟨[_], rfl⟩
  · obtain ⟨rfl, _⟩ := h; exact ⟨[], by simp⟩

theorem parseModifiers_ops (K : Externals) (fuel : Nat) (obj : Object) (ts : TokenStream)
    (obj1 : Object) (ts1 : TokenStream)
    (h : parseModifiers K fuel obj ts = .ok obj1 ts1) : ∃ l, obj1.ops = obj.ops ++ l := by
  induction fuel generalizing obj ts with
  | zero => simp [parseModifiers] at h
  | succ f ih =>
    unfold parseModifiers at h
    rw [res_bind_eq_ok] at h
    obtain ⟨r, s, hpm, hrest⟩ := h
    obtain ⟨l1, hl1⟩ := parsedModifier_ops K f _ _ _ _ hpm
    by_cases hr : r.1 = true
    · rw [if_pos hr] at hrest
      obtain ⟨l2, hl2⟩ := ih _ _ hrest
      exact ⟨l1 ++ l2, by rw [hl2]; simp only []; rw [hl1, List.append_assoc]⟩
    · rw [if_neg hr, res_bind_eq_ok] at hrest
      obtain ⟨m, s2, _, hrest2⟩ := hrest
      by_cases hm : m.1 = true
      · rw [if_pos hm] at hrest2
        obtain ⟨l2, hl2⟩ := ih _ _ hrest2
        exact ⟨l1 ++ l2, by rw [hl2]; simp only []; rw [hl1, List.append_assoc]⟩
      · rw [if_neg hm] at hrest2
        simp only [Res.ok.injEq] at hrest2
        obtain ⟨rfl, _⟩ := hrest2
        exact ⟨l1, hl1⟩

theorem parseVector_peeked (e : VecExpr) (fuel : Nat) (ts : TokenStream)
    (hw : e.wellFormed = true) (hd : Delivers ts e.tokens)
    (hend : expressionEnds (past ts e.tokens)) (hf : e.cost ≤ fuel) :
    parseVector fuel (peekToken ts).2 = .ok e.value (peekToken (past ts e.tokens)).2 := by
  obtain ⟨t, l, htl⟩ := vecExpr_tokens_cons e
  obtain ⟨_, h2, h3, _⟩ := expressionEnds_stops hend
  have hd2 : Delivers (peekToken ts).2 e.tokens := by
    rw [htl, delivers_peekToken, ← htl]; exact hd
  have hp : past (peekToken ts).2 e.tokens = past ts e.tokens := by
    rw [htl, past_peekToken]
  rw [parseVector_value e fuel _ hw hd2 (by rw [hp]; exact h3) (by rw [hp]; exact h2) hf, hp]

theorem boxOfCorners_eq (K : Externals) (upper lower : Vect3) :
    ((⟨⟨[]⟩, K.defaultMaterial, .box⟩ : Object).applyOp
        (.scale (Vect3.sdiv (Vect3.sub upper lower) 2))).applyOp
        (.translate (Vect3.sdiv (Vect3.add upper lower) 2))
      = boxOfCorners K upper lower := rfl

theorem parseBox_corners (K : Externals) (U L : VecExpr) (fuel : Nat) (ts : TokenStream)
    (hU : U.wellFormed = true) (hL : L.wellFormed = true)
    (hd : Delivers ts ("Box" :: "\x7b" :: (U.tokens ++ L.tokens)))
    (hL0 : startsWithoutOperator L.tokens)
    (hend : expressionEnds (past ts ("Box" :: "\x7b" :: (U.tokens ++ L.tokens))))
    (hf : U.cost + L.cost ≤ fuel) :
    parseBox K fuel ts
      = (parseModifiers K fuel (boxOfCorners K U.value L.value)
          (peekToken (past ts ("Box" :: "\x7b" :: (U.tokens ++ L.tokens)))).2).bind
          fun box ts4 => (expectToken "\x7d" ts4).bind fun _ ts5 => .ok (some box) ts5 := by
  simp only [delivers_cons, delivers_append] at hd
  simp only [past_cons, past_append] at hend ⊢
  obtain ⟨hk, hb, hdU, hdL⟩ := hd
  obtain ⟨t, l, htl⟩ := vecExpr_tokens_cons L
  have hmid : expressionEnds (past (getToken (getToken ts).2).2 U.tokens) := by
    have ht : (getToken (past (getToken (getToken ts).2).2 U.tokens)).1 = t := by
      rw [htl] at hdL; exact hdL.1
    unfold expressionEnds
    rw [ht]
    exact hL0 t (by rw [htl]; rfl)
  obtain ⟨_, h2, h3, _⟩ := expressionEnds_stops hmid
  have pU := parseVector_value U fuel _ hU hdU h3 h2 (by omega)
  have pL := parseVector_peeked L fuel _ hL hdL hend (by omega)
  unfold parseBox
  simp only [peekToken_fst, hk, ne_eq, not_true_eq_false, if_false, getToken_peekToken,
    expectToken_ok _ _ hb, Res.bind, pU, pL, boxOfCorners_eq]

theorem parseBox_plain (K : Externals) (U L : VecExpr) (fuel : Nat) (ts : TokenStream)
    (hU : U.wellFormed = true) (hL : L.wellFormed = true)
    (hd : Delivers ts ("Box" :: "\x7b" :: (U.tokens ++ (L.tokens ++ ["\x7d"]))))
    (hL0 : startsWithoutOperator L.tokens)
    (hf : U.cost + L.cost + 1 ≤ fuel) :
    parseBox K fuel ts = .ok (some (boxOfCorners K U.value L.value))
      (past ts ("Box" :: "\x7b" :: (U.tokens ++ (L.tokens ++ ["\x7d"])))) := by
  obtain ⟨f, rfl⟩ : ∃ f, fuel = f + 1 := ⟨fuel - 1, by omega⟩
  have e1 : "Box" :: "\x7b" :: (U.tokens ++ (L.tokens ++ ["\x7d"]))
      = ("Box" :: "\x7b" :: (U.tokens ++ L.tokens)) ++ ["\x7d"] := by simp
  rw [e1, delivers_append] at hd
  rw [e1, past_append]
  obtain ⟨hd1, hd2⟩ := hd
  have hcl : (getToken (past ts ("Box" :: "\x7b" :: (U.tokens ++ L.tokens)))).1 = "\x7d" := hd2.1
  have hend : expressionEnds (past ts ("Box" :: "\x7b" :: (U.tokens ++ L.tokens))) := by
    unfold expressionEnds; rw [hcl]; decide
  have hkw : notModifierKeyword (getToken (past ts ("Box" :: "\x7b" :: (U.tokens ++ L.tokens)))).1 := by
    rw [hcl]; decide
  rw [parseBox_corners K U L (f + 1) ts hU hL hd1 hL0 hend (by omega),
    parseModifiers_none K f _ _ hkw]
  simp only [Res.bind]
  rw [expectToken_peek _ _ hcl]
  rfl

/-- C9: when the stream delivers `Box {` and two well-formed corner expressions
`upper` and `lower` (the second not starting with an operator token, the token
after it no binary operator), `parseBox` with enough fuel hands to
`parseModifiers` a box that has received exactly `scale ((upper - lower) / 2)`
followed by `translate ((upper + lower) / 2)`, the vectors computed componentwise
in the double arithmetic of the program; whatever box it returns has these two
operations first, before any user modifier; and when `}` follows directly it
returns the box with exactly these two operations. -/
theorem parseBox_scale_then_translate (K : Externals) (U L : VecExpr) (fuel : Nat)
    (ts : TokenStream) (hU : U.wellFormed = true) (hL : L.wellFormed = true)
    (hd : Delivers ts ("Box" :: "\x7b" :: (U.tokens ++ L.tokens)))
    (hL0 : startsWithoutOperator L.tokens)
    (hend : expressionEnds (past ts ("Box" :: "\x7b" :: (U.tokens ++ L.tokens))))
    (hf : U.cost + L.cost + 1 ≤ fuel) :
    parseBox K fuel ts
      = ((parseModifiers K fuel
            ⟨⟨[.scale (Vect3.sdiv (Vect3.sub U.value L.value) 2),
               .translate (Vect3.sdiv (Vect3.add U.value L.value) 2)]⟩, K.defaultMaterial, .box⟩
            (peekToken (past ts ("Box" :: "\x7b" :: (U.tokens ++ L.tokens)))).2).bind
          fun box ts4 => (expectToken "\x7d" ts4).bind fun _ ts5 => .ok (some box) ts5) ∧
    (∀ box ts1, parseBox K fuel ts = .ok (some box) ts1 →
      ∃ user, box.ops = [.scale (Vect3.sdiv (Vect3.sub U.value L.value) 2),
        .translate (Vect3.sdiv (Vect3.add U.value L.value) 2)] ++ user) ∧
    ((getToken (past ts ("Box" :: "\x7b" :: (U.tokens ++ L.tokens)))).1 = "\x7d" →
      parseBox K fuel ts
        = .ok (some ⟨⟨[.scale (Vect3.sdiv (Vect3.sub U.value L.value) 2),
            .translate (Vect3.sdiv (Vect3.add U.value L.value) 2)]⟩, K.defaultMaterial, .box⟩)
          (getToken (past ts ("Box" :: "\x7b" :: (U.tokens ++ L.tokens)))).2) := by
  have hc := parseBox_corners K U L fuel ts hU hL hd hL0 hend (by omega)
  refine ⟨hc, ?_, ?_⟩
  · intro box ts1 hb
    rw [hc, res_bind_eq_ok] at hb
    obtain ⟨b, s, hm, hrest⟩ := hb
    rw [res_bind_eq_ok] at hrest
    obtain ⟨_, s2, _, hok⟩ := hrest
    simp only [Res.ok.injEq, Option.some.injEq] at hok
    obtain ⟨rfl, _⟩ := hok
    exact parseModifiers_ops K fuel _ _ _ _ hm
  · intro hcl
    have hd2 : Delivers ts ("Box" :: "\x7b" :: (U.tokens ++ (L.tokens ++ ["\x7d"]))) := by
      have e1 : "Box" :: "\x7b" :: (U.tokens ++ (L.tokens ++ ["\x7d"]))
          = ("Box" :: "\x7b" :: (U.tokens ++ L.tokens)) ++ ["\x7d"] := by simp
      rw [e1, delivers_append]
      exact ⟨hd, hcl, trivial⟩
    have hp := parseBox_plain K U L fuel ts hU hL hd2 hL0 hf
    rw [hp]
    have e1 : "Box" :: "\x7b" :: (U.tokens ++ (L.tokens ++ ["\x7d"]))
        = ("Box" :: "\x7b" :: (U.tokens ++ L.tokens)) ++ ["\x7d"] := by simp
    rw [e1, past_append]
    rfl

theorem sscanf_lf_two : sscanf_lf ['2'] = some 2 := by decide

theorem sscanf_lf_zero : sscanf_lf ['0'] = some 0 := by decide

theorem cornerUpper_value : cornerUpper.value = ⟨2, 2, 2⟩ := by decide

theorem cornerLower_value : cornerLower.value = ⟨0, 0, 0⟩ := by decide

/-- Witness for C9: for `Box { < 2 , 2 , 2 > < 0 , 0 , 0 > }` the box has received
`scale (1,1,1)` and then `translate (1,1,1)`; for the corners 0.3 and 0.1 the
scale is the double 0.09999999999999999 and the translation the double 0.2. -/
theorem parseBox_scale_then_translate_witness :
    cornerUpper.wellFormed = true ∧ cornerLower.wellFormed = true ∧
    boxTokens = "Box" :: "\x7b" :: (cornerUpper.tokens ++ cornerLower.tokens) ++ ["\x7d"] ∧
    startsWithoutOperator cornerLower.tokens ∧
    parseBox sampleExternals 50 (ofList boxTokens)
      = .ok (some ⟨⟨[.scale ⟨1, 1, 1⟩, .translate ⟨1, 1, 1⟩]⟩,
          sampleExternals.defaultMaterial, .box⟩) ⟨[], [], [], [], 17, []⟩ ∧
    boxTokensTenths
      = "Box" :: "\x7b" :: (cornerThreeTenths.tokens ++ cornerTenth.tokens) ++ ["\x7d"] ∧
    parseBox sampleExternals 50 (ofList boxTokensTenths)
      = .ok (some ⟨⟨[.scale ⟨tenthDown, tenthDown, tenthDown⟩,
            .translate ⟨twoTenths, twoTenths, twoTenths⟩]⟩,
          sampleExternals.defaultMaterial, .box⟩) ⟨[], [], [], [], 17, []⟩ := by
  refine ⟨by decide, by decide, by decide, by decide, ?_, by decide, ?_⟩
  · have h := (parseBox_scale_then_translate sampleExternals cornerUpper cornerLower 50
      (ofList boxTokens) (by decide) (by decide) (by decide) (by decide) (by decide)
      (by decide)).2.2 (by decide)
    rw [h]
    decide
  · have h := (parseBox_scale_then_translate sampleExternals cornerThreeTenths cornerTenth 50
      (ofList boxTokensTenths) (by decide) (by decide) (by decide) (by decide) (by decide)
      (by decide)).2.2 (by decide)
    rw [h]
    decide

theorem boxPoints_boxOfCorners (K : Externals) (p q : Vect3) (x : Point)
    (h : boxPoints (boxOfCorners K p q) x) : boxPoints (boxOfCorners K q p) x := by
  obtain ⟨c, ⟨h1, h2, h3, h4, h5, h6⟩, hc⟩ := h
  refine ⟨⟨-c.x, -c.y, -c.z⟩, ?_, ?_⟩
  · unfold inUnitCube
    dsimp only
    exact ⟨by linarith, by linarith, by linarith, by linarith, by linarith, by linarith⟩
  simp only [boxOfCorners, transformPoint, ModOp.transform, Vect3.toPoint?] at hc ⊢
  rw [half_sub_antisymm p.x q.x, half_sub_antisymm p.y q.y, half_sub_antisymm p.z q.z,
    real_add_comm q.x p.x, real_add_comm q.y p.y, real_add_comm q.z p.z]
  generalize ((p.x - q.x) / 2).toRat? = sx at hc ⊢
  generalize ((p.y - q.y) / 2).toRat? = sy at hc ⊢
  generalize ((p.z - q.z) / 2).toRat? = sz at hc ⊢
  generalize ((p.x + q.x) / 2).toRat? = tx at hc ⊢
  generalize ((p.y + q.y) / 2).toRat? = ty at hc ⊢
  generalize ((p.z + q.z) / 2).toRat? = tz at hc ⊢
  cases sx <;> cases sy <;> cases sz <;> simp only [Option.map] at hc ⊢ <;>
    try (exact Option.noConfusion hc)
  cases tx <;> cases ty <;> cases tz <;> simp only [Option.map] at hc ⊢ <;>
    try (exact Option.noConfusion hc)
  simp only [Option.some.injEq] at hc ⊢
  rw [← hc]
  congr 1 <;> ring

/-- C10: the box that `parseBox` builds does not depend on which corner is given
first: for well-formed corner expressions `P` and `Q` (neither starting with an
operator token), `parseBox` with enough fuel succeeds on `Box { P Q }` and on
`Box { Q P }`, and the two boxes are the same point set, the image of the unit
cube under scale-then-translate. -/
theorem parseBox_corner_order (K : Externals) (P Q : VecExpr) (fuel : Nat)
    (ts1 ts2 : TokenStream) (hP : P.wellFormed = true) (hQ : Q.wellFormed = true)
    (hP0 : startsWithoutOperator P.tokens) (hQ0 : startsWithoutOperator Q.tokens)
    (hd1 : Delivers ts1 ("Box" :: "\x7b" :: (P.tokens ++ (Q.tokens ++ ["\x7d"]))))
    (hd2 : Delivers ts2 ("Box" :: "\x7b" :: (Q.tokens ++ (P.tokens ++ ["\x7d"]))))
    (hf : P.cost + Q.cost + 1 ≤ fuel) :
    ∃ b1 b2 s1 s2, parseBox K fuel ts1 = .ok (some b1) s1 ∧
      parseBox K fuel ts2 = .ok (some b2) s2 ∧ ∀ x, boxPoints b1 x ↔ boxPoints b2 x :=
  ⟨_, _, _, _, parseBox_plain K P Q fuel ts1 hP hQ hd1 hQ0 hf,
    parseBox_plain K Q P fuel ts2 hQ hP hd2 hP0 (by omega),
    fun x => ⟨boxPoints_boxOfCorners K _ _ x, boxPoints_boxOfCorners K _ _ x⟩⟩

/-- Witness for C10: `Box { < 2 , 2 , 2 > < 0 , 0 , 0 > }` and
`Box { < 0 , 0 , 0 > < 2 , 2 , 2 > }` give the same point set. -/
theorem parseBox_corner_order_witness :
    cornerUpper.wellFormed = true ∧ cornerLower.wellFormed = true ∧
    startsWithoutOperator cornerUpper.tokens ∧ startsWithoutOperator cornerLower.tokens ∧
    boxTokens = "Box" :: "\x7b" :: (cornerUpper.tokens ++ (cornerLower.tokens ++ ["\x7d"])) ∧
    boxTokensSwapped = "Box" :: "\x7b" :: (cornerLower.tokens ++ (cornerUpper.tokens ++ ["\x7d"])) ∧
    ∃ b1 b2 s1 s2, parseBox sampleExternals 50 (ofList boxTokens) = .ok (some b1) s1 ∧
      parseBox sampleExternals 50 (ofList boxTokensSwapped) = .ok (some b2) s2 ∧
      ∀ x, boxPoints b1 x ↔ boxPoints b2 x :=
  ⟨by decide, by decide, by decide, by decide, by decide, by decide,
    parseBox_corner_order sampleExternals cornerUpper cornerLower 50 (ofList boxTokens)
      (ofList boxTokensSwapped) (by decide) (by decide) (by decide) (by decide) (by decide)
      (by decide) (by decide)⟩


/-! ## A peeked stream reads like the stream itself -/

theorem parseNumber_peek (fuel : Nat) (ts : TokenStream) :
    parseNumber fuel (peekToken ts).2 = parseNumber fuel ts := by
  cases fuel with
  | zero => rfl
  | succ f => unfold parseNumber; simp only [getToken_peekToken]

theorem parseTerm_peek (fuel : Nat) (ts : TokenStream) :
    parseTerm fuel (peekToken ts).2 = parseTerm fuel ts := by
  cases fuel with
  | zero => rfl
  | succ f => unfold parseTerm; rw [parseNumber_peek]

theorem parseReal_peek (fuel : Nat) (ts : TokenStream) :
    parseReal fuel (peekToken ts).2 = parseReal fuel ts := by
  cases fuel with
  | zero => rfl
  | succ f => unfold parseReal; rw [parseTerm_peek]

theorem parseVectorTerm_peek (fuel : Nat) (ts : TokenStream) :
    parseVectorTerm fuel (peekToken ts).2 = parseVectorTerm fuel ts := by
  unfold parseVectorTerm
  simp only [peekToken_fst, getToken_peekToken, peekToken_peekToken]

theorem parseVector_peek (fuel : Nat) (ts : TokenStream) :
    parseVector fuel (peekToken ts).2 = parseVector fuel ts := by
  unfold parseVector; rw [parseVectorTerm_peek]

theorem parsedModifier_peek (K : Externals) (fuel : Nat) (mod : Modifier) (ts : TokenStream) :
    parsedModifier K fuel mod (peekToken ts).2 = parsedModifier K fuel mod ts := by
  unfold parsedModifier; simp only [getToken_peekToken]

theorem parsedMaterialProperty_peek (fuel : Nat) (mat : Material) (ts : TokenStream) :
    parsedMaterialProperty fuel mat (peekToken ts).2 = parsedMaterialProperty fuel mat ts := by
  unfold parsedMaterialProperty; simp only [getToken_peekToken]

theorem parsedMaterialLoop_peek (fuel : Nat) (mat : Material) (ts : TokenStream) :
    parsedMaterialLoop fuel mat (peekToken ts).2 = parsedMaterialLoop fuel mat ts := by
  cases fuel with
  | zero => rfl
  | succ f => unfold parsedMaterialLoop; rw [parsedMaterialProperty_peek]

theorem parsedMaterial_peek (fuel : Nat) (mat : Material) (ts : TokenStream) :
    parsedMaterial fuel mat (peekToken ts).2 = parsedMaterial fuel mat ts := by
  unfold parsedMaterial
  simp only [peekToken_fst, getToken_peekToken, peekToken_peekToken]

theorem parseModifiers_peek (K : Externals) (fuel : Nat) (obj : Object) (ts : TokenStream) :
    parseModifiers K fuel obj (peekToken ts).2 = parseModifiers K fuel obj ts := by
  cases fuel with
  | zero => rfl
  | succ f => unfold parseModifiers; rw [parsedModifier_peek]

theorem parsedSetModifiers_peek (K : Externals) (set : List Object) (ts : TokenStream) :
    parsedSetModifiers K set (peekToken ts).2 = parsedSetModifiers K set ts := by
  unfold parsedSetModifiers; simp only [getToken_peekToken]

/-! ## Modifier clauses -/

theorem parseVector_ends (e : VecExpr) (fuel : Nat) (ts : TokenStream)
    (hw : e.wellFormed = true) (hd : Delivers ts e.tokens)
    (hend : expressionEnds (past ts e.tokens)) (hf : e.cost ≤ fuel) :
    parseVector fuel ts = .ok e.value (peekToken (past ts e.tokens)).2 := by
  obtain ⟨_, h2, h3, _⟩ := expressionEnds_stops hend
  exact parseVector_value e fuel ts hw hd h3 h2 hf

theorem expressionEnds_of_head {ts : TokenStream} {l : List Token} (t : Token) (r : List Token)
    (hl : l = t :: r) (hd : Delivers ts l) (h0 : startsWithoutOperator l) :
    expressionEnds ts := by
  subst hl
  unfold expressionEnds
  rw [hd.1]
  exact h0 t rfl

theorem realExpr_tokens_cons (e : RealExpr) : ∃ t l, e.tokens = t :: l := by
  apply List.exists_cons_of_ne_nil
  obtain ⟨n, tt, rt⟩ := e
  cases n <;> simp [RealExpr.tokens, NumExpr.tokens]

theorem parsedModifier_clause (K : Externals) (c : ModClause) (fuel : Nat) (mod : Modifier)
    (ts : TokenStream) (hw : c.wellFormed = true) (hd : Delivers ts c.tokens)
    (hend : expressionEnds (past ts c.tokens)) (hf : c.cost ≤ fuel) :
    parsedModifier K fuel mod ts
      = .ok (true, mod.apply (c.op K)) (peekToken (past ts c.tokens)).2 := by
  cases c with
  | translate v =>
    simp only [ModClause.tokens, delivers_cons, past_cons, ModClause.wellFormed,
      ModClause.cost] at hd hend hw hf ⊢
    unfold parsedModifier
    simp only [hd.1, if_true, parseVector_ends v fuel _ hw hd.2 hend hf, Res.bind, ModClause.op]
  | scale v =>
    simp only [ModClause.tokens, delivers_cons, past_cons, ModClause.wellFormed,
      ModClause.cost] at hd hend hw hf ⊢
    unfold parsedModifier
    simp [hd.1, parseVector_ends v fuel _ hw hd.2 hend hf, Res.bind, ModClause.op]
  | rotate axis angle =>
    simp only [ModClause.tokens, delivers_cons, past_cons, ModClause.wellFormed,
      ModClause.cost] at hd hend hw hf ⊢
    obtain ⟨h0, h1, h2⟩ := hd
    have hp := parseReal_ends angle fuel _ hw h2 hend hf
    unfold parsedModifier
    cases axis <;>
      simp [h0, h1, Axis.token, parseAngle, hp, Res.bind, ModClause.op] at h1 ⊢
  | pinch m n =>
    simp only [ModClause.tokens, delivers_cons, delivers_append, past_cons, past_append,
      ModClause.wellFormed, ModClause.cost, Bool.and_eq_true, decide_eq_true_eq] at hd hend hw hf ⊢
    obtain ⟨h0, hm, hn⟩ := hd
    obtain ⟨hwm, hwn, hn0⟩ := hw
    obtain ⟨t, l, htl⟩ := realExpr_tokens_cons n
    have hmid : expressionEnds (past (getToken ts).2 m.tokens) :=
      expressionEnds_of_head t l htl hn hn0
    have pm := parseReal_ends m fuel _ hwm hm hmid (by omega)
    have pn := parseReal_ends n fuel _ hwn hn hend (by omega)
    unfold parsedModifier
    simp [h0, pm, Res.bind, parseReal_peek, pn, ModClause.op]

/-! ## Material blocks -/

theorem matProp_tokens_head (p : MatProp) :
    ∃ t l, p.tokens = t :: l ∧ ¬ notPropertyKeyword t ∧ notOperator t ∧ t ≠ "\x7d" := by
  cases p <;> exact ⟨_, _, rfl, by decide, by decide, by decide⟩

/-- The stream is at the end of the property clauses of a block: the next token
starts no property clause and is no binary operator. -/
theorem propsTokens_expressionEnds (ps : List MatProp) (ts : TokenStream)
    (hd : Delivers ts (propsTokens ps))
    (hend : notPropertyKeyword (getToken (past ts (propsTokens ps))).1 ∧
      expressionEnds (past ts (propsTokens ps))) :
    expressionEnds ts := by
  cases ps with
  | nil => simpa [propsTokens] using hend.2
  | cons p ps =>
    obtain ⟨t, l, htl, _, hop, _⟩ := matProp_tokens_head p
    simp only [propsTokens, htl, List.cons_append, delivers_cons] at hd
    unfold expressionEnds
    rw [hd.1]
    exact hop

theorem parsedMaterialLoop_step (p : MatProp) (fuel : Nat) (mat : Material) (ts : TokenStream)
    (hw : p.wellFormed = true) (hd : Delivers ts p.tokens)
    (hend : expressionEnds (past ts p.tokens)) (hf : p.cost ≤ fuel) :
    parsedMaterialLoop (fuel + 1) mat ts
      = parsedMaterialLoop fuel (p.apply mat) (past ts p.tokens) := by
  conv_lhs => unfold parsedMaterialLoop
  cases p with
  | invisible =>
    simp only [MatProp.tokens, delivers_cons, past_cons, past_nil] at hd ⊢
    simp [parsedMaterialProperty, hd.1, Res.bind, MatProp.apply]
  | shadowless =>
    simp only [MatProp.tokens, delivers_cons, past_cons, past_nil] at hd ⊢
    simp [parsedMaterialProperty, hd.1, Res.bind, MatProp.apply]
  | twosided =>
    simp only [MatProp.tokens, delivers_cons, past_cons, past_nil] at hd ⊢
    simp [parsedMaterialProperty, hd.1, Res.bind, MatProp.apply]
  | ambient v =>
    simp only [MatProp.tokens, delivers_cons, past_cons, MatProp.wellFormed,
      MatProp.cost] at hd hend hw hf ⊢
    simp [parsedMaterialProperty, hd.1, parseVector_ends v fuel _ hw hd.2 hend hf, Res.bind,
      MatProp.apply, parsedMaterialLoop_peek]
  | diffuse v =>
    simp only [MatProp.tokens, delivers_cons, past_cons, MatProp.wellFormed,
      MatProp.cost] at hd hend hw hf ⊢
    simp [parsedMaterialProperty, hd.1, parseVector_ends v fuel _ hw hd.2 hend hf, Res.bind,
      MatProp.apply, parsedMaterialLoop_peek]
  | reflective v =>
    simp only [MatProp.tokens, delivers_cons, past_cons, MatProp.wellFormed,
      MatProp.cost] at hd hend hw hf ⊢
    simp [parsedMaterialProperty, hd.1, parseVector_ends v fuel _ hw hd.2 hend hf, Res.bind,
      MatProp.apply, parsedMaterialLoop_peek]
  | refractive v index =>
    simp only [MatProp.tokens, delivers_cons, delivers_append, past_cons, past_append,
      MatProp.wellFormed, MatProp.cost, Bool.and_eq_true, decide_eq_true_eq] at hd hend hw hf ⊢
    obtain ⟨h0, hv, hi⟩ := hd
    obtain ⟨hwv, hwi, hi0⟩ := hw
    obtain ⟨t, l, htl⟩ := realExpr_tokens_cons index
    have hmid : expressionEnds (past (getToken ts).2 v.tokens) :=
      expressionEnds_of_head t l htl hi hi0
    have pv := parseVector_ends v fuel _ hwv hv hmid (by omega)
    have pi := parseReal_ends index fuel _ hwi hi hend (by omega)
    simp [parsedMaterialProperty, h0, pv, Res.bind, parseReal_peek, pi, MatProp.apply,
      parsedMaterialLoop_peek]
  | specular r =>
    simp only [MatProp.tokens, delivers_cons, past_cons, MatProp.wellFormed,
      MatProp.cost] at hd hend hw hf ⊢
    simp [parsedMaterialProperty, hd.1, parseReal_ends r fuel _ hw hd.2 hend hf, Res.bind,
      MatProp.apply, parsedMaterialLoop_peek]
  | shininess r =>
    simp only [MatProp.tokens, delivers_cons, past_cons, MatProp.wellFormed,
      MatProp.cost] at hd hend hw hf ⊢
    simp [parsedMaterialProperty, hd.1, parseReal_ends r fuel _ hw hd.2 hend hf, Res.bind,
      MatProp.apply, parsedMaterialLoop_peek]

theorem parsedMaterialLoop_stop (fuel : Nat) (mat : Material) (ts : TokenStream)
    (h : notPropertyKeyword (getToken ts).1) :
    parsedMaterialLoop (fuel + 1) mat ts = .ok mat (peekToken ts).2 := by
  obtain ⟨h1, h2, h3, h4, h5, h6, h7, h8, h9⟩ := h
  unfold parsedMaterialLoop
  simp [parsedMaterialProperty, h1, h2, h3, h4, h5, h6, h7, h8, h9, Res.bind, peekToken_snd]

theorem parsedMaterialLoop_props (ps : List MatProp) (fuel : Nat) (mat : Material)
    (ts : TokenStream) (hw : propsWellFormed ps = true) (hd : Delivers ts (propsTokens ps))
    (hend : notPropertyKeyword (getToken (past ts (propsTokens ps))).1 ∧
      expressionEnds (past ts (propsTokens ps)))
    (hf : propsCost ps ≤ fuel) :
    parsedMaterialLoop fuel mat ts
      = .ok (applyProps ps mat) (peekToken (past ts (propsTokens ps))).2 := by
  induction ps generalizing fuel mat ts with
  | nil =>
    obtain ⟨f, rfl⟩ : ∃ f, fuel = f + 1 := ⟨fuel - 1, by simp [propsCost] at hf; omega⟩
    simp only [propsTokens, past_nil] at hend ⊢
    exact parsedMaterialLoop_stop f mat ts hend.1
  | cons p ps ih =>
    obtain ⟨f, rfl⟩ : ∃ f, fuel = f + 1 := ⟨fuel - 1, by simp [propsCost] at hf; omega⟩
    simp only [propsTokens, delivers_append, past_append, propsWellFormed, Bool.and_eq_true,
      propsCost] at hd hend hw hf ⊢
    have hmid := propsTokens_expressionEnds ps _ hd.2 hend
    rw [parsedMaterialLoop_step p f mat ts hw.1 hd.1 hmid (by omega)]
    exact ih f _ _ hw.2 hd.2 hend (by omega)

theorem parsedMaterial_block (ps : List MatProp) (fuel : Nat) (mat : Material)
    (ts : TokenStream) (hw : propsWellFormed ps = true) (hd : Delivers ts (materialTokens ps))
    (hf : propsCost ps ≤ fuel) :
    parsedMaterial fuel mat ts = .ok (true, applyProps ps mat) (past ts (materialTokens ps)) := by
  simp only [materialTokens, delivers_cons, delivers_append, delivers_nil, and_true, past_cons,
    past_append, past_nil] at hd ⊢
  obtain ⟨h0, h1, hp, hc⟩ := hd
  have hend : notPropertyKeyword (getToken (past (getToken (getToken ts).2).2 (propsTokens ps))).1 ∧
      expressionEnds (past (getToken (getToken ts).2).2 (propsTokens ps)) := by
    unfold expressionEnds
    rw [hc]
    exact ⟨by decide, by decide⟩
  have hl := parsedMaterialLoop_props ps fuel mat _ hw hp hend hf
  unfold parsedMaterial
  simp only [peekToken_fst, h0, ne_eq, not_true_eq_false, if_false, getToken_peekToken,
    expectToken_ok _ _ h1, Res.bind, hl, expectToken_peek _ _ hc]

/-! ## Block bodies -/

theorem bodyItem_tokens_head (b : BodyItem) :
    ∃ t l, b.tokens = t :: l ∧ ¬ notModifierKeyword t ∧ notOperator t ∧ t ≠ "nocaps" := by
  cases b with
  | modifier c => cases c <;> exact ⟨_, _, rfl, by decide, by decide, by decide⟩
  | material ps => exact ⟨_, _, rfl, by decide, by decide, by decide⟩

theorem bodyTokens_expressionEnds (bs : List BodyItem) (ts : TokenStream)
    (hd : Delivers ts (bodyTokens bs)) (hend : bodyEnds (past ts (bodyTokens bs))) :
    expressionEnds ts := by
  cases bs with
  | nil => simpa [bodyTokens] using hend.2
  | cons b bs =>
    obtain ⟨t, l, htl, _, hop, _⟩ := bodyItem_tokens_head b
    simp only [bodyTokens, htl, List.cons_append, delivers_cons] at hd
    unfold expressionEnds
    rw [hd.1]
    exact hop

theorem parseModifiers_step (K : Externals) (b : BodyItem) (fuel : Nat) (obj : Object)
    (ts : TokenStream) (hw : b.wellFormed = true) (hd : Delivers ts b.tokens)
    (hend : expressionEnds (past ts b.tokens)) (hf : b.cost ≤ fuel) :
    parseModifiers K (fuel + 1) obj ts = parseModifiers K fuel (b.apply K obj) (past ts b.tokens) := by
  conv_lhs => unfold parseModifiers
  cases b with
  | modifier c =>
    simp only [BodyItem.tokens, BodyItem.wellFormed, BodyItem.cost] at hd hend hw hf ⊢
    rw [parsedModifier_clause K c fuel _ ts hw hd hend hf]
    simp only [Res.bind, if_true, parseModifiers_peek]
    rfl
  | material ps =>
    simp only [BodyItem.tokens, BodyItem.wellFormed, BodyItem.cost] at hd hend hw hf ⊢
    have h0 : (getToken ts).1 = "material" := hd.1
    have hk : parsedModifier K fuel obj.toModifier ts = .ok (false, obj.toModifier) (peekToken ts).2 := by
      simp [parsedModifier, h0, peekToken_snd]
    rw [hk]
    simp only [Res.bind, Bool.false_eq_true, if_false, parsedMaterial_peek]
    rw [parsedMaterial_block ps fuel _ ts hw hd hf]
    simp only [Res.bind, if_true]
    rfl

theorem parseModifiers_stop (K : Externals) (fuel : Nat) (obj : Object) (ts : TokenStream)
    (h : notModifierKeyword (getToken ts).1) :
    parseModifiers K (fuel + 1) obj ts = .ok obj (peekToken ts).2 := by
  rw [← parseModifiers_peek]
  exact parseModifiers_none K fuel obj ts h

theorem parseModifiers_body (K : Externals) (bs : List BodyItem) (fuel : Nat) (obj : Object)
    (ts : TokenStream) (hw : bodyWellFormed bs = true) (hd : Delivers ts (bodyTokens bs))
    (hend : bodyEnds (past ts (bodyTokens bs))) (hf : bodyCost bs ≤ fuel) :
    parseModifiers K fuel obj ts
      = .ok (applyBody K bs obj) (peekToken (past ts (bodyTokens bs))).2 := by
  induction bs generalizing fuel obj ts with
  | nil =>
    obtain ⟨f, rfl⟩ : ∃ f, fuel = f + 1 := ⟨fuel - 1, by simp [bodyCost] at hf; omega⟩
    simp only [bodyTokens, past_nil] at hend ⊢
    exact parseModifiers_stop K f obj ts hend.1
  | cons b bs ih =>
    obtain ⟨f, rfl⟩ : ∃ f, fuel = f + 1 := ⟨fuel - 1, by simp [bodyCost] at hf; omega⟩
    simp only [bodyTokens, delivers_append, past_append, bodyWellFormed, Bool.and_eq_true,
      bodyCost] at hd hend hw hf ⊢
    have hmid := bodyTokens_expressionEnds bs _ hd.2 hend
    rw [parseModifiers_step K b f obj ts hw.1 hd.1 hmid (by omega)]
    exact ih f _ _ hw.2 hd.2 hend (by omega)

theorem applyBody_ops (K : Externals) (bs : List BodyItem) (obj : Object) :
    (applyBody K bs obj).ops = obj.ops ++ bodyOps K bs ∧ (applyBody K bs obj).shape = obj.shape := by
  induction bs generalizing obj with
  | nil => simp [applyBody, bodyOps]
  | cons b bs ih =>
    cases b with
    | modifier c =>
      simp only [applyBody, bodyOps, BodyItem.apply]
      rw [(ih _).1, (ih _).2]
      simp [Object.applyOp, Modifier.apply]
    | material ps =>
      simp only [applyBody, bodyOps, BodyItem.apply]
      rw [(ih _).1, (ih _).2]
      exact ⟨rfl, rfl⟩

/-! ## Claims on modifiers and materials -/

theorem applyBody_modifiers (K : Externals) (cs : List ModClause) (obj : Object) :
    applyBody K (cs.map BodyItem.modifier) obj
      = ⟨⟨obj.ops ++ cs.map (ModClause.op K)⟩, obj.material, obj.shape⟩ := by
  induction cs generalizing obj with
  | nil => simp [applyBody]
  | cons c cs ih =>
    simp only [List.map_cons, applyBody, BodyItem.apply, ih]
    simp [Object.applyOp, Modifier.apply]

theorem literalTriplet_100_value :
    (VecExpr.mk (literalTriplet "1" "0" "0") .done).value = ⟨1, 0, 0⟩ := by decide

/-- C11: the calls of `parsedModifier` that `parseModifiers` makes on a sequence of
well-formed `translate`, `scale`, `rotate` and `pinch` clauses apply the operations
to the target one by one, in exactly the order of the token stream: with enough
fuel the target comes back with the operations of the clauses appended, in that
order, to those it had (material and shape untouched).  The order matters: a
point is mapped to `2p + (1,0,0)` by scale (2,2,2) followed by translate (1,0,0)
and to `2p + (2,0,0)` by translate (1,0,0) followed by scale (2,2,2). -/
theorem parseModifiers_in_order (K : Externals) (cs : List ModClause) (fuel : Nat)
    (obj : Object) (ts : TokenStream)
    (hw : bodyWellFormed (cs.map BodyItem.modifier) = true)
    (hd : Delivers ts (bodyTokens (cs.map BodyItem.modifier)))
    (hend : bodyEnds (past ts (bodyTokens (cs.map BodyItem.modifier))))
    (hf : bodyCost (cs.map BodyItem.modifier) ≤ fuel) :
    parseModifiers K fuel obj ts
      = .ok ⟨⟨obj.ops ++ cs.map (ModClause.op K)⟩, obj.material, obj.shape⟩
          (peekToken (past ts (bodyTokens (cs.map BodyItem.modifier)))).2 ∧
    ∀ p : Point,
      transformPoint [.scale ⟨2, 2, 2⟩, .translate ⟨1, 0, 0⟩] p
        = some ⟨2 * p.x + 1, 2 * p.y + 0, 2 * p.z + 0⟩ ∧
      transformPoint [.translate ⟨1, 0, 0⟩, .scale ⟨2, 2, 2⟩] p
        = some ⟨2 * p.x + 2, 2 * p.y + 0, 2 * p.z + 0⟩ := by
  refine ⟨?_, fun p => ⟨?_, ?_⟩⟩
  · rw [parseModifiers_body K _ fuel obj ts hw hd hend hf, applyBody_modifiers]
  · simp only [transformPoint, ModOp.transform, toPoint_222, toPoint_100, Option.map]
  · simp only [transformPoint, ModOp.transform, toPoint_222, toPoint_100, Option.map,
      Option.some.injEq, Point.mk.injEq]
    refine ⟨by ring, by ring, by ring⟩

/-- Witness for C11: `scale < 2 , 2 , 2 > translate < 1 , 0 , 0 >` and the same
clauses in the other order leave different operation sequences on a plain box,
which send the point (1,1,1) to (3,2,2) and to (4,2,2). -/
theorem parseModifiers_in_order_witness :
    bodyTokens ([clauseScale, clauseTranslate].map BodyItem.modifier)
      = ["scale", "<", "2", ",", "2", ",", "2", ">", "translate", "<", "1", ",", "0", ",", "0", ">"] ∧
    parseModifiers sampleExternals 60 plainBox
        (ofList ["scale", "<", "2", ",", "2", ",", "2", ">",
          "translate", "<", "1", ",", "0", ",", "0", ">", "\x7d"])
      = .ok ⟨⟨[.scale ⟨2, 2, 2⟩, .translate ⟨1, 0, 0⟩]⟩, blankMaterial, .box⟩
          ⟨[], ["\x7d"], [], [], 17, []⟩ ∧
    parseModifiers sampleExternals 60 plainBox
        (ofList ["translate", "<", "1", ",", "0", ",", "0", ">",
          "scale", "<", "2", ",", "2", ",", "2", ">", "\x7d"])
      = .ok ⟨⟨[.translate ⟨1, 0, 0⟩, .scale ⟨2, 2, 2⟩]⟩, blankMaterial, .box⟩
          ⟨[], ["\x7d"], [], [], 17, []⟩ ∧
    transformPoint [.scale ⟨2, 2, 2⟩, .translate ⟨1, 0, 0⟩] ⟨1, 1, 1⟩ = some ⟨3, 2, 2⟩ ∧
    transformPoint [.translate ⟨1, 0, 0⟩, .scale ⟨2, 2, 2⟩] ⟨1, 1, 1⟩ = some ⟨4, 2, 2⟩ := by
  have hs : ModClause.op sampleExternals clauseScale = .scale ⟨2, 2, 2⟩ := by
    show ModOp.scale cornerUpper.value = _
    rw [cornerUpper_value]
  have ht : ModClause.op sampleExternals clauseTranslate = .translate ⟨1, 0, 0⟩ := by
    show ModOp.translate (VecExpr.mk (literalTriplet "1" "0" "0") .done).value = _
    rw [literalTriplet_100_value]
  refine ⟨by decide, ?_, ?_, ?_, ?_⟩
  · rw [(parseModifiers_in_order sampleExternals [clauseScale, clauseTranslate] 60 plainBox
      _ (by decide) (by decide) (by decide) (by decide)).1]
    simp only [List.map_cons, List.map_nil, hs, ht]
    rfl
  · rw [(parseModifiers_in_order sampleExternals [clauseTranslate, clauseScale] 60 plainBox
      _ (by decide) (by decide) (by decide) (by decide)).1]
    simp only [List.map_cons, List.map_nil, hs, ht]
    rfl
  · rw [((parseModifiers_in_order sampleExternals [] 1 plainBox (ofList ["\x7d"])
      (by decide) (by decide) (by decide) (by decide)).2 ⟨1, 1, 1⟩).1]
    norm_num
  · rw [((parseModifiers_in_order sampleExternals [] 1 plainBox (ofList ["\x7d"])
      (by decide) (by decide) (by decide) (by decide)).2 ⟨1, 1, 1⟩).2]
    norm_num

theorem matProp_apply_get_none (p : MatProp) (f : MatField) (m : Material)
    (h : p.valueFor f = none) : (p.apply m).get f = m.get f := by
  cases p <;> cases f <;> simp_all [MatProp.valueFor, MatProp.apply, Material.get]

theorem matProp_apply_get_some (p : MatProp) (f : MatField) (m : Material) (val : FieldValue)
    (h : p.valueFor f = some val) : (p.apply m).get f = val := by
  cases p <;> cases f <;> simp_all [MatProp.valueFor, MatProp.apply, Material.get]

theorem applyProps_get_none (ps : List MatProp) (f : MatField) (m : Material)
    (h : ∀ p ∈ ps, p.valueFor f = none) : (applyProps ps m).get f = m.get f := by
  induction ps generalizing m with
  | nil => rfl
  | cons p ps ih =>
    simp only [applyProps]
    rw [ih _ (fun q hq => h q (List.mem_cons_of_mem _ hq)),
      matProp_apply_get_none p f m (h p (List.mem_cons_self _ _))]

theorem applyProps_get_last (pre : List MatProp) (p : MatProp) (post : List MatProp)
    (f : MatField) (m : Material) (val : FieldValue) (hp : p.valueFor f = some val)
    (hpost : ∀ q ∈ post, q.valueFor f = none) :
    (applyProps (pre ++ p :: post) m).get f = val := by
  induction pre generalizing m with
  | nil =>
    simp only [List.nil_append, applyProps]
    rw [applyProps_get_none post f _ hpost, matProp_apply_get_some p f m val hp]
  | cons q pre ih =>
    simp only [List.cons_append, applyProps]
    exact ih _

/-- C17: for every block `material { ... }` of well-formed property clauses,
`parsedMaterial` with enough fuel returns true, consumes the block and leaves the
material with the clauses applied in order; then every colour or scalar field
that no clause mentions keeps the value it had before the block, and every field
that is mentioned holds the value of its last clause in the block. -/
theorem parsedMaterial_last_wins (ps : List MatProp) (fuel : Nat) (mat : Material)
    (ts : TokenStream) (hw : propsWellFormed ps = true) (hd : Delivers ts (materialTokens ps))
    (hf : propsCost ps ≤ fuel) :
    ∃ mat1, parsedMaterial fuel mat ts = .ok (true, mat1) (past ts (materialTokens ps)) ∧
      (∀ f : MatField, (∀ p ∈ ps, p.valueFor f = none) → mat1.get f = mat.get f) ∧
      (∀ (f : MatField) (pre : List MatProp) (p : MatProp) (post : List MatProp)
        (val : FieldValue), ps = pre ++ p :: post → p.valueFor f = some val →
        (∀ q ∈ post, q.valueFor f = none) → mat1.get f = val) := by
  refine ⟨applyProps ps mat, parsedMaterial_block ps fuel mat ts hw hd hf, ?_, ?_⟩
  · intro f h
    exact applyProps_get_none ps f mat h
  · intro f pre p post val hps hp hpost
    subst hps
    exact applyProps_get_last pre p post f mat val hp hpost

/-- Witness for C17: in `material { diffuse < 1 , 0 , 0 > specular 2 diffuse < 2 , 2 , 2 > }`
the second `diffuse` wins, `specular` is 2 and `ambient` keeps its value; the empty
block `material { }` is accepted and changes nothing. -/
theorem parsedMaterial_last_wins_witness :
    propsWellFormed sampleProps = true ∧
    (∃ mat1, parsedMaterial 60 blankMaterial (ofList (materialTokens sampleProps))
        = .ok (true, mat1) (past (ofList (materialTokens sampleProps)) (materialTokens sampleProps)) ∧
      mat1.get .diffuse = .vec ⟨2, 2, 2⟩ ∧ mat1.get .specular = .real 2 ∧
      mat1.get .ambient = blankMaterial.get .ambient) ∧
    (∃ mat1, parsedMaterial 1 blankMaterial (ofList ["material", "\x7b", "\x7d"])
        = .ok (true, mat1) ⟨[], [], [], [], 3, []⟩ ∧ mat1 = blankMaterial) := by
  refine ⟨by decide, ?_, ?_⟩
  · obtain ⟨mat1, h1, h2, h3⟩ := parsedMaterial_last_wins sampleProps 60 blankMaterial
      (ofList (materialTokens sampleProps)) (by decide) (by decide) (by decide)
    refine ⟨mat1, h1, ?_, ?_, h2 .ambient (by decide)⟩
    · rw [h3 .diffuse [.diffuse ⟨literalTriplet "1" "0" "0", .done⟩,
        .specular (.mk (.lit "2") .done .done)] (.diffuse ⟨literalTriplet "2" "2" "2", .done⟩) []
        (.vec cornerUpper.value) rfl rfl (by simp), cornerUpper_value]
    · rw [h3 .specular [.diffuse ⟨literalTriplet "1" "0" "0", .done⟩]
        (.specular (.mk (.lit "2") .done .done)) [.diffuse ⟨literalTriplet "2" "2" "2", .done⟩]
        (.real 2) rfl ?_ (by decide)]
      simp [MatProp.valueFor, RealExpr.value, RealTail.value, TermTail.value, NumExpr.value,
        sscanf_lf_two]
  · obtain ⟨mat1, h1, h2, h3⟩ := parsedMaterial_last_wins [] 1 blankMaterial
      (ofList ["material", "\x7b", "\x7d"]) (by decide) (by decide) (by decide)
    refine ⟨mat1, h1, ?_⟩
    have hb := parsedMaterial_block [] 1 blankMaterial (ofList ["material", "\x7b", "\x7d"])
      (by decide) (by decide) (by decide)
    rw [hb] at h1
    simp only [Res.ok.injEq, Prod.mk.injEq, true_and] at h1
    exact h1.1.symm

/-! ## Cones -/

theorem parseConeLoop_peek (K : Externals) (fuel : Nat) (cone : Object) (ts : TokenStream) :
    parseConeLoop K fuel cone (peekToken ts).2 = parseConeLoop K fuel cone ts := by
  cases fuel with
  | zero => rfl
  | succ f =>
    unfold parseConeLoop
    simp only [peekToken_fst, getToken_peekToken, peekToken_peekToken]

/-- The loop condition of `parseCone` on a body item: the item is applied and the
loop goes on behind it. -/
theorem parseCone_condition_item (K : Externals) (b : BodyItem) (fuel : Nat) (cone : Object)
    (ts : TokenStream) (hw : b.wellFormed = true) (hd : Delivers ts b.tokens)
    (hend : expressionEnds (past ts b.tokens)) (hf : b.cost ≤ fuel) :
    ((parsedModifier K fuel cone.toModifier ts).bind fun r ts2 =>
      if r.1 then parseConeLoop K fuel { cone with toModifier := r.2 } ts2
      else
        (parsedMaterial fuel cone.material ts2).bind fun m ts3 =>
          if m.1 then parseConeLoop K fuel { cone with toModifier := r.2, material := m.2 } ts3
          else .ok { cone with toModifier := r.2, material := m.2 } ts3)
      = parseConeLoop K fuel (b.apply K cone) (past ts b.tokens) := by
  cases b with
  | modifier c =>
    simp only [BodyItem.tokens, BodyItem.wellFormed, BodyItem.cost] at hd hend hw hf ⊢
    rw [parsedModifier_clause K c fuel _ ts hw hd hend hf]
    simp only [Res.bind, if_true, parseConeLoop_peek]
    rfl
  | material ps =>
    simp only [BodyItem.tokens, BodyItem.wellFormed, BodyItem.cost] at hd hend hw hf ⊢
    have h0 : (getToken ts).1 = "material" := hd.1
    have hk : parsedModifier K fuel cone.toModifier ts
        = .ok (false, cone.toModifier) (peekToken ts).2 := by
      simp [parsedModifier, h0, peekToken_snd]
    rw [hk]
    simp only [Res.bind, Bool.false_eq_true, if_false, parsedMaterial_peek]
    rw [parsedMaterial_block ps fuel _ ts hw hd hf]
    simp only [Res.bind, if_true]
    rfl

/-- The loop condition of `parseCone` on a token that starts no body item: the loop
ends and the token is left pushed back. -/
theorem parseCone_condition_stop (K : Externals) (fuel : Nat) (cone : Object)
    (ts : TokenStream) (h : notModifierKeyword (getToken ts).1) :
    ((parsedModifier K fuel cone.toModifier ts).bind fun r ts2 =>
      if r.1 then parseConeLoop K fuel { cone with toModifier := r.2 } ts2
      else
        (parsedMaterial fuel cone.material ts2).bind fun m ts3 =>
          if m.1 then parseConeLoop K fuel { cone with toModifier := r.2, material := m.2 } ts3
          else .ok { cone with toModifier := r.2, material := m.2 } ts3)
      = .ok cone (peekToken ts).2 := by
  rw [parsedModifier_none K fuel _ ts h]
  simp only [Res.bind, Bool.false_eq_true, if_false, parsedMaterial_peek]
  rw [parsedMaterial_none fuel _ ts h.2.2.2.2]
  simp only [Res.bind, Bool.false_eq_true, if_false]

theorem parseConeLoop_step (K : Externals) (b : BodyItem) (fuel : Nat) (cone : Object)
    (ts : TokenStream) (hw : b.wellFormed = true) (hd : Delivers ts b.tokens)
    (hend : expressionEnds (past ts b.tokens)) (hf : b.cost ≤ fuel) :
    parseConeLoop K (fuel + 1) cone ts = parseConeLoop K fuel (b.apply K cone) (past ts b.tokens) := by
  obtain ⟨t, l, htl, _, _, hnc⟩ := bodyItem_tokens_head b
  have h0 : (getToken ts).1 ≠ "nocaps" := by
    rw [htl] at hd; rw [hd.1]; exact hnc
  have hd2 : Delivers (peekToken ts).2 b.tokens := by
    rw [htl, delivers_peekToken, ← htl]; exact hd
  have hp : past (peekToken ts).2 b.tokens = past ts b.tokens := by rw [htl, past_peekToken]
  conv_lhs => unfold parseConeLoop
  simp only [peekToken_fst, h0, if_false]
  rw [parseCone_condition_item K b fuel cone _ hw hd2 (by rw [hp]; exact hend) hf, hp]

theorem parseConeLoop_nocaps_step (K : Externals) (b : BodyItem) (fuel : Nat) (cone : Object)
    (ts : TokenStream) (hw : b.wellFormed = true) (hd : Delivers ts ("nocaps" :: b.tokens))
    (hend : expressionEnds (past ts ("nocaps" :: b.tokens))) (hf : b.cost ≤ fuel) :
    parseConeLoop K (fuel + 1) cone ts
      = parseConeLoop K fuel (b.apply K cone.noCaps) (past ts ("nocaps" :: b.tokens)) := by
  rw [delivers_cons] at hd
  rw [past_cons] at hend ⊢
  conv_lhs => unfold parseConeLoop
  simp only [peekToken_fst, hd.1, if_true, getToken_peekToken]
  exact parseCone_condition_item K b fuel cone.noCaps _ hw hd.2 hend hf

theorem parseConeLoop_stop (K : Externals) (fuel : Nat) (cone : Object) (ts : TokenStream)
    (h : coneEnds ts) : parseConeLoop K (fuel + 1) cone ts = .ok cone (peekToken ts).2 := by
  have hk : notModifierKeyword (getToken (peekToken ts).2).1 := by
    rw [getToken_peekToken]; exact h.1.1
  conv_lhs => unfold parseConeLoop
  simp only [peekToken_fst, h.2, if_false]
  rw [parseCone_condition_stop K fuel cone _ hk, peekToken_peekToken]

theorem parseConeLoop_nocaps_stop (K : Externals) (fuel : Nat) (cone : Object)
    (ts : TokenStream) (h0 : (getToken ts).1 = "nocaps") (h : bodyEnds (getToken ts).2) :
    parseConeLoop K (fuel + 1) cone ts = .ok cone.noCaps (peekToken (getToken ts).2).2 := by
  conv_lhs => unfold parseConeLoop
  simp only [peekToken_fst, h0, if_true, getToken_peekToken]
  exact parseCone_condition_stop K fuel cone.noCaps _ h.1

theorem applyBody_noCaps (K : Externals) (bs : List BodyItem) (o : Object) :
    applyBody K bs o.noCaps = (applyBody K bs o).noCaps := by
  induction bs generalizing o with
  | nil => rfl
  | cons b bs ih =>
    simp only [applyBody]
    rw [← ih]
    cases b <;> rfl

theorem applyBody_append (K : Externals) (as bs : List BodyItem) (o : Object) :
    applyBody K (as ++ bs) o = applyBody K bs (applyBody K as o) := by
  induction as generalizing o with
  | nil => rfl
  | cons a as ih =>
    show applyBody K (as ++ bs) (a.apply K o) = _
    exact ih _

theorem parseConeLoop_body (K : Externals) (bs : List BodyItem) (fuel : Nat) (cone : Object)
    (ts : TokenStream) (hw : bodyWellFormed bs = true) (hd : Delivers ts (bodyTokens bs))
    (hend : coneEnds (past ts (bodyTokens bs))) (hf : bodyCost bs ≤ fuel) :
    parseConeLoop K fuel cone ts
      = .ok (applyBody K bs cone) (peekToken (past ts (bodyTokens bs))).2 := by
  induction bs generalizing fuel cone ts with
  | nil =>
    obtain ⟨f, rfl⟩ : ∃ f, fuel = f + 1 := ⟨fuel - 1, by simp [bodyCost] at hf; omega⟩
    simp only [bodyTokens, past_nil] at hend ⊢
    exact parseConeLoop_stop K f cone ts hend
  | cons b bs ih =>
    obtain ⟨f, rfl⟩ : ∃ f, fuel = f + 1 := ⟨fuel - 1, by simp [bodyCost] at hf; omega⟩
    simp only [bodyTokens, delivers_append, past_append, bodyWellFormed, Bool.and_eq_true,
      bodyCost] at hd hend hw hf ⊢
    have hmid := bodyTokens_expressionEnds bs _ hd.2 hend.1
    rw [parseConeLoop_step K b f cone ts hw.1 hd.1 hmid (by omega)]
    exact ih f _ _ hw.2 hd.2 hend (by omega)

theorem parseConeLoop_nocaps_body (K : Externals) (bs : List BodyItem) (fuel : Nat)
    (cone : Object) (ts : TokenStream) (hw : bodyWellFormed bs = true)
    (hd : Delivers ts ("nocaps" :: bodyTokens bs))
    (hend : coneEnds (past ts ("nocaps" :: bodyTokens bs))) (hf : bodyCost bs ≤ fuel) :
    parseConeLoop K fuel cone ts
      = .ok (applyBody K bs cone).noCaps (peekToken (past ts ("nocaps" :: bodyTokens bs))).2 := by
  obtain ⟨f, rfl⟩ : ∃ f, fuel = f + 1 := ⟨fuel - 1, by cases bs <;> simp [bodyCost] at hf <;> omega⟩
  cases bs with
  | nil =>
    simp only [bodyTokens, past_cons, past_nil, delivers_cons] at hd hend ⊢
    exact parseConeLoop_nocaps_stop K f cone ts hd.1 hend.1
  | cons b bs =>
    simp only [bodyTokens, bodyWellFormed, Bool.and_eq_true, bodyCost] at hd hend hw hf ⊢
    have e1 : "nocaps" :: (b.tokens ++ bodyTokens bs) = ("nocaps" :: b.tokens) ++ bodyTokens bs := rfl
    rw [e1] at hd hend ⊢
    rw [delivers_append] at hd
    rw [past_append] at hend ⊢
    have hmid := bodyTokens_expressionEnds bs _ hd.2 hend.1
    rw [parseConeLoop_nocaps_step K b f cone ts hw.1 hd.1 hmid (by omega),
      parseConeLoop_body K bs f _ _ hw.2 hd.2 hend (by omega)]
    simp only [applyBody]
    rw [← applyBody_noCaps]
    cases b <;> rfl

theorem parseConeLoop_pre_nocaps (K : Externals) (pre post : List BodyItem) (fuel : Nat)
    (cone : Object) (ts : TokenStream) (hwp : bodyWellFormed pre = true)
    (hwq : bodyWellFormed post = true)
    (hd : Delivers ts (bodyTokens pre ++ "nocaps" :: bodyTokens post))
    (hend : coneEnds (past ts (bodyTokens pre ++ "nocaps" :: bodyTokens post)))
    (hf : bodyCost pre + bodyCost post ≤ fuel) :
    parseConeLoop K fuel cone ts
      = .ok (applyBody K (pre ++ post) cone).noCaps
          (peekToken (past ts (bodyTokens pre ++ "nocaps" :: bodyTokens post))).2 := by
  induction pre generalizing fuel cone ts with
  | nil =>
    simp only [bodyTokens, List.nil_append, bodyCost] at hd hend hf ⊢
    exact parseConeLoop_nocaps_body K post fuel cone ts hwq hd hend (by omega)
  | cons b pre ih =>
    obtain ⟨f, rfl⟩ : ∃ f, fuel = f + 1 := ⟨fuel - 1, by simp [bodyCost] at hf; omega⟩
    simp only [bodyTokens, List.append_assoc, delivers_append, past_append, bodyWellFormed,
      Bool.and_eq_true, bodyCost] at hd hend hwp hf ⊢
    have hmid : expressionEnds (past ts b.tokens) := by
      cases pre with
      | nil =>
        have h2 := hd.2.2
        simp only [bodyTokens, past_nil, delivers_cons] at h2
        unfold expressionEnds
        rw [h2.1]
        decide
      | cons b2 pre2 =>
        obtain ⟨t, l, htl, _, hop, _⟩ := bodyItem_tokens_head b2
        have hd2 := hd.2.1
        simp only [bodyTokens, htl, List.cons_append, delivers_cons] at hd2
        unfold expressionEnds
        rw [hd2.1]
        exact hop
    rw [parseConeLoop_step K b f cone ts hwp.1 hd.1 hmid (by omega)]
    have hd3 : Delivers (past ts b.tokens) (bodyTokens pre ++ "nocaps" :: bodyTokens post) := by
      rw [delivers_append]; exact hd.2
    have hend3 : coneEnds (past (past ts b.tokens) (bodyTokens pre ++ "nocaps" :: bodyTokens post)) := by
      rw [past_append]; exact hend
    have := ih f (b.apply K cone) (past ts b.tokens) hwp.2 hd3 hend3 (by omega)
    rw [this, past_append]
    rfl

theorem bodyTokens_append (as bs : List BodyItem) :
    bodyTokens (as ++ bs) = bodyTokens as ++ bodyTokens bs := by
  induction as with
  | nil => rfl
  | cons a as ih =>
    show a.tokens ++ bodyTokens (as ++ bs) = _
    rw [ih]
    simp [bodyTokens]

theorem bodyWellFormed_append (as bs : List BodyItem) (ha : bodyWellFormed as = true)
    (hb : bodyWellFormed bs = true) : bodyWellFormed (as ++ bs) = true := by
  induction as with
  | nil => exact hb
  | cons a as ih =>
    simp only [bodyWellFormed, Bool.and_eq_true] at ha
    show (a.wellFormed && bodyWellFormed (as ++ bs)) = true
    simp [ha.1, ih ha.2]

theorem bodyCost_append (as bs : List BodyItem) :
    bodyCost (as ++ bs) + 1 = bodyCost as + bodyCost bs := by
  induction as with
  | nil => simp [bodyCost]; omega
  | cons a as ih =>
    show a.cost + bodyCost (as ++ bs) + 1 + 1 = a.cost + bodyCost as + 1 + bodyCost bs
    omega

theorem parseCone_of_loop (K : Externals) (fuel : Nat) (ts : TokenStream)
    (h0 : (getToken ts).1 = "Cone") (h1 : (getToken (getToken ts).2).1 = "\x7b") :
    parseCone K fuel ts
      = (parseConeLoop K fuel (freshCone K) (getToken (getToken ts).2).2).bind fun cone1 ts2 =>
          (expectToken "\x7d" ts2).bind fun _ ts3 => .ok (some cone1) ts3 := by
  unfold parseCone
  simp only [peekToken_fst, h0, ne_eq, not_true_eq_false, if_false, getToken_peekToken,
    expectToken_ok _ _ h1, Res.bind]
  rfl

/-- C18: in a Cone block made of well-formed modifier clauses and material blocks,
`nocaps` is accepted at the start of the block and directly after any clause or
block: for every such body split into `pre` and `post` with one `nocaps` between
them, `parseCone` with enough fuel succeeds, consumes the block and returns the
cone with `has_caps` false, all items applied; on the same block without `nocaps`
it returns the same cone with `has_caps` at its constructed default. -/
theorem parseCone_nocaps_anywhere (K : Externals) (pre post : List BodyItem) (fuel : Nat)
    (ts ts0 : TokenStream) (hwp : bodyWellFormed pre = true) (hwq : bodyWellFormed post = true)
    (hd : Delivers ts
      ("Cone" :: "\x7b" :: (bodyTokens pre ++ "nocaps" :: (bodyTokens post ++ ["\x7d"]))))
    (hd0 : Delivers ts0 ("Cone" :: "\x7b" :: (bodyTokens pre ++ (bodyTokens post ++ ["\x7d"]))))
    (hf : bodyCost pre + bodyCost post ≤ fuel) :
    parseCone K fuel ts
      = .ok (some ⟨(applyBody K (pre ++ post) (freshCone K)).toModifier,
            (applyBody K (pre ++ post) (freshCone K)).material, .cone false⟩)
          (past ts
            ("Cone" :: "\x7b" :: (bodyTokens pre ++ "nocaps" :: (bodyTokens post ++ ["\x7d"])))) ∧
    parseCone K fuel ts0
      = .ok (some ⟨(applyBody K (pre ++ post) (freshCone K)).toModifier,
            (applyBody K (pre ++ post) (freshCone K)).material, .cone K.coneCaps⟩)
          (past ts0 ("Cone" :: "\x7b" :: (bodyTokens pre ++ (bodyTokens post ++ ["\x7d"])))) := by
  constructor
  · have e1 : bodyTokens pre ++ "nocaps" :: (bodyTokens post ++ ["\x7d"])
        = (bodyTokens pre ++ "nocaps" :: bodyTokens post) ++ ["\x7d"] := by simp
    rw [e1] at hd ⊢
    simp only [delivers_cons, delivers_append, delivers_nil, and_true, past_cons, past_append,
      past_nil] at hd ⊢
    obtain ⟨h0, h1, ⟨hp, hn, hq⟩, hc⟩ := hd
    have hd2 : Delivers (getToken (getToken ts).2).2 (bodyTokens pre ++ "nocaps" :: bodyTokens post) := by
      rw [delivers_append, delivers_cons]; exact ⟨hp, hn, hq⟩
    have hend : coneEnds (past (getToken (getToken ts).2).2
        (bodyTokens pre ++ "nocaps" :: bodyTokens post)) := by
      simp only [past_append, past_cons]
      unfold coneEnds bodyEnds
      rw [hc]
      decide
    rw [parseCone_of_loop K fuel ts h0 h1,
      parseConeLoop_pre_nocaps K pre post fuel _ _ hwp hwq hd2 hend hf]
    simp only [Res.bind, past_append, past_cons]
    rw [expectToken_peek _ _ hc]
    rfl
  · have e1 : bodyTokens pre ++ (bodyTokens post ++ ["\x7d"])
        = bodyTokens (pre ++ post) ++ ["\x7d"] := by simp [bodyTokens_append]
    rw [e1] at hd0 ⊢
    simp only [delivers_cons, delivers_append, delivers_nil, and_true, past_cons, past_append,
      past_nil] at hd0 ⊢
    obtain ⟨h0, h1, hb, hc⟩ := hd0
    have hend : coneEnds (past (getToken (getToken ts0).2).2 (bodyTokens (pre ++ post))) := by
      unfold coneEnds bodyEnds
      rw [hc]
      decide
    have hc2 := bodyCost_append pre post
    rw [parseCone_of_loop K fuel ts0 h0 h1,
      parseConeLoop_body K (pre ++ post) fuel _ _ (bodyWellFormed_append pre post hwp hwq) hb hend
        (by omega)]
    simp only [Res.bind]
    rw [expectToken_peek _ _ hc]
    simp only [Res.bind]
    have hs : (applyBody K (pre ++ post) (freshCone K)).shape = .cone K.coneCaps :=
      (applyBody_ops K (pre ++ post) (freshCone K)).2
    generalize applyBody K (pre ++ post) (freshCone K) = o at hs ⊢
    cases o
    simp only at hs
    subst hs
    rfl

/-- Witness for C18: `Cone { scale < 2 , 2 , 2 > nocaps material { } }` gives a cone
with `has_caps` false, the same block without `nocaps` a cone with the default flag. -/
theorem parseCone_nocaps_anywhere_witness :
    bodyWellFormed [BodyItem.modifier clauseScale] = true ∧
    bodyWellFormed [BodyItem.material []] = true ∧
    coneTokens = "Cone" :: "\x7b" :: (bodyTokens [BodyItem.modifier clauseScale] ++
      "nocaps" :: (bodyTokens [BodyItem.material []] ++ ["\x7d"])) ∧
    coneTokensCapped = "Cone" :: "\x7b" :: (bodyTokens [BodyItem.modifier clauseScale] ++
      (bodyTokens [BodyItem.material []] ++ ["\x7d"])) ∧
    parseCone sampleExternals 60 (ofList coneTokens)
      = .ok (some ⟨⟨[.scale ⟨2, 2, 2⟩]⟩, blankMaterial, .cone false⟩) ⟨[], [], [], [], 15, []⟩ ∧
    parseCone sampleExternals 60 (ofList coneTokensCapped)
      = .ok (some ⟨⟨[.scale ⟨2, 2, 2⟩]⟩, blankMaterial, .cone true⟩) ⟨[], [], [], [], 14, []⟩ := by
  have h := parseCone_nocaps_anywhere sampleExternals [BodyItem.modifier clauseScale]
    [BodyItem.material []] 60 (ofList coneTokens) (ofList coneTokensCapped)
    (by decide) (by decide) (by decide) (by decide) (by decide)
  have hs : ModClause.op sampleExternals clauseScale = .scale ⟨2, 2, 2⟩ := by
    show ModOp.scale cornerUpper.value = _
    rw [cornerUpper_value]
  have hb : applyBody sampleExternals ([BodyItem.modifier clauseScale] ++ [BodyItem.material []])
      (freshCone sampleExternals) = ⟨⟨[.scale ⟨2, 2, 2⟩]⟩, blankMaterial, .cone true⟩ := by
    simp only [List.singleton_append, applyBody, BodyItem.apply, hs]
    rfl
  refine ⟨by decide, by decide, by decide, by decide, ?_, ?_⟩
  · rw [h.1, hb]; rfl
  · rw [h.2, hb]; rfl

/-! ## Coefficient of a vector term -/

/-- C20: the scalar coefficient in front of a triplet is read as a full additive
expression: for numeric literals `a` and `b` (values `va`, `vb`) and every
well-formed triplet, on the tokens `a + b * < x , y , z >` (the token after them
no binary operator) `parseVectorTerm` and `parseVector` with enough fuel return
`(va + vb) * (x, y, z)`, the sum and the three products being the double
operations of the program: no error, and not `a + b * (x, y, z)`. -/
theorem parseVectorTerm_sum_coefficient (a b : Token) (va vb : Real) (x y z : RealExpr)
    (fuel : Nat) (ts : TokenStream)
    (ha : validateNumber a.data false = true) (hva : sscanf_lf a.data = some va)
    (hb : validateNumber b.data false = true) (hvb : sscanf_lf b.data = some vb)
    (hx : x.wellFormed = true) (hy : y.wellFormed = true) (hz : z.wellFormed = true)
    (hd : Delivers ts (a :: "+" :: b :: "*" :: "<" ::
      (x.tokens ++ ("," :: (y.tokens ++ ("," :: (z.tokens ++ [">"])))))))
    (hend : expressionEnds (past ts (a :: "+" :: b :: "*" :: "<" ::
      (x.tokens ++ ("," :: (y.tokens ++ ("," :: (z.tokens ++ [">"]))))))))
    (hf : x.cost + y.cost + z.cost + 11 ≤ fuel) :
    parseVectorTerm fuel ts
      = .ok ⟨(va + vb) * x.value, (va + vb) * y.value, (va + vb) * z.value⟩
          (peekToken (past ts (a :: "+" :: b :: "*" :: "<" ::
            (x.tokens ++ ("," :: (y.tokens ++ ("," :: (z.tokens ++ [">"])))))))).2 ∧
    parseVector fuel ts
      = .ok ⟨(va + vb) * x.value, (va + vb) * y.value, (va + vb) * z.value⟩
          (peekToken (past ts (a :: "+" :: b :: "*" :: "<" ::
            (x.tokens ++ ("," :: (y.tokens ++ ("," :: (z.tokens ++ [">"])))))))).2 := by
  have htok : (sumCoefTerm a b x y z).tokens = a :: "+" :: b :: "*" :: "<" ::
      (x.tokens ++ ("," :: (y.tokens ++ ("," :: (z.tokens ++ [">"]))))) := by
    simp [sumCoefTerm, VecTermExpr.tokens, coefTokens, RealExpr.tokens, RealTail.tokens,
      TermTail.tokens, NumExpr.tokens]
  have hw : (sumCoefTerm a b x y z).wellFormed = true := by
    simp [sumCoefTerm, VecTermExpr.wellFormed, coefWellFormed, RealExpr.wellFormed,
      RealTail.wellFormed, TermTail.wellFormed, NumExpr.wellFormed, validLiteral, ha, hva, hb,
      hvb, hx, hy, hz]
  have hval : (sumCoefTerm a b x y z).value
      = ⟨(va + vb) * x.value, (va + vb) * y.value, (va + vb) * z.value⟩ := by
    simp [sumCoefTerm, VecTermExpr.value, coefValue, RealExpr.value, RealTail.value,
      TermTail.value, NumExpr.value, hva, hvb, Vect3.smul]
  have hcost : (sumCoefTerm a b x y z).cost = x.cost + y.cost + z.cost + 10 := by
    simp [sumCoefTerm, VecTermExpr.cost, coefCost, RealExpr.cost, RealTail.cost, TermTail.cost,
      NumExpr.cost]
    omega
  obtain ⟨_, h2, h3, _⟩ := expressionEnds_stops hend
  rw [← htok] at hd hend h2 h3 ⊢
  constructor
  · rw [parseVectorTerm_value _ fuel ts hw hd h3 (by omega), hval]
  · have hv := parseVector_ends ⟨sumCoefTerm a b x y z, .done⟩ fuel ts
      (by simp [VecExpr.wellFormed, hw, VecTail.wellFormed])
      (by simpa [VecExpr.tokens, VecTail.tokens] using hd)
      (by simpa [VecExpr.tokens, VecTail.tokens] using hend)
      (by simp [VecExpr.cost, VecTail.cost]; omega)
    simpa [VecExpr.tokens, VecTail.tokens, VecExpr.value, VecTail.value, hval] using hv

/-- Witness for C20: `2 + 3 * < 1 , 2 , 3 >` gives (5,10,15), and
`0.1 + 0.2 * < 1 , 1 , 1 >` gives the double 0.30000000000000004 in every
component. -/
theorem parseVectorTerm_sum_coefficient_witness :
    validateNumber "2".data false = true ∧ sscanf_lf "2".data = some 2 ∧
    validateNumber "3".data false = true ∧ sscanf_lf "3".data = some 3 ∧
    parseVectorTerm 60 (ofList ["2", "+", "3", "*", "<", "1", ",", "2", ",", "3", ">"])
      = .ok ⟨5, 10, 15⟩ ⟨[], [""], [], [], 11, []⟩ ∧
    parseVector 60 (ofList ["2", "+", "3", "*", "<", "1", ",", "2", ",", "3", ">"])
      = .ok ⟨5, 10, 15⟩ ⟨[], [""], [], [], 11, []⟩ ∧
    parseVector 60 (ofList ["0.1", "+", "0.2", "*", "<", "1", ",", "1", ",", "1", ">"])
      = .ok ⟨threeTenthsUp, threeTenthsUp, threeTenthsUp⟩ ⟨[], [""], [], [], 11, []⟩ := by
  have h := parseVectorTerm_sum_coefficient "2" "3" 2 3 (litExpr "1") (litExpr "2") (litExpr "3")
    60 (ofList ["2", "+", "3", "*", "<", "1", ",", "2", ",", "3", ">"])
    (by decide) (by decide) (by decide) (by decide) (by decide) (by decide) (by decide)
    (by decide) (by decide) (by decide)
  have g := parseVectorTerm_sum_coefficient "0.1" "0.2" (Real.ofDecimal 1 1) (Real.ofDecimal 2 1)
    (litExpr "1") (litExpr "1") (litExpr "1")
    60 (ofList ["0.1", "+", "0.2", "*", "<", "1", ",", "1", ",", "1", ">"])
    (by decide) (by decide) (by decide) (by decide) (by decide) (by decide) (by decide)
    (by decide) (by decide) (by decide)
  refine ⟨by decide, by decide, by decide, by decide, ?_, ?_, ?_⟩
  · rw [h.1]; decide
  · rw [h.2]; decide
  · rw [g.2]; decide

/-! ## Pending tokens -/

theorem pushback_getToken (ts : TokenStream) (h : ts.pushback = []) :
    (getToken ts).2.pushback = [] := by
  unfold getToken
  rw [h]
  cases ts.expansion with
  | nil => simp only [h]
  | cons t ex => simp only [h]

theorem pushback_past (l : List Token) (ts : TokenStream) (h : ts.pushback = []) :
    (past ts l).pushback = [] := by
  induction l generalizing ts with
  | nil => exact h
  | cons t l ih => exact ih _ (pushback_getToken ts h)

theorem pushback_peekToken (ts : TokenStream) (h : ts.pushback = []) :
    (peekToken ts).2.pushback = [(getToken ts).1] := by
  simp [peekToken, ungetToken, pushback_getToken ts h]

theorem parsedSetModifiers_none (K : Externals) (set : List Object) (ts : TokenStream)
    (h1 : (getToken ts).1 ≠ "unit") (h2 : (getToken ts).1 ≠ "center") :
    parsedSetModifiers K set ts = .ok (false, set) (peekToken ts).2 := by
  simp [parsedSetModifiers, h1, h2, peekToken_snd]

theorem parsedSetModifiers_command (K : Externals) (c : SetCommand) (st : MeshState)
    (ts : TokenStream) (hc : ∀ ps, c ≠ .material ps) (hd : Delivers ts c.tokens) :
    parsedSetModifiers K st.set ts = .ok (true, (c.apply K st).set) (past ts c.tokens) := by
  cases c with
  | unit axis =>
    simp only [SetCommand.tokens, delivers_cons, past_cons, past_nil] at hd ⊢
    obtain ⟨h0, h1, _⟩ := hd
    cases axis <;>
      simp [parsedSetModifiers, h0, h1, Axis.token, SetCommand.apply, Axis.component]
  | center =>
    simp only [SetCommand.tokens, delivers_cons, past_cons, past_nil] at hd ⊢
    have h0 : (getToken ts).1 = "center" := hd.1
    simp [parsedSetModifiers, h0, SetCommand.apply]
  | material ps => exact absurd rfl (hc ps)

theorem setCommand_tokens_head (c : SetCommand) :
    ∃ t l, c.tokens = t :: l ∧ notOperator t ∧
      (t ≠ "translate" ∧ t ≠ "scale" ∧ t ≠ "rotate" ∧ t ≠ "pinch") := by
  cases c with
  | unit axis => exact ⟨_, _, rfl, by decide, by decide⟩
  | center => exact ⟨_, _, rfl, by decide, by decide⟩
  | material ps => exact ⟨_, _, rfl, by decide, by decide⟩

theorem parsedMeshLoop_modifier (K : Externals) (m : Option ModClause) (fuel : Nat)
    (st : MeshState) (ts : TokenStream) (hw : optClauseWellFormed m = true)
    (hd : Delivers ts (optClauseTokens m))
    (hop : notOperator (getToken (past ts (optClauseTokens m))).1)
    (hk : m = none → (getToken ts).1 ≠ "translate" ∧ (getToken ts).1 ≠ "scale" ∧
      (getToken ts).1 ≠ "rotate" ∧ (getToken ts).1 ≠ "pinch")
    (hf : optClauseCost m ≤ fuel) :
    parsedMeshLoop K (fuel + 1) st.mod st.mat st.set ts
      = (parsedSetModifiers K (applyMeshModifier K m st).set
          (past ts (optClauseTokens m))).bind fun s ts2 =>
          if s.1 then
            parsedMeshLoop K fuel (applyMeshModifier K m st).mod (applyMeshModifier K m st).mat
              s.2 ts2
          else (parsedMaterial fuel (applyMeshModifier K m st).mat ts2).bind fun mm ts3 =>
            if mm.1 then parsedMeshLoop K fuel (applyMeshModifier K m st).mod mm.2 s.2 ts3
            else .ok (mm.2, s.2) ts3 := by
  conv_lhs => unfold parsedMeshLoop
  cases m with
  | none =>
    obtain ⟨h1, h2, h3, h4⟩ := hk rfl
    have hn : parsedModifier K fuel st.mod ts = .ok (false, st.mod) (peekToken ts).2 := by
      simp [parsedModifier, h1, h2, h3, h4, peekToken_snd]
    rw [hn]
    simp only [Res.bind, Bool.false_eq_true, if_false, parsedSetModifiers_peek, optClauseTokens,
      past_nil, applyMeshModifier]
  | some c =>
    simp only [optClauseTokens, optClauseWellFormed, optClauseCost] at hd hop hw hf ⊢
    rw [parsedModifier_clause K c fuel _ ts hw hd hop hf]
    simp only [Res.bind, if_true, parsedSetModifiers_peek]
    rfl

theorem parsedMeshLoop_step (K : Externals) (s : MeshStep) (fuel : Nat) (st : MeshState)
    (ts : TokenStream) (hw : s.wellFormed = true) (hd : Delivers ts s.tokens)
    (hf : s.cost ≤ fuel) :
    parsedMeshLoop K (fuel + 1) st.mod st.mat st.set ts
      = parsedMeshLoop K fuel (s.apply K st).mod (s.apply K st).mat (s.apply K st).set
          (past ts s.tokens) := by
  obtain ⟨m, c⟩ := s
  simp only [MeshStep.tokens, MeshStep.wellFormed, MeshStep.cost, MeshStep.apply, delivers_append,
    past_append, Bool.and_eq_true] at hd hw hf ⊢
  obtain ⟨t, l, htl, hop, hk⟩ := setCommand_tokens_head c
  have hhead : (getToken (past ts (optClauseTokens m))).1 = t := by
    have h2 := hd.2
    rw [htl, delivers_cons] at h2
    exact h2.1
  rw [parsedMeshLoop_modifier K m fuel st ts hw.1 hd.1 (by rw [hhead]; exact hop)
    (fun hm => by subst hm; simpa [optClauseTokens, past_nil] using hhead ▸ hk) (by omega)]
  cases c with
  | unit axis =>
    rw [parsedSetModifiers_command K (.unit axis) (applyMeshModifier K m st) _
      (by intro ps h; cases h) hd.2]
    simp only [Res.bind, if_true]
    rfl
  | center =>
    rw [parsedSetModifiers_command K .center (applyMeshModifier K m st) _
      (by intro ps h; cases h) hd.2]
    simp only [Res.bind, if_true]
    rfl
  | material ps =>
    simp only [SetCommand.tokens] at hd htl hw hf ⊢
    have h0 : (getToken (past ts (optClauseTokens m))).1 = "material" := hd.2.1
    rw [parsedSetModifiers_none K _ _ (by rw [h0]; decide) (by rw [h0]; decide)]
    simp only [Res.bind, Bool.false_eq_true, if_false, parsedMaterial_peek]
    rw [parsedMaterial_block ps fuel _ _ hw.2 hd.2 (by omega)]
    simp only [Res.bind, if_true]
    rfl

theorem parsedMeshLoop_last (K : Externals) (m : Option ModClause) (fuel : Nat)
    (st : MeshState) (ts : TokenStream) (hw : optClauseWellFormed m = true)
    (hd : Delivers ts (optClauseTokens m))
    (hop : notOperator (getToken (past ts (optClauseTokens m))).1)
    (hs : notSetKeyword (getToken (past ts (optClauseTokens m))).1)
    (hk : m = none → (getToken ts).1 ≠ "translate" ∧ (getToken ts).1 ≠ "scale" ∧
      (getToken ts).1 ≠ "rotate" ∧ (getToken ts).1 ≠ "pinch")
    (hf : optClauseCost m ≤ fuel) :
    parsedMeshLoop K (fuel + 1) st.mod st.mat st.set ts
      = .ok ((applyMeshModifier K m st).mat, (applyMeshModifier K m st).set)
          (peekToken (past ts (optClauseTokens m))).2 := by
  rw [parsedMeshLoop_modifier K m fuel st ts hw hd hop hk hf,
    parsedSetModifiers_none K _ _ hs.1 hs.2.1]
  simp only [Res.bind, Bool.false_eq_true, if_false, parsedMaterial_peek]
  rw [parsedMaterial_none fuel _ _ hs.2.2]
  simp only [Res.bind, Bool.false_eq_true, if_false]

theorem meshStep_tokens_head (s : MeshStep) :
    ∃ t l, s.tokens = t :: l ∧ notOperator t := by
  obtain ⟨m, c⟩ := s
  obtain ⟨t, l, htl, hop, _⟩ := setCommand_tokens_head c
  cases m with
  | none => exact ⟨t, l, by simp [MeshStep.tokens, optClauseTokens, htl], hop⟩
  | some c0 =>
    cases c0 <;>
      exact ⟨_, _, by simp only [MeshStep.tokens, optClauseTokens, ModClause.tokens,
        List.cons_append]; rfl, by decide⟩

theorem parsedMeshLoop_steps (K : Externals) (ss : List MeshStep) (m : Option ModClause)
    (fuel : Nat) (st : MeshState) (ts : TokenStream) (hw : stepsWellFormed ss = true)
    (hwm : optClauseWellFormed m = true)
    (hd : Delivers ts (stepsTokens ss ++ optClauseTokens m))
    (hop : notOperator (getToken (past ts (stepsTokens ss ++ optClauseTokens m))).1)
    (hs : notSetKeyword (getToken (past ts (stepsTokens ss ++ optClauseTokens m))).1)
    (hk : m = none →
      (getToken (past ts (stepsTokens ss))).1 ≠ "translate" ∧
      (getToken (past ts (stepsTokens ss))).1 ≠ "scale" ∧
      (getToken (past ts (stepsTokens ss))).1 ≠ "rotate" ∧
      (getToken (past ts (stepsTokens ss))).1 ≠ "pinch")
    (hf : stepsCost ss + optClauseCost m ≤ fuel) :
    parsedMeshLoop K fuel st.mod st.mat st.set ts
      = .ok ((applyMeshModifier K m (applySteps K ss st)).mat,
          (applyMeshModifier K m (applySteps K ss st)).set)
          (peekToken (past ts (stepsTokens ss ++ optClauseTokens m))).2 := by
  induction ss generalizing fuel st ts with
  | nil =>
    obtain ⟨f, rfl⟩ : ∃ f, fuel = f + 1 := ⟨fuel - 1, by simp [stepsCost] at hf; omega⟩
    simp only [stepsTokens, List.nil_append, past_nil, applySteps, stepsCost] at hd hop hs hk hf ⊢
    exact parsedMeshLoop_last K m f st ts hwm hd hop hs hk (by omega)
  | cons s ss ih =>
    obtain ⟨f, rfl⟩ : ∃ f, fuel = f + 1 := ⟨fuel - 1, by simp [stepsCost] at hf; omega⟩
    simp only [stepsWellFormed, Bool.and_eq_true, stepsCost] at hw hf
    simp only [stepsTokens, past_append] at hk
    rw [stepsTokens, List.append_assoc] at hd hop hs
    rw [delivers_append] at hd
    rw [past_append] at hop hs
    rw [stepsTokens, List.append_assoc, past_append, applySteps,
      parsedMeshLoop_step K s f st ts hw.1 hd.1 (by omega)]
    exact ih f _ _ hw.2 hd.2 hop hs hk (by omega)

theorem parsedMesh_block (K : Externals) (file : Token) (ss : List MeshStep)
    (m : Option ModClause) (fuel : Nat) (scene : Scene) (ts : TokenStream)
    (hw : stepsWellFormed ss = true) (hwm : optClauseWellFormed m = true)
    (hd : Delivers ts ("OBJ" :: "\x7b" :: file :: (stepsTokens ss ++ optClauseTokens m ++ ["\x7d"])))
    (hf : stepsCost ss + optClauseCost m ≤ fuel) :
    parsedMesh K fuel scene ts
      = .ok (true, { scene with objects := scene.objects ++ (blockState K file ss m).objects })
          (past ts ("OBJ" :: "\x7b" :: file :: (stepsTokens ss ++ optClauseTokens m ++ ["\x7d"]))) := by
  simp only [delivers_cons, delivers_append, delivers_nil, and_true, past_cons, past_append,
    past_nil] at hd ⊢
  obtain ⟨h0, h1, h2, ⟨hss, hm⟩, hc⟩ := hd
  have hl := parsedMeshLoop_steps K ss m fuel ⟨⟨[]⟩, K.defaultMaterial, K.readOBJ file⟩
    (getToken (getToken (getToken ts).2).2).2 hw hwm ((delivers_append _ _ _).mpr ⟨hss, hm⟩)
    (by rw [past_append, hc]; decide) (by rw [past_append, hc]; decide)
    (fun hn => by subst hn; simp only [optClauseTokens, past_nil] at hc; rw [hc]; decide) hf
  rw [past_append] at hl
  simp only at hl
  unfold parsedMesh
  simp only [peekToken_fst, h0, ne_eq, not_true_eq_false, if_false, getToken_peekToken,
    expectToken_ok _ _ h1, Res.bind, h2, hl, expectToken_peek _ _ hc]
  rfl

theorem literalTriplet_010_value :
    (VecExpr.mk (literalTriplet "0" "1" "0") .done).value = ⟨0, 1, 0⟩ := by decide

theorem parsedMesh_after_modifier (K : Externals) (file : Token) (c : ModClause) (fuel : Nat)
    (scene : Scene) (ts : TokenStream) (hw : c.wellFormed = true)
    (hd : Delivers ts ("OBJ" :: "\x7b" :: file :: c.tokens))
    (hop : notOperator (getToken (past ts ("OBJ" :: "\x7b" :: file :: c.tokens))).1)
    (hs : notSetKeyword (getToken (past ts ("OBJ" :: "\x7b" :: file :: c.tokens))).1)
    (ht : (getToken (past ts ("OBJ" :: "\x7b" :: file :: c.tokens))).1 ≠ "\x7d")
    (hf : c.cost ≤ fuel) :
    parsedMesh K (fuel + 1) scene ts
      = .error ⟨"\x7d", (getToken (past ts ("OBJ" :: "\x7b" :: file :: c.tokens))).1,
          lineNumber (getToken (past ts ("OBJ" :: "\x7b" :: file :: c.tokens))).2⟩ := by
  simp only [delivers_cons, past_cons] at hd hop hs ht ⊢
  obtain ⟨h0, h1, h2, hc⟩ := hd
  have hl := parsedMeshLoop_last K (some c) fuel ⟨⟨[]⟩, K.defaultMaterial, K.readOBJ file⟩
    (getToken (getToken (getToken ts).2).2).2 hw hc hop hs (fun hn => by cases hn) hf
  simp only [optClauseTokens] at hl
  unfold parsedMesh
  simp only [peekToken_fst, h0, ne_eq, not_true_eq_false, if_false, getToken_peekToken,
    expectToken_ok _ _ h1, Res.bind, h2, hl]
  simp only [expectToken, getToken_peekToken, ht, if_false]

/-- C12: an OBJ block in which two modifier clauses follow one another directly is
rejected.  On `OBJ { f translate < 1 , 0 , 0 > scale < 2 , 2 , 2 > }` the loop of
`parsedMesh` reads the `translate` clause, its `continue` goes to the loop
condition, where `scale` is neither a set-level command nor a material block, so
the loop ends and `expectToken` finds `scale` where the closing brace is
required: for every fuel from 40 on the result is the parse error with expected
`\x7d`, actual `scale`, line 1.  Nothing of the `scale` clause is consumed as a
modifier. -/
theorem parsedMesh_two_modifiers_rejected (K : Externals) (scene : Scene) (fuel : Nat) :
    parsedMesh K (fuel + 40) scene (ofList meshTokensTwoModifiers)
      = .error ⟨"\x7d", "scale", 1⟩ := by
  have hc : clauseTranslate.cost ≤ 39 := by decide
  exact parsedMesh_after_modifier K "f" clauseTranslate (fuel + 39) scene
    (ofList meshTokensTwoModifiers) (by decide) (by decide) (by decide) (by decide) (by decide)
    (by omega)

/-- C13: an OBJ block applies the whole modifier accumulated so far each time a
modifier clause is read, so earlier operations are applied again.  On
`OBJ { f translate < 1 , 0 , 0 > center translate < 0 , 1 , 0 > }` the block
succeeds, and every member of the set ends with four operations beyond those it
had on import: translate (1,0,0), the centering translation, translate (1,0,0)
once more, and translate (0,1,0).  That differs from the three operations as
written, and for the sample set the origin is sent to (0, 1/2, -1/2) where the
three operations as written send it to (-1, 1/2, -1/2). -/
theorem parsedMesh_modifier_reapplied (K : Externals) (scene : Scene) (fuel : Nat) :
    (∃ sc ts1, parsedMesh K (fuel + 80) scene (ofList meshTokensCenter) = .ok (true, sc) ts1 ∧
      ts1 = past (ofList meshTokensCenter) meshTokensCenter ∧
      sc.objects = scene.objects ++ (K.readOBJ "f").map fun o =>
        ⟨⟨o.ops ++ [.translate ⟨1, 0, 0⟩,
          .translate (Vect3.neg (Vect3.sdiv (Vect3.add
            (K.getBounds ((K.readOBJ "f").map fun o => o.applyOp (.translate ⟨1, 0, 0⟩))).1
            (K.getBounds ((K.readOBJ "f").map fun o => o.applyOp (.translate ⟨1, 0, 0⟩))).2) 2)),
          .translate ⟨1, 0, 0⟩, .translate ⟨0, 1, 0⟩]⟩, K.defaultMaterial, o.shape⟩) ∧
    (∀ (ops : List ModOp) (c : Vect3),
      ops ++ [.translate ⟨1, 0, 0⟩, .translate c, .translate ⟨1, 0, 0⟩, .translate ⟨0, 1, 0⟩]
        ≠ ops ++ [.translate ⟨1, 0, 0⟩, .translate c, .translate ⟨0, 1, 0⟩]) ∧
    transformPoint [.translate ⟨1, 0, 0⟩, .translate ⟨-2, -1 / 2, -1 / 2⟩, .translate ⟨1, 0, 0⟩,
      .translate ⟨0, 1, 0⟩] ⟨0, 0, 0⟩ = some ⟨0, 1 / 2, -1 / 2⟩ ∧
    transformPoint [.translate ⟨1, 0, 0⟩, .translate ⟨-2, -1 / 2, -1 / 2⟩,
      .translate ⟨0, 1, 0⟩] ⟨0, 0, 0⟩ = some ⟨-1, 1 / 2, -1 / 2⟩ := by
  refine ⟨?_, ?_, ?_, ?_⟩
  · have hc : stepsCost [⟨some clauseTranslate, .center⟩] + optClauseCost (some clauseTranslateY)
        ≤ 80 := by decide
    have h := parsedMesh_block K "f" [⟨some clauseTranslate, .center⟩] (some clauseTranslateY)
      (fuel + 80) scene (ofList meshTokensCenter) (by decide) (by decide) (by decide) (by omega)
    refine ⟨_, _, h, rfl, ?_⟩
    have ht : ModClause.op K clauseTranslate = .translate ⟨1, 0, 0⟩ := by
      show ModOp.translate (VecExpr.mk (literalTriplet "1" "0" "0") .done).value = _
      rw [literalTriplet_100_value]
    have hy : ModClause.op K clauseTranslateY = .translate ⟨0, 1, 0⟩ := by
      show ModOp.translate (VecExpr.mk (literalTriplet "0" "1" "0") .done).value = _
      rw [literalTriplet_010_value]
    simp only [blockState, applySteps, MeshStep.apply, applyMeshModifier, SetCommand.apply,
      MeshState.objects, Modifier.apply, ht, hy, List.map_map, List.nil_append,
      Object.applyModifier, Object.applyOp, List.append_assoc, List.singleton_append,
      List.cons_append]
    congr 1
    apply List.map_congr_left
    intro o _
    simp [Function.comp]
  · intro ops c h
    have := congrArg List.length h
    simp at this
  · simp only [transformPoint, ModOp.transform, toPoint_100, toPoint_010, toPoint_centering,
      Option.map, Option.some.injEq, Point.mk.injEq]
    norm_num
  · simp only [transformPoint, ModOp.transform, toPoint_100, toPoint_010, toPoint_centering,
      Option.map, Option.some.injEq, Point.mk.injEq]
    norm_num

/-! ## Scene items -/

theorem parsedMacro_none (fuel : Nat) (ts : TokenStream) (h : (getToken ts).1 ≠ "Define") :
    parsedMacro fuel ts = .ok false (peekToken ts).2 := by
  simp [parsedMacro, peekToken_fst, h]

theorem parseShape_none (K : Externals) (fuel : Nat) (ts : TokenStream)
    (h : notSceneKeyword (getToken ts).1) :
    parseShape K fuel ts = .ok none (peekToken ts).2 := by
  obtain ⟨_, h1, h2, h3, h4, h5, _⟩ := h
  simp [parseShape, parseBox, parseSphere, parseCone, parsePlane, parseTriangle, peekToken_fst,
    getToken_peekToken, peekToken_peekToken, Res.bind, h1, h2, h3, h4, h5]

theorem parsedShape_none (K : Externals) (fuel : Nat) (scene : Scene) (ts : TokenStream)
    (h : notSceneKeyword (getToken ts).1) :
    parsedShape K fuel scene ts = .ok (false, scene) (peekToken ts).2 := by
  simp [parsedShape, parseShape_none K fuel ts h, Res.bind]

theorem parsedMesh_none (K : Externals) (fuel : Nat) (scene : Scene) (ts : TokenStream)
    (h : (getToken ts).1 ≠ "OBJ") :
    parsedMesh K fuel scene ts = .ok (false, scene) (peekToken ts).2 := by
  simp [parsedMesh, peekToken_fst, h]

theorem parsedLight_none (K : Externals) (fuel : Nat) (scene : Scene) (ts : TokenStream)
    (h : (getToken ts).1 ≠ "Light") :
    parsedLight K fuel scene ts = .ok (false, scene) (peekToken ts).2 := by
  simp [parsedLight, parseLight, peekToken_fst, h, Res.bind]

theorem parsedBG_none (fuel : Nat) (scene : Scene) (ts : TokenStream)
    (h : (getToken ts).1 ≠ "BGColor") :
    parsedBG fuel scene ts = .ok (false, scene) (peekToken ts).2 := by
  simp [parsedBG, peekToken_fst, h]

theorem parsedCamera_none (K : Externals) (fuel : Nat) (scene : Scene) (ts : TokenStream)
    (h : (getToken ts).1 ≠ "Camera") :
    parsedCamera K fuel scene ts = .ok (false, scene) (peekToken ts).2 := by
  simp [parsedCamera, peekToken_fst, h]

theorem parsedSceneItem_none (K : Externals) (fuel : Nat) (scene : Scene) (ts : TokenStream)
    (h : notSceneKeyword (getToken ts).1) :
    parsedSceneItem K fuel scene ts = .ok (false, scene) (peekToken ts).2 := by
  have hp : notSceneKeyword (getToken (peekToken ts).2).1 := by rw [getToken_peekToken]; exact h
  obtain ⟨h0, _, _, _, _, _, h6, h7, h8, h9⟩ := h
  have g6 : (getToken (peekToken ts).2).1 ≠ "OBJ" := by rw [getToken_peekToken]; exact h6
  have g7 : (getToken (peekToken ts).2).1 ≠ "Light" := by rw [getToken_peekToken]; exact h7
  have g8 : (getToken (peekToken ts).2).1 ≠ "BGColor" := by rw [getToken_peekToken]; exact h8
  have g9 : (getToken (peekToken ts).2).1 ≠ "Camera" := by rw [getToken_peekToken]; exact h9
  unfold parsedSceneItem
  rw [parsedMacro_none fuel ts h0]
  simp only [Res.bind, Bool.false_eq_true, if_false]
  rw [parsedShape_none K fuel scene _ hp]
  simp only [Res.bind, Bool.false_eq_true, if_false, peekToken_peekToken]
  rw [parsedMesh_none K fuel scene _ g6]
  simp only [Res.bind, Bool.false_eq_true, if_false, peekToken_peekToken]
  rw [parsedLight_none K fuel scene _ g7]
  simp only [Res.bind, Bool.false_eq_true, if_false, peekToken_peekToken]
  rw [parsedBG_none fuel scene _ g8]
  simp only [Res.bind, Bool.false_eq_true, if_false, peekToken_peekToken]
  rw [parsedCamera_none K fuel scene _ g9, peekToken_peekToken]

/-- C15: let the stream not be at end of input and let its next token `t` be neither
`EOF` nor one of the keywords Define, Box, Sphere, Cone, Plane, Triangle, OBJ,
Light, BGColor, Camera.  Then, on the stream as `parseInto` hands it over (with
`t` peeked), each of the six alternatives of `parsedSceneItem` reports no match
and returns that very stream, so does `parsedSceneItem`, and the next token read
is still `t`; `parseInto` ends, whatever the fuel beyond zero, with the parse
error whose expected tag is `_SceneItem_`, whose actual token is `t` and whose
line is the line of `t` (the line number is the same before and after `t` is
taken for the error). -/
theorem parseInto_stray_token (K : Externals) (fuel : Nat) (scene : Scene) (ts : TokenStream)
    (he : eof ts = false) (hE : (getToken ts).1 ≠ "EOF")
    (hk : notSceneKeyword (getToken ts).1) :
    parsedMacro fuel (peekToken ts).2 = .ok false (peekToken ts).2 ∧
    parsedShape K fuel scene (peekToken ts).2 = .ok (false, scene) (peekToken ts).2 ∧
    parsedMesh K fuel scene (peekToken ts).2 = .ok (false, scene) (peekToken ts).2 ∧
    parsedLight K fuel scene (peekToken ts).2 = .ok (false, scene) (peekToken ts).2 ∧
    parsedBG fuel scene (peekToken ts).2 = .ok (false, scene) (peekToken ts).2 ∧
    parsedCamera K fuel scene (peekToken ts).2 = .ok (false, scene) (peekToken ts).2 ∧
    parsedSceneItem K fuel scene (peekToken ts).2 = .ok (false, scene) (peekToken ts).2 ∧
    getToken (peekToken ts).2 = getToken ts ∧
    lineNumber (peekToken ts).2 = lineNumber (getToken ts).2 ∧
    parseInto K (fuel + 1) (some ts) scene
      = .error ⟨"_SceneItem_", (getToken ts).1, lineNumber (getToken ts).2⟩ := by
  have hp : notSceneKeyword (getToken (peekToken ts).2).1 := by rw [getToken_peekToken]; exact hk
  have hitem := parsedSceneItem_none K fuel scene _ hp
  rw [peekToken_peekToken] at hitem
  obtain ⟨h0, _, _, _, _, _, h6, h7, h8, h9⟩ := hp
  refine ⟨?_, ?_, ?_, ?_, ?_, ?_, hitem, getToken_peekToken ts, rfl, ?_⟩
  · simpa only [peekToken_peekToken] using parsedMacro_none fuel _ h0
  · have hp2 : notSceneKeyword (getToken (peekToken ts).2).1 := by
      rw [getToken_peekToken]; exact hk
    simpa only [peekToken_peekToken] using parsedShape_none K fuel scene _ hp2
  · simpa only [peekToken_peekToken] using parsedMesh_none K fuel scene _ h6
  · simpa only [peekToken_peekToken] using parsedLight_none K fuel scene _ h7
  · simpa only [peekToken_peekToken] using parsedBG_none fuel scene _ h8
  · simpa only [peekToken_peekToken] using parsedCamera_none K fuel scene _ h9
  · show parseIntoLoop K (fuel + 1) scene ts = _
    unfold parseIntoLoop
    simp only [he, Bool.not_false, Bool.true_and, peekToken_fst, ne_eq, hE, not_false_eq_true,
      decide_True, if_true, hitem, Res.bind, Bool.false_eq_true, if_false, getToken_peekToken]

/-- Witness for C15: at the stray token `Foo` on line 3 the error is
(`_SceneItem_`, `Foo`, 3), and `Foo` is still the next token after the failed
trials. -/
theorem parseInto_stray_token_witness :
    parsedSceneItem sampleExternals 0 emptyScene (peekToken strayStream).2
      = .ok (false, emptyScene) (peekToken strayStream).2 ∧
    (getToken (peekToken strayStream).2).1 = "Foo" ∧
    parseInto sampleExternals 1 (some strayStream) emptyScene
      = .error ⟨"_SceneItem_", "Foo", 3⟩ := by
  have h := parseInto_stray_token sampleExternals 0 emptyScene strayStream (by decide)
    (by decide) (by decide)
  exact ⟨h.2.2.2.2.2.2.1, by decide, h.2.2.2.2.2.2.2.2.2⟩

/-! ## Shape blocks -/

theorem vecExpr_starts (e : VecExpr) (ts : TokenStream) (hd : Delivers ts e.tokens)
    (h0 : startsWithoutOperator e.tokens) : expressionEnds ts := by
  obtain ⟨t, l, htl⟩ := vecExpr_tokens_cons e
  exact expressionEnds_of_head t l htl hd h0

theorem realExpr_starts (e : RealExpr) (ts : TokenStream) (hd : Delivers ts e.tokens)
    (h0 : startsWithoutOperator e.tokens) : expressionEnds ts := by
  obtain ⟨t, l, htl⟩ := realExpr_tokens_cons e
  exact expressionEnds_of_head t l htl hd h0

theorem parseReal_peeked (e : RealExpr) (fuel : Nat) (ts : TokenStream)
    (hw : e.wellFormed = true) (hd : Delivers ts e.tokens)
    (hend : expressionEnds (past ts e.tokens)) (hf : e.cost ≤ fuel) :
    parseReal fuel (peekToken ts).2 = .ok e.value (peekToken (past ts e.tokens)).2 := by
  rw [parseReal_peek]
  exact parseReal_ends e fuel ts hw hd hend hf

theorem bodyClose_head (body : List BodyItem) (ts : TokenStream)
    (hd : Delivers ts (bodyTokens body ++ ["\x7d"])) :
    expressionEnds ts ∧ (getToken ts).1 ≠ "<" ∧ (getToken ts).1 ≠ "nocaps" := by
  cases body with
  | nil =>
    have h : (getToken ts).1 = "\x7d" := hd.1
    unfold expressionEnds
    rw [h]
    exact ⟨by decide, by decide, by decide⟩
  | cons b bs =>
    obtain ⟨t, l, htl, hk, hop, hn⟩ := bodyItem_tokens_head b
    simp only [bodyTokens, htl, List.cons_append, delivers_cons] at hd
    unfold expressionEnds
    rw [hd.1]
    refine ⟨hop, ?_, hn⟩
    intro h
    apply hk
    rw [h]
    decide

theorem block_tail (K : Externals) (body : List BodyItem) (fuel : Nat) (obj : Object)
    (ts : TokenStream) (hw : bodyWellFormed body = true)
    (hd : Delivers ts (bodyTokens body ++ ["\x7d"])) (hf : bodyCost body ≤ fuel) :
    ((parseModifiers K fuel obj (peekToken ts).2).bind fun o ts4 =>
        (expectToken "\x7d" ts4).bind fun _ ts5 => .ok (some o) ts5)
      = .ok (some (applyBody K body obj)) (past ts (bodyTokens body ++ ["\x7d"])) := by
  rw [delivers_append] at hd
  have hc : (getToken (past ts (bodyTokens body))).1 = "\x7d" := hd.2.1
  have hend : bodyEnds (past ts (bodyTokens body)) := by
    unfold bodyEnds
    rw [hc]
    exact ⟨by decide, by decide⟩
  rw [parseModifiers_peek, parseModifiers_body K body fuel obj ts hw hd.1 hend hf]
  simp only [Res.bind, expectToken_peek _ _ hc, past_append, past_cons, past_nil]

theorem parseSphere_head (K : Externals) (c : VecExpr) (r : RealExpr) (fuel : Nat)
    (ts : TokenStream) (hc : c.wellFormed = true) (hr : r.wellFormed = true)
    (hd : Delivers ts ("Sphere" :: "\x7b" :: (c.tokens ++ r.tokens)))
    (hr0 : startsWithoutOperator r.tokens)
    (hend : expressionEnds (past ts ("Sphere" :: "\x7b" :: (c.tokens ++ r.tokens))))
    (hf : c.cost + r.cost ≤ fuel) :
    parseSphere K fuel ts
      = (parseModifiers K fuel (ShapeHead.object K (.sphere c r))
          (peekToken (past ts ("Sphere" :: "\x7b" :: (c.tokens ++ r.tokens)))).2).bind
          fun o ts4 => (expectToken "\x7d" ts4).bind fun _ ts5 => .ok (some o) ts5 := by
  simp only [delivers_cons, delivers_append] at hd
  simp only [past_cons, past_append] at hend ⊢
  obtain ⟨hk, hb, hdc, hdr⟩ := hd
  have hmid := realExpr_starts r _ hdr hr0
  have pc := parseVector_ends c fuel _ hc hdc hmid (by omega)
  have pr := parseReal_peeked r fuel _ hr hdr hend (by omega)
  unfold parseSphere
  simp only [peekToken_fst, hk, ne_eq, not_true_eq_false, if_false, getToken_peekToken,
    expectToken_ok _ _ hb, Res.bind, pc, pr]
  rfl

theorem parsePlane_head (K : Externals) (A N : VecExpr) (fuel : Nat)
    (ts : TokenStream) (hA : A.wellFormed = true) (hN : N.wellFormed = true)
    (hd : Delivers ts ("Plane" :: "\x7b" :: (A.tokens ++ N.tokens)))
    (hN0 : startsWithoutOperator N.tokens)
    (hend : expressionEnds (past ts ("Plane" :: "\x7b" :: (A.tokens ++ N.tokens))))
    (hf : A.cost + N.cost ≤ fuel) :
    parsePlane K fuel ts
      = (parseModifiers K fuel (ShapeHead.object K (.plane A N))
          (peekToken (past ts ("Plane" :: "\x7b" :: (A.tokens ++ N.tokens)))).2).bind
          fun o ts4 => (expectToken "\x7d" ts4).bind fun _ ts5 => .ok (some o) ts5 := by
  simp only [delivers_cons, delivers_append] at hd
  simp only [past_cons, past_append] at hend ⊢
  obtain ⟨hk, hb, hdA, hdN⟩ := hd
  have hmid := vecExpr_starts N _ hdN hN0
  have pA := parseVector_ends A fuel _ hA hdA hmid (by omega)
  have pN := parseVector_peeked N fuel _ hN hdN hend (by omega)
  unfold parsePlane
  simp only [peekToken_fst, hk, ne_eq, not_true_eq_false, if_false, getToken_peekToken,
    expectToken_ok _ _ hb, Res.bind, pA, pN]
  rfl

theorem parseTriangle_head (K : Externals) (a b c : VecExpr) (fuel : Nat)
    (ts : TokenStream) (ha : a.wellFormed = true) (hb : b.wellFormed = true)
    (hc : c.wellFormed = true)
    (hd : Delivers ts ("Triangle" :: "\x7b" :: (a.tokens ++ (b.tokens ++ c.tokens))))
    (hb0 : startsWithoutOperator b.tokens) (hc0 : startsWithoutOperator c.tokens)
    (hend : expressionEnds
      (past ts ("Triangle" :: "\x7b" :: (a.tokens ++ (b.tokens ++ c.tokens)))))
    (hnl : (getToken
      (past ts ("Triangle" :: "\x7b" :: (a.tokens ++ (b.tokens ++ c.tokens))))).1 ≠ "<")
    (hf : a.cost + b.cost + c.cost ≤ fuel) :
    parseTriangle K fuel ts
      = (parseModifiers K fuel (ShapeHead.object K (.triangle a b c))
          (peekToken (past ts
            ("Triangle" :: "\x7b" :: (a.tokens ++ (b.tokens ++ c.tokens))))).2).bind
          fun o ts4 => (expectToken "\x7d" ts4).bind fun _ ts5 => .ok (some o) ts5 := by
  simp only [delivers_cons, delivers_append] at hd
  simp only [past_cons, past_append] at hend hnl ⊢
  obtain ⟨hk, hbr, hda, hdb, hdc⟩ := hd
  have hm1 := vecExpr_starts b _ hdb hb0
  have hm2 := vecExpr_starts c _ hdc hc0
  have pa := parseVector_ends a fuel _ ha hda hm1 (by omega)
  have pb := parseVector_peeked b fuel _ hb hdb hm2 (by omega)
  have pc := parseVector_peeked c fuel _ hc hdc hend (by omega)
  unfold parseTriangle
  simp only [peekToken_fst, hk, ne_eq, not_true_eq_false, if_false, getToken_peekToken,
    expectToken_ok _ _ hbr, Res.bind, pa, pb, pc, hnl, peekToken_peekToken]
  rfl

theorem parseTriangle_interp_head (K : Externals) (a b c n0 n1 n2 : VecExpr) (fuel : Nat)
    (ts : TokenStream) (hw : (ShapeHead.interpTriangle a b c n0 n1 n2).wellFormed = true)
    (hd : Delivers ts (ShapeHead.interpTriangle a b c n0 n1 n2).tokens)
    (hend : expressionEnds (past ts (ShapeHead.interpTriangle a b c n0 n1 n2).tokens))
    (hf : (ShapeHead.interpTriangle a b c n0 n1 n2).cost ≤ fuel) :
    parseTriangle K fuel ts
      = (parseModifiers K fuel (ShapeHead.object K (.interpTriangle a b c n0 n1 n2))
          (peekToken (past ts (ShapeHead.interpTriangle a b c n0 n1 n2).tokens)).2).bind
          fun o ts4 => (expectToken "\x7d" ts4).bind fun _ ts5 => .ok (some o) ts5 := by
  simp only [ShapeHead.wellFormed, Bool.and_eq_true, decide_eq_true_eq] at hw
  obtain ⟨⟨⟨⟨⟨⟨⟨⟨⟨⟨ha, hb⟩, hc⟩, hn0⟩, hn1⟩, hn2⟩, hb0⟩, hc0⟩, hlt⟩, hn10⟩, hn20⟩ := hw
  simp only [ShapeHead.tokens, delivers_cons, delivers_append] at hd
  simp only [ShapeHead.tokens, past_cons, past_append] at hend ⊢
  simp only [ShapeHead.cost] at hf
  obtain ⟨hk, hbr, hda, hdb, hdc, hdn0, hdn1, hdn2⟩ := hd
  obtain ⟨t, l, htl⟩ := vecExpr_tokens_cons n0
  have ht : t = "<" := by
    rw [htl] at hlt
    simpa using hlt
  subst ht
  have hlt0 : (getToken (past (past (past (getToken (getToken ts).2).2 a.tokens) b.tokens)
      c.tokens)).1 = "<" := by
    rw [htl] at hdn0
    exact hdn0.1
  have hm1 := vecExpr_starts b _ hdb hb0
  have hm2 := vecExpr_starts c _ hdc hc0
  have hm3 : expressionEnds (past (past (past (getToken (getToken ts).2).2 a.tokens) b.tokens)
      c.tokens) := by
    unfold expressionEnds
    rw [hlt0]
    decide
  have hm4 := vecExpr_starts n1 _ hdn1 hn10
  have hm5 := vecExpr_starts n2 _ hdn2 hn20
  have pa := parseVector_ends a fuel _ ha hda hm1 (by omega)
  have pb := parseVector_peeked b fuel _ hb hdb hm2 (by omega)
  have pc := parseVector_peeked c fuel _ hc hdc hm3 (by omega)
  have p0 := parseVector_peeked n0 fuel _ hn0 hdn0 hm4 (by omega)
  have p1 := parseVector_peeked n1 fuel _ hn1 hdn1 hm5 (by omega)
  have p2 := parseVector_peeked n2 fuel _ hn2 hdn2 hend (by omega)
  unfold parseTriangle
  simp only [peekToken_fst, hk, ne_eq, not_true_eq_false, if_false, getToken_peekToken,
    expectToken_ok _ _ hbr, Res.bind, pa, pb, pc, hlt0, if_true, peekToken_peekToken, p0, p1, p2]
  rfl

theorem parseSphere_peek (K : Externals) (fuel : Nat) (ts : TokenStream) :
    parseSphere K fuel (peekToken ts).2 = parseSphere K fuel ts := by
  unfold parseSphere
  simp only [peekToken_fst, getToken_peekToken, peekToken_peekToken]

theorem parseCone_peek (K : Externals) (fuel : Nat) (ts : TokenStream) :
    parseCone K fuel (peekToken ts).2 = parseCone K fuel ts := by
  unfold parseCone
  simp only [peekToken_fst, getToken_peekToken, peekToken_peekToken]

theorem parsePlane_peek (K : Externals) (fuel : Nat) (ts : TokenStream) :
    parsePlane K fuel (peekToken ts).2 = parsePlane K fuel ts := by
  unfold parsePlane
  simp only [peekToken_fst, getToken_peekToken, peekToken_peekToken]

theorem parseTriangle_peek (K : Externals) (fuel : Nat) (ts : TokenStream) :
    parseTriangle K fuel (peekToken ts).2 = parseTriangle K fuel ts := by
  unfold parseTriangle
  simp only [peekToken_fst, getToken_peekToken, peekToken_peekToken]

theorem parseBox_peek (K : Externals) (fuel : Nat) (ts : TokenStream) :
    parseBox K fuel (peekToken ts).2 = parseBox K fuel ts := by
  unfold parseBox
  simp only [peekToken_fst, getToken_peekToken, peekToken_peekToken]

theorem parseBox_none (K : Externals) (fuel : Nat) (ts : TokenStream)
    (h : (getToken ts).1 ≠ "Box") : parseBox K fuel ts = .ok none (peekToken ts).2 := by
  simp [parseBox, peekToken_fst, h]

theorem parseSphere_none (K : Externals) (fuel : Nat) (ts : TokenStream)
    (h : (getToken ts).1 ≠ "Sphere") : parseSphere K fuel ts = .ok none (peekToken ts).2 := by
  simp [parseSphere, peekToken_fst, h]

theorem parseCone_none (K : Externals) (fuel : Nat) (ts : TokenStream)
    (h : (getToken ts).1 ≠ "Cone") : parseCone K fuel ts = .ok none (peekToken ts).2 := by
  simp [parseCone, peekToken_fst, h]

theorem parsePlane_none (K : Externals) (fuel : Nat) (ts : TokenStream)
    (h : (getToken ts).1 ≠ "Plane") : parsePlane K fuel ts = .ok none (peekToken ts).2 := by
  simp [parsePlane, peekToken_fst, h]

theorem parseShape_of_box (K : Externals) (fuel : Nat) (ts ts1 : TokenStream) (o : Object)
    (h : parseBox K fuel ts = .ok (some o) ts1) :
    parseShape K fuel ts = .ok (some o) ts1 := by
  simp [parseShape, h, Res.bind]

theorem parseShape_of_sphere (K : Externals) (fuel : Nat) (ts ts1 : TokenStream) (o : Object)
    (h0 : (getToken ts).1 = "Sphere") (h : parseSphere K fuel ts = .ok (some o) ts1) :
    parseShape K fuel ts = .ok (some o) ts1 := by
  unfold parseShape
  rw [parseBox_none K fuel ts (by rw [h0]; decide)]
  simp only [Res.bind, parseSphere_peek, h]

theorem parseShape_of_cone (K : Externals) (fuel : Nat) (ts ts1 : TokenStream) (o : Object)
    (h0 : (getToken ts).1 = "Cone") (h : parseCone K fuel ts = .ok (some o) ts1) :
    parseShape K fuel ts = .ok (some o) ts1 := by
  unfold parseShape
  rw [parseBox_none K fuel ts (by rw [h0]; decide)]
  simp only [Res.bind]
  rw [parseSphere_peek, parseSphere_none K fuel ts (by rw [h0]; decide)]
  simp only [Res.bind, parseCone_peek, h]

theorem parseShape_of_plane (K : Externals) (fuel : Nat) (ts ts1 : TokenStream) (o : Object)
    (h0 : (getToken ts).1 = "Plane") (h : parsePlane K fuel ts = .ok (some o) ts1) :
    parseShape K fuel ts = .ok (some o) ts1 := by
  unfold parseShape
  rw [parseBox_none K fuel ts (by rw [h0]; decide)]
  simp only [Res.bind]
  rw [parseSphere_peek, parseSphere_none K fuel ts (by rw [h0]; decide)]
  simp only [Res.bind]
  rw [parseCone_peek, parseCone_none K fuel ts (by rw [h0]; decide)]
  simp only [Res.bind, parsePlane_peek, h]

theorem parseShape_of_triangle (K : Externals) (fuel : Nat) (ts ts1 : TokenStream) (o : Object)
    (h0 : (getToken ts).1 = "Triangle") (h : parseTriangle K fuel ts = .ok (some o) ts1) :
    parseShape K fuel ts = .ok (some o) ts1 := by
  unfold parseShape
  rw [parseBox_none K fuel ts (by rw [h0]; decide)]
  simp only [Res.bind]
  rw [parseSphere_peek, parseSphere_none K fuel ts (by rw [h0]; decide)]
  simp only [Res.bind]
  rw [parseCone_peek, parseCone_none K fuel ts (by rw [h0]; decide)]
  simp only [Res.bind]
  rw [parsePlane_peek, parsePlane_none K fuel ts (by rw [h0]; decide)]
  simp only [Res.bind, parseTriangle_peek, h]

theorem parseShape_block (K : Externals) (h : ShapeHead) (body : List BodyItem) (fuel : Nat)
    (ts : TokenStream) (hw : h.wellFormed = true) (hwb : bodyWellFormed body = true)
    (hd : Delivers ts (h.tokens ++ (bodyTokens body ++ ["\x7d"])))
    (hf : h.cost + bodyCost body ≤ fuel) :
    parseShape K fuel ts = .ok (some (applyBody K body (h.object K)))
      (past ts (h.tokens ++ (bodyTokens body ++ ["\x7d"]))) := by
  rw [delivers_append] at hd
  rw [past_append]
  obtain ⟨hend, hnl, _⟩ := bodyClose_head body _ hd.2
  have htail := block_tail K body fuel (h.object K) _ hwb hd.2 (by omega)
  cases h with
  | box U L =>
    simp only [ShapeHead.wellFormed, Bool.and_eq_true, decide_eq_true_eq] at hw
    simp only [ShapeHead.cost] at hf
    apply parseShape_of_box
    rw [parseBox_corners K U L fuel ts hw.1.1 hw.1.2 hd.1 hw.2 hend (by omega)]
    exact htail
  | sphere c r =>
    simp only [ShapeHead.wellFormed, Bool.and_eq_true, decide_eq_true_eq] at hw
    simp only [ShapeHead.cost] at hf
    apply parseShape_of_sphere K fuel ts _ _ hd.1.1
    rw [parseSphere_head K c r fuel ts hw.1.1 hw.1.2 hd.1 hw.2 hend (by omega)]
    exact htail
  | plane A N =>
    simp only [ShapeHead.wellFormed, Bool.and_eq_true, decide_eq_true_eq] at hw
    simp only [ShapeHead.cost] at hf
    apply parseShape_of_plane K fuel ts _ _ hd.1.1
    rw [parsePlane_head K A N fuel ts hw.1.1 hw.1.2 hd.1 hw.2 hend (by omega)]
    exact htail
  | triangle a b c =>
    simp only [ShapeHead.wellFormed, Bool.and_eq_true, decide_eq_true_eq] at hw
    simp only [ShapeHead.cost] at hf
    apply parseShape_of_triangle K fuel ts _ _ hd.1.1
    rw [parseTriangle_head K a b c fuel ts hw.1.1.1.1 hw.1.1.1.2 hw.1.1.2 hd.1 hw.1.2 hw.2
      hend hnl (by omega)]
    exact htail
  | interpTriangle a b c n0 n1 n2 =>
    apply parseShape_of_triangle K fuel ts _ _ hd.1.1
    rw [parseTriangle_interp_head K a b c n0 n1 n2 fuel ts hw hd.1 hend (by omega)]
    exact htail

theorem parseCone_block (K : Externals) (pre : List BodyItem) (fuel : Nat) (ts : TokenStream)
    (hw : bodyWellFormed pre = true)
    (hd : Delivers ts ("Cone" :: "\x7b" :: (bodyTokens pre ++ ["\x7d"])))
    (hf : bodyCost pre ≤ fuel) :
    parseCone K fuel ts = .ok (some (applyBody K pre (freshCone K)))
      (past ts ("Cone" :: "\x7b" :: (bodyTokens pre ++ ["\x7d"]))) := by
  simp only [delivers_cons, delivers_append, delivers_nil, and_true, past_cons, past_append,
    past_nil] at hd ⊢
  obtain ⟨h0, h1, hp, hc⟩ := hd
  have hend : coneEnds (past (getToken (getToken ts).2).2 (bodyTokens pre)) := by
    unfold coneEnds bodyEnds
    rw [hc]
    exact ⟨⟨by decide, by decide⟩, by decide⟩
  rw [parseCone_of_loop K fuel ts h0 h1, parseConeLoop_body K pre fuel _ _ hw hp hend hf]
  simp only [Res.bind, expectToken_peek _ _ hc]

theorem parseCone_nocaps_block (K : Externals) (pre post : List BodyItem) (fuel : Nat)
    (ts : TokenStream) (hwp : bodyWellFormed pre = true) (hwq : bodyWellFormed post = true)
    (hd : Delivers ts
      ("Cone" :: "\x7b" :: (bodyTokens pre ++ "nocaps" :: (bodyTokens post ++ ["\x7d"]))))
    (hf : bodyCost pre + bodyCost post ≤ fuel) :
    parseCone K fuel ts = .ok (some (applyBody K (pre ++ post) (freshCone K)).noCaps)
      (past ts
        ("Cone" :: "\x7b" :: (bodyTokens pre ++ "nocaps" :: (bodyTokens post ++ ["\x7d"])))) := by
  have e1 : bodyTokens pre ++ "nocaps" :: (bodyTokens post ++ ["\x7d"])
      = (bodyTokens pre ++ "nocaps" :: bodyTokens post) ++ ["\x7d"] := by simp
  rw [e1] at hd ⊢
  rw [delivers_cons, delivers_cons, delivers_append] at hd
  rw [past_cons, past_cons, past_append]
  obtain ⟨h0, h1, hp, hc⟩ := hd
  have hc1 : (getToken (past (getToken (getToken ts).2).2
      (bodyTokens pre ++ "nocaps" :: bodyTokens post))).1 = "\x7d" := hc.1
  have hend : coneEnds (past (getToken (getToken ts).2).2
      (bodyTokens pre ++ "nocaps" :: bodyTokens post)) := by
    unfold coneEnds bodyEnds
    rw [hc1]
    exact ⟨⟨by decide, by decide⟩, by decide⟩
  rw [parseCone_of_loop K fuel ts h0 h1,
    parseConeLoop_pre_nocaps K pre post fuel _ _ hwp hwq hp hend hf]
  simp only [Res.bind, expectToken_peek _ _ hc1, past_cons, past_nil]

/-! ## Light blocks -/

theorem parseLightLoop_peek (fuel : Nat) (light : Light) (ts : TokenStream) :
    parseLightLoop fuel light (peekToken ts).2 = parseLightLoop fuel light ts := by
  cases fuel with
  | zero => rfl
  | succ f =>
    unfold parseLightLoop
    simp only [peekToken_fst, getToken_peekToken, peekToken_peekToken]

theorem lightClose_head (ps : List LightProp) (ts : TokenStream)
    (hd : Delivers ts (lightTokens ps ++ ["\x7d"])) : expressionEnds ts := by
  unfold expressionEnds
  cases ps with
  | nil =>
    have h : (getToken ts).1 = "\x7d" := hd.1
    rw [h]
    decide
  | cons p ps =>
    cases p <;>
    · simp only [lightTokens, LightProp.tokens, List.cons_append, delivers_cons] at hd
      rw [hd.1]
      decide

theorem parseLightLoop_props (ps : List LightProp) (fuel : Nat) (light : Light)
    (ts : TokenStream) (hw : lightWellFormed ps = true)
    (hd : Delivers ts (lightTokens ps ++ ["\x7d"])) (hf : lightCost ps ≤ fuel) :
    parseLightLoop fuel light ts
      = .ok (applyLightProps ps light) (peekToken (past ts (lightTokens ps))).2 := by
  induction ps generalizing fuel light ts with
  | nil =>
    obtain ⟨f, rfl⟩ : ∃ f, fuel = f + 1 := ⟨fuel - 1, by simp [lightCost] at hf; omega⟩
    have h : (getToken ts).1 = "\x7d" := hd.1
    unfold parseLightLoop
    simp only [peekToken_fst, h, ne_eq, not_true_eq_false, if_false, lightTokens, past_nil,
      applyLightProps]
  | cons p ps ih =>
    obtain ⟨f, rfl⟩ : ∃ f, fuel = f + 1 := ⟨fuel - 1, by simp [lightCost] at hf; omega⟩
    simp only [lightTokens, List.append_assoc, lightWellFormed, Bool.and_eq_true,
      lightCost] at hd hw hf ⊢
    rw [delivers_append] at hd
    rw [past_append]
    have hmid := lightClose_head ps _ hd.2
    have hrec := ih f (p.apply light) _ hw.2 hd.2 (by omega)
    conv_lhs => unfold parseLightLoop
    cases p with
    | intensity e =>
      simp only [LightProp.tokens, delivers_cons, past_cons, LightProp.wellFormed,
        LightProp.cost] at hd hmid hw hf hrec ⊢
      have pe := parseReal_ends e f _ hw.1 hd.1.2 hmid (by omega)
      simp only [peekToken_fst, hd.1.1, ne_eq, getToken_peekToken, if_true, pe, Res.bind,
        parseLightLoop_peek]
      simp only [show ¬ ("intensity" : Token) = "\x7d" by decide, not_false_eq_true, if_true]
      exact hrec
    | radius e =>
      simp only [LightProp.tokens, delivers_cons, past_cons, LightProp.wellFormed,
        LightProp.cost] at hd hmid hw hf hrec ⊢
      have pe := parseReal_ends e f _ hw.1 hd.1.2 hmid (by omega)
      simp only [peekToken_fst, hd.1.1, ne_eq, getToken_peekToken, if_true, pe, Res.bind,
        parseLightLoop_peek]
      simp only [show ¬ ("radius" : Token) = "\x7d" by decide, not_false_eq_true, if_true,
        show ¬ ("radius" : Token) = "intensity" by decide, if_false, pe, Res.bind,
        parseLightLoop_peek]
      exact hrec
    | falloff =>
      simp only [LightProp.tokens, delivers_cons, past_cons, past_nil] at hd hrec ⊢
      simp only [peekToken_fst, hd.1.1, ne_eq, getToken_peekToken]
      simp only [show ¬ ("falloff" : Token) = "\x7d" by decide, not_false_eq_true, if_true,
        show ¬ ("falloff" : Token) = "intensity" by decide,
        show ¬ ("falloff" : Token) = "radius" by decide, if_false]
      exact hrec

theorem parseLight_block (K : Externals) (p c : VecExpr) (props : List LightProp) (fuel : Nat)
    (ts : TokenStream) (hp : p.wellFormed = true) (hc : c.wellFormed = true)
    (hc0 : startsWithoutOperator c.tokens) (hwl : lightWellFormed props = true)
    (hd : Delivers ts
      ("Light" :: "\x7b" :: (p.tokens ++ (c.tokens ++ (lightTokens props ++ ["\x7d"])))))
    (hf : p.cost + c.cost + lightCost props ≤ fuel) :
    parseLight K fuel ts
      = .ok (some (applyLightProps props
          { K.defaultLight with position := p.value, color := c.value }))
          (past ts
            ("Light" :: "\x7b" :: (p.tokens ++ (c.tokens ++ (lightTokens props ++ ["\x7d"]))))) := by
  rw [delivers_cons, delivers_cons, delivers_append, delivers_append] at hd
  rw [past_cons, past_cons, past_append, past_append, past_append]
  obtain ⟨hk, hb, hdp, hdc, hdl⟩ := hd
  have hm1 := vecExpr_starts c _ hdc hc0
  have hm2 := lightClose_head props _ hdl
  have pp := parseVector_ends p fuel _ hp hdp hm1 (by omega)
  have pc := parseVector_peeked c fuel _ hc hdc hm2 (by omega)
  have pl := parseLightLoop_props props fuel
    { K.defaultLight with position := p.value, color := c.value } _ hwl hdl (by omega)
  rw [delivers_append] at hdl
  have hcl : (getToken (past (past (past (getToken (getToken ts).2).2 p.tokens) c.tokens)
      (lightTokens props))).1 = "\x7d" := hdl.2.1
  unfold parseLight
  simp only [peekToken_fst, hk, ne_eq, not_true_eq_false, if_false, getToken_peekToken,
    expectToken_ok _ _ hb, Res.bind, pp, pc, parseLightLoop_peek, pl, expectToken_peek _ _ hcl,
    past_cons, past_nil]

/-! ## Macro definitions, background colour and camera -/

theorem eof_false_of_token (ts : TokenStream) (h : (getToken ts).1 ≠ eofToken) :
    eof ts = false := by
  by_contra he
  simp only [Bool.not_eq_false, eof, Bool.and_eq_true, List.isEmpty_iff] at he
  obtain ⟨⟨h1, h2⟩, h3⟩ := he
  apply h
  simp [getToken, h1, h2, h3, lexToken]

theorem parsedMacroLoop_body (body : List Token) (fuel : Nat) (mac : Macro) (ts : TokenStream)
    (hw : ∀ t ∈ body, t ≠ "\x7b" ∧ t ≠ "\x7d" ∧ t ≠ eofToken)
    (hd : Delivers ts (body ++ ["\x7d"])) (hf : body.length + 1 ≤ fuel) :
    parsedMacroLoop fuel 1 mac (getToken ts).1 (getToken ts).2
      = .ok ⟨mac.name, mac.tokens ++ body⟩ (past ts (body ++ ["\x7d"])) := by
  induction body generalizing fuel mac ts with
  | nil =>
    obtain ⟨f, rfl⟩ : ∃ f, fuel = f + 1 := ⟨fuel - 1, by simp at hf; omega⟩
    have h : (getToken ts).1 = "\x7d" := hd.1
    unfold parsedMacroLoop
    simp [h]
  | cons t body ih =>
    obtain ⟨f, rfl⟩ : ∃ f, fuel = f + 1 := ⟨fuel - 1, by simp at hf; omega⟩
    simp only [List.cons_append, delivers_cons, past_cons, List.length_cons] at hd hf ⊢
    obtain ⟨h1, h2, _⟩ := hw t (List.mem_cons_self t body)
    have hnext : (getToken (getToken ts).2).1 ≠ eofToken := by
      cases body with
      | nil =>
        have h : (getToken (getToken ts).2).1 = "\x7d" := hd.2.1
        rw [h]
        decide
      | cons u body =>
        have h : (getToken (getToken ts).2).1 = u := hd.2.1
        rw [h]
        exact (hw u (List.mem_cons_of_mem t (List.mem_cons_self u body))).2.2
    have he := eof_false_of_token _ hnext
    have hrec := ih f (mac.addToken t) (getToken ts).2
      (fun u hu => hw u (List.mem_cons_of_mem t hu)) hd.2 (by omega)
    conv_lhs => unfold parsedMacroLoop
    simp only [hd.1, ne_eq, h1, h2, not_false_eq_true, if_true, if_false, he, Bool.false_eq_true,
      hrec]
    simp [Macro.addToken]

theorem parsedMacro_block (name : Token) (body : List Token) (fuel : Nat) (ts : TokenStream)
    (hw : ∀ t ∈ body, t ≠ "\x7b" ∧ t ≠ "\x7d" ∧ t ≠ eofToken)
    (hd : Delivers ts ("Define" :: name :: "\x7b" :: (body ++ ["\x7d"])))
    (hf : body.length + 1 ≤ fuel) :
    parsedMacro fuel ts
      = .ok true (addMacro ⟨name, body⟩
          (past ts ("Define" :: name :: "\x7b" :: (body ++ ["\x7d"])))) := by
  rw [delivers_cons, delivers_cons, delivers_cons] at hd
  rw [past_cons, past_cons, past_cons]
  obtain ⟨h0, h1, h2, hb⟩ := hd
  have hl := parsedMacroLoop_body body fuel ⟨name, []⟩ _ hw hb hf
  unfold parsedMacro
  simp only [peekToken_fst, h0, ne_eq, not_true_eq_false, if_false, getToken_peekToken, h1,
    expectToken_ok _ _ h2, Res.bind, hl, List.nil_append]

theorem parsedBG_vector (v : VecExpr) (fuel : Nat) (scene : Scene) (ts : TokenStream)
    (hw : v.wellFormed = true) (hd : Delivers ts ("BGColor" :: v.tokens))
    (hend : expressionEnds (past ts ("BGColor" :: v.tokens))) (hf : v.cost ≤ fuel) :
    parsedBG fuel scene ts
      = .ok (true, { scene with bgcolor := v.value })
          (peekToken (past ts ("BGColor" :: v.tokens))).2 := by
  rw [delivers_cons] at hd
  rw [past_cons] at hend ⊢
  have pv := parseVector_ends v fuel _ hw hd.2 hend hf
  unfold parsedBG
  simp only [peekToken_fst, hd.1, ne_eq, not_true_eq_false, if_false, getToken_peekToken, pv,
    Res.bind]

theorem parsedCamera_block (K : Externals) (body : List BodyItem) (fuel : Nat) (scene : Scene)
    (ts : TokenStream) (hw : bodyWellFormed body = true)
    (hd : Delivers ts ("Camera" :: "\x7b" :: (bodyTokens body ++ ["\x7d"])))
    (hf : bodyCost body ≤ fuel) :
    parsedCamera K fuel scene ts
      = .ok (true, { scene with camera := applyBody K body scene.camera })
          (past ts ("Camera" :: "\x7b" :: (bodyTokens body ++ ["\x7d"]))) := by
  rw [delivers_cons, delivers_cons, delivers_append] at hd
  rw [past_cons, past_cons, past_append]
  obtain ⟨h0, h1, hb, hc⟩ := hd
  have hc1 : (getToken (past (getToken (getToken ts).2).2 (bodyTokens body))).1 = "\x7d" := hc.1
  have hend : bodyEnds (past (getToken (getToken ts).2).2 (bodyTokens body)) := by
    unfold bodyEnds
    rw [hc1]
    exact ⟨by decide, by decide⟩
  have pm := parseModifiers_body K body fuel scene.camera _ hw hb hend hf
  unfold parsedCamera
  simp only [peekToken_fst, h0, ne_eq, not_true_eq_false, if_false, getToken_peekToken,
    expectToken_ok _ _ h1, Res.bind, pm, expectToken_peek _ _ hc1, past_cons, past_nil]

/-! ## Scene items in sequence -/

theorem parsedMacro_peek (fuel : Nat) (ts : TokenStream) :
    parsedMacro fuel (peekToken ts).2 = parsedMacro fuel ts := by
  unfold parsedMacro
  simp only [peekToken_fst, getToken_peekToken, peekToken_peekToken]

theorem parsedSceneItem_peek (K : Externals) (fuel : Nat) (scene : Scene) (ts : TokenStream) :
    parsedSceneItem K fuel scene (peekToken ts).2 = parsedSceneItem K fuel scene ts := by
  unfold parsedSceneItem
  rw [parsedMacro_peek]

theorem parsedShape_peek (K : Externals) (fuel : Nat) (scene : Scene) (ts : TokenStream) :
    parsedShape K fuel scene (peekToken ts).2 = parsedShape K fuel scene ts := by
  unfold parsedShape parseShape
  rw [parseBox_peek]

theorem parsedMesh_peek (K : Externals) (fuel : Nat) (scene : Scene) (ts : TokenStream) :
    parsedMesh K fuel scene (peekToken ts).2 = parsedMesh K fuel scene ts := by
  unfold parsedMesh
  simp only [peekToken_fst, getToken_peekToken, peekToken_peekToken]

theorem parsedLight_peek (K : Externals) (fuel : Nat) (scene : Scene) (ts : TokenStream) :
    parsedLight K fuel scene (peekToken ts).2 = parsedLight K fuel scene ts := by
  unfold parsedLight parseLight
  simp only [peekToken_fst, getToken_peekToken, peekToken_peekToken]

theorem parsedBG_peek (fuel : Nat) (scene : Scene) (ts : TokenStream) :
    parsedBG fuel scene (peekToken ts).2 = parsedBG fuel scene ts := by
  unfold parsedBG
  simp only [peekToken_fst, getToken_peekToken, peekToken_peekToken]

theorem parsedCamera_peek (K : Externals) (fuel : Nat) (scene : Scene) (ts : TokenStream) :
    parsedCamera K fuel scene (peekToken ts).2 = parsedCamera K fuel scene ts := by
  unfold parsedCamera
  simp only [peekToken_fst, getToken_peekToken, peekToken_peekToken]

theorem parsedShape_none_of (K : Externals) (fuel : Nat) (scene : Scene) (ts : TokenStream)
    (h : notShapeKeyword (getToken ts).1) :
    parsedShape K fuel scene ts = .ok (false, scene) (peekToken ts).2 := by
  obtain ⟨h1, h2, h3, h4, h5⟩ := h
  simp [parsedShape, parseShape, parseBox, parseSphere, parseCone, parsePlane, parseTriangle,
    peekToken_fst, getToken_peekToken, peekToken_peekToken, Res.bind, h1, h2, h3, h4, h5]

theorem parsedSceneItem_shape (K : Externals) (fuel : Nat) (scene : Scene) (ts ts1 : TokenStream)
    (o : Object) (h0 : (getToken ts).1 ≠ "Define")
    (h : parseShape K fuel ts = .ok (some o) ts1) :
    parsedSceneItem K fuel scene ts = .ok (true, scene.addObject o) ts1 := by
  have hp : parseShape K fuel (peekToken ts).2 = .ok (some o) ts1 := by
    unfold parseShape
    rw [parseBox_peek]
    exact h
  unfold parsedSceneItem
  rw [parsedMacro_none fuel ts h0]
  simp only [Res.bind, Bool.false_eq_true, if_false, parsedShape, hp, if_true]

theorem parsedSceneItem_item (K : Externals) (i : SceneItem) (fuel : Nat) (scene : Scene)
    (ts : TokenStream) (hw : i.wellFormed = true) (hd : Delivers ts i.tokens)
    (hend : i.endsAt (past ts i.tokens)) (hf : i.cost ≤ fuel) :
    parsedSceneItem K fuel scene ts = .ok (true, i.apply K scene) (i.after ts) := by
  cases i with
  | define name body =>
    simp only [SceneItem.wellFormed, List.all_eq_true, Bool.and_eq_true, decide_eq_true_eq,
      SceneItem.tokens, SceneItem.cost] at hw hd hf
    have hb : ∀ t ∈ body, t ≠ "\x7b" ∧ t ≠ "\x7d" ∧ t ≠ eofToken :=
      fun t ht => ⟨(hw t ht).1.1, (hw t ht).1.2, (hw t ht).2⟩
    unfold parsedSceneItem
    rw [parsedMacro_block name body fuel ts hb hd hf]
    rfl
  | shape h body =>
    simp only [SceneItem.wellFormed, Bool.and_eq_true, SceneItem.tokens, SceneItem.cost]
      at hw hd hf
    have h0 : (getToken ts).1 ≠ "Define" := by
      cases h <;>
      · have hk := (((delivers_append _ _ _).mp hd).1).1
        rw [hk]
        decide
    exact parsedSceneItem_shape K fuel scene ts _ _ h0
      (parseShape_block K h body fuel ts hw.1 hw.2 hd hf)
  | cone pre post =>
    cases post with
    | none =>
      simp only [SceneItem.wellFormed, SceneItem.tokens, SceneItem.cost] at hw hd hf
      have hk : (getToken ts).1 = "Cone" := hd.1
      exact parsedSceneItem_shape K fuel scene ts _ _ (by rw [hk]; decide)
        (parseShape_of_cone K fuel ts _ _ hk (parseCone_block K pre fuel ts hw hd hf))
    | some post =>
      simp only [SceneItem.wellFormed, Bool.and_eq_true, SceneItem.tokens, SceneItem.cost]
        at hw hd hf
      have hk : (getToken ts).1 = "Cone" := hd.1
      exact parsedSceneItem_shape K fuel scene ts _ _ (by rw [hk]; decide)
        (parseShape_of_cone K fuel ts _ _ hk
          (parseCone_nocaps_block K pre post fuel ts hw.1 hw.2 hd hf))
  | mesh file ss m =>
    simp only [SceneItem.wellFormed, Bool.and_eq_true, SceneItem.tokens, SceneItem.cost]
      at hw hd hf
    have hk : (getToken ts).1 = "OBJ" := hd.1
    unfold parsedSceneItem
    rw [parsedMacro_none fuel ts (by rw [hk]; decide)]
    simp only [Res.bind, Bool.false_eq_true, if_false]
    rw [parsedShape_peek, parsedShape_none_of K fuel scene ts (by rw [hk]; decide)]
    simp only [Res.bind, Bool.false_eq_true, if_false]
    rw [parsedMesh_peek, parsedMesh_block K file ss m fuel scene ts hw.1 hw.2 hd hf]
    rfl
  | light p c props =>
    simp only [SceneItem.wellFormed, Bool.and_eq_true, decide_eq_true_eq, SceneItem.tokens,
      SceneItem.cost] at hw hd hf
    have hk : (getToken ts).1 = "Light" := hd.1
    unfold parsedSceneItem
    rw [parsedMacro_none fuel ts (by rw [hk]; decide)]
    simp only [Res.bind, Bool.false_eq_true, if_false]
    rw [parsedShape_peek, parsedShape_none_of K fuel scene ts (by rw [hk]; decide)]
    simp only [Res.bind, Bool.false_eq_true, if_false]
    rw [parsedMesh_peek, parsedMesh_none K fuel scene ts (by rw [hk]; decide)]
    simp only [Res.bind, Bool.false_eq_true, if_false]
    rw [parsedLight_peek]
    unfold parsedLight
    rw [parseLight_block K p c props fuel ts hw.1.1.1 hw.1.1.2 hw.1.2 hw.2 hd hf]
    rfl
  | bgcolor v =>
    simp only [SceneItem.wellFormed, SceneItem.tokens, SceneItem.cost, SceneItem.endsAt]
      at hw hd hf hend
    have hk : (getToken ts).1 = "BGColor" := hd.1
    unfold parsedSceneItem
    rw [parsedMacro_none fuel ts (by rw [hk]; decide)]
    simp only [Res.bind, Bool.false_eq_true, if_false]
    rw [parsedShape_peek, parsedShape_none_of K fuel scene ts (by rw [hk]; decide)]
    simp only [Res.bind, Bool.false_eq_true, if_false]
    rw [parsedMesh_peek, parsedMesh_none K fuel scene ts (by rw [hk]; decide)]
    simp only [Res.bind, Bool.false_eq_true, if_false]
    rw [parsedLight_peek, parsedLight_none K fuel scene ts (by rw [hk]; decide)]
    simp only [Res.bind, Bool.false_eq_true, if_false]
    rw [parsedBG_peek, parsedBG_vector v fuel scene ts hw hd hend hf]
    rfl
  | camera body =>
    simp only [SceneItem.wellFormed, SceneItem.tokens, SceneItem.cost] at hw hd hf
    have hk : (getToken ts).1 = "Camera" := hd.1
    unfold parsedSceneItem
    rw [parsedMacro_none fuel ts (by rw [hk]; decide)]
    simp only [Res.bind, Bool.false_eq_true, if_false]
    rw [parsedShape_peek, parsedShape_none_of K fuel scene ts (by rw [hk]; decide)]
    simp only [Res.bind, Bool.false_eq_true, if_false]
    rw [parsedMesh_peek, parsedMesh_none K fuel scene ts (by rw [hk]; decide)]
    simp only [Res.bind, Bool.false_eq_true, if_false]
    rw [parsedLight_peek, parsedLight_none K fuel scene ts (by rw [hk]; decide)]
    simp only [Res.bind, Bool.false_eq_true, if_false]
    rw [parsedBG_peek, parsedBG_none fuel scene ts (by rw [hk]; decide)]
    simp only [Res.bind, Bool.false_eq_true, if_false]
    rw [parsedCamera_peek, parsedCamera_block K body fuel scene ts hw hd hf]
    rfl

theorem sceneItem_tokens_head (i : SceneItem) (hw : i.wellFormed = true) :
    ∃ t l, i.tokens = t :: l ∧ t ≠ eofToken ∧ t ≠ "EOF" := by
  cases i with
  | define name body => exact ⟨_, _, rfl, by decide, by decide⟩
  | shape h body => cases h <;> exact ⟨_, _, rfl, by decide, by decide⟩
  | cone pre post => cases post <;> exact ⟨_, _, rfl, by decide, by decide⟩
  | mesh file ss m => exact ⟨_, _, rfl, by decide, by decide⟩
  | light p c props => exact ⟨_, _, rfl, by decide, by decide⟩
  | bgcolor v => exact ⟨_, _, rfl, by decide, by decide⟩
  | camera body => exact ⟨_, _, rfl, by decide, by decide⟩

theorem parseIntoLoop_step (K : Externals) (i : SceneItem) (fuel : Nat) (scene : Scene)
    (ts : TokenStream) (hw : i.wellFormed = true) (hd : Delivers ts i.tokens)
    (hend : i.endsAt (past ts i.tokens)) (hf : i.cost ≤ fuel) :
    parseIntoLoop K (fuel + 1) scene ts = parseIntoLoop K fuel (i.apply K scene) (i.after ts) := by
  obtain ⟨t, l, htl, hne, hnE⟩ := sceneItem_tokens_head i hw
  have h0 : (getToken ts).1 = t := by
    rw [htl] at hd
    exact hd.1
  have he := eof_false_of_token ts (by rw [h0]; exact hne)
  conv_lhs => unfold parseIntoLoop
  rw [parsedSceneItem_peek, parsedSceneItem_item K i fuel scene ts hw hd hend hf]
  simp only [he, Bool.not_false, Bool.true_and, peekToken_fst, h0, ne_eq, hnE, not_false_eq_true,
    decide_True, if_true, Res.bind]

theorem eof_peekToken (ts : TokenStream) : eof (peekToken ts).2 = false := by
  simp [eof, peekToken, ungetToken]

theorem itemsAfter_bgcolor_last (is : List SceneItem) (v : VecExpr) (ts : TokenStream) :
    itemsAfter (is ++ [.bgcolor v]) ts
      = (peekToken (past (itemsAfter is ts) ("BGColor" :: v.tokens))).2 := by
  induction is generalizing ts with
  | nil => rfl
  | cons i is ih => exact ih (i.after ts)

theorem parseIntoLoop_items (K : Externals) (is : List SceneItem) (fuel : Nat) (scene : Scene)
    (ts : TokenStream) (hw : itemsWellFormed is = true) (hd : itemsDelivered is ts)
    (hf : itemsCost is ≤ fuel) :
    ((getToken (itemsAfter is ts)).1 = "EOF" →
      parseIntoLoop K fuel scene ts
        = .ok (applyItems K is scene) (peekToken (itemsAfter is ts)).2) ∧
    (eof (itemsAfter is ts) = true →
      parseIntoLoop K fuel scene ts = .ok (applyItems K is scene) (itemsAfter is ts)) ∧
    (eof (itemsAfter is ts) = false → (getToken (itemsAfter is ts)).1 ≠ "EOF" →
      notSceneKeyword (getToken (itemsAfter is ts)).1 →
      parseIntoLoop K fuel scene ts
        = .error ⟨"_SceneItem_", (getToken (itemsAfter is ts)).1,
            lineNumber (getToken (itemsAfter is ts)).2⟩) := by
  induction is generalizing fuel scene ts with
  | nil =>
    obtain ⟨f, rfl⟩ : ∃ f, fuel = f + 1 := ⟨fuel - 1, by simp [itemsCost] at hf; omega⟩
    simp only [itemsAfter, applyItems]
    refine ⟨?_, ?_, ?_⟩
    · intro hE
      have he := eof_false_of_token ts (by rw [hE]; decide)
      unfold parseIntoLoop
      simp [he, peekToken_fst, hE]
    · intro he
      unfold parseIntoLoop
      simp [he]
    · intro he hE hk
      have hp : notSceneKeyword (getToken (peekToken ts).2).1 := by
        rw [getToken_peekToken]; exact hk
      have hitem := parsedSceneItem_none K f scene _ hp
      rw [peekToken_peekToken] at hitem
      unfold parseIntoLoop
      simp only [he, Bool.not_false, Bool.true_and, peekToken_fst, ne_eq, hE, not_false_eq_true,
        decide_True, if_true, hitem, Res.bind, Bool.false_eq_true, if_false, getToken_peekToken]
  | cons i is ih =>
    obtain ⟨f, rfl⟩ : ∃ f, fuel = f + 1 := ⟨fuel - 1, by simp [itemsCost] at hf; omega⟩
    simp only [itemsWellFormed, Bool.and_eq_true, itemsCost] at hw hf
    obtain ⟨⟨hdi, hei⟩, hrest⟩ := hd
    simp only [itemsAfter, applyItems]
    rw [parseIntoLoop_step K i f scene ts hw.1 hdi hei (by omega)]
    exact ih f _ _ hw.2 hrest (by omega)

end ReiTrei5
